import Mathlib

/-!
# PMX binary model decoder (`pmx.h`): shallow embedding and verified properties

The decoder reads one forward-only `std::ifstream`.  The stream is embedded as the list of
bytes not yet extracted together with its fail bit; every `load` member function becomes a
function from the stream state (and the globals it consults) to the decoded value and the
stream state after it.  Floats are kept as the raw bytes read (4 per `float`), machine
integers are naturals or integers with explicit reduction modulo the width.

The source never tests the stream state and never validates a size.  A run that leaves the
defined behaviour of the program (it uses storage that a short read left unwritten, it
writes or indexes past an array, or it overflows a signed integer) is reported as a `Fault`;
a `Fault` is a property of the run, not an error value the program itself produces.
-/

namespace pmx

/-! ## Stream -/

/-- Ways in which a run leaves the defined behaviour of the program. -/
inductive Fault where
  /-- Storage that was default-initialised (a local, a `new T[n]` element) is used after a
  short read left it unwritten. -/
  | indeterminate
  /-- An access past the bound of an array (`u8str[1600]`, `symbols[2]`, the extra-UV store). -/
  | overrun
  /-- A signed integer is incremented past its largest value (`empty_count++` on an `int`
  that holds `INT_MAX`). -/
  | overflow
  /-- The iteration budget of a loop of the embedding ran out (never a behaviour of the source). -/
  | fuel
deriving DecidableEq, Repr

deriving instance DecidableEq for Except

/-- State of the `std::ifstream`: the bytes not yet extracted and the fail bit. -/
structure ifstream where
  buf : List Nat
  failbit : Bool
deriving DecidableEq, Repr

/-- Call `in.read(dst, n)` where `dst` holds the bytes `old` before the call: a stream that is not
good extracts nothing, a stream with fewer than `n` bytes left delivers them all and sets the
fail bit, and the part of `dst` that is not overwritten keeps its bytes.  The result is the
content of `dst` after the call. -/
def ifstream.read_into (s : ifstream) (n : Nat) (old : List Nat) : List Nat × ifstream :=
  if s.failbit then (old, s)
  else if n ≤ s.buf.length then (s.buf.take n ++ old.drop n, ⟨s.buf.drop n, false⟩)
  else (s.buf ++ old.drop s.buf.length, ⟨[], true⟩)

/-- Call `in.read(dst, n)` where `dst` is default-initialised storage: the `n` bytes when the
stream delivers them; otherwise `dst` stays (partly) indeterminate and the source goes on to
use it. -/
def ifstream.read (s : ifstream) (n : Nat) : Except Fault (List Nat × ifstream) :=
  if s.failbit = false ∧ n ≤ s.buf.length then .ok (s.read_into n [])
  else .error .indeterminate

/-- Number of bytes extracted between two stream states. -/
def consumed (s s' : ifstream) : Nat := s.buf.length - s'.buf.length

/-! ## Machine integers -/

/-- Value of a little-endian byte sequence (each element counts as one byte, modulo 256). -/
def le_value : List Nat → Nat
  | [] => 0
  | b :: bs => b % 256 + 256 * le_value bs

/-- The little-endian bytes of `v` in a field of `n` bytes. -/
def le_bytes : Nat → Nat → List Nat
  | 0, _ => []
  | n + 1, v => v % 256 :: le_bytes n (v / 256)

/-- Two's-complement reading of the low `bits` bits of `v` (`int8_t`, `int16_t`, `int32_t`). -/
def to_signed (bits : Nat) (v : Nat) : Int :=
  if v % 2 ^ bits < 2 ^ (bits - 1) then ((v % 2 ^ bits : Nat) : Int)
  else ((v % 2 ^ bits : Nat) : Int) - ((2 ^ bits : Nat) : Int)

/-! ## Enumerations -/

/-- Enumeration `index_type`. -/
inductive index_type where
  | VERTEX | TEXTURE | MATERIAL | BONE | MORPH | RIGID
deriving DecidableEq, Repr

/-- The integer value of an `index_type` enumerator (`(int)type`). -/
def index_type.toNat : index_type → Nat
  | .VERTEX => 0
  | .TEXTURE => 1
  | .MATERIAL => 2
  | .BONE => 3
  | .MORPH => 4
  | .RIGID => 5

def CONNECTION : Nat := 1 <<< 0
def ROTATABLE : Nat := 1 <<< 1
def MOVABLE : Nat := 1 <<< 2
def DISPLAY : Nat := 1 <<< 3
def CAN_OPERATE : Nat := 1 <<< 4
def INV_KINEMATICS : Nat := 1 <<< 5
def UNUSED : Nat := 1 <<< 6
def ADD_LOCAL_DEFORM : Nat := 1 <<< 7
def ADD_ROTATION : Nat := 1 <<< 8
def ADD_MOVEMENT : Nat := 1 <<< 9
def FIXED_AXIS : Nat := 1 <<< 10
def LOCAL_AXIS : Nat := 1 <<< 11
def PHYSICAL_TRANSFORM : Nat := 1 <<< 12
def EXTERNAL_PARENT_TRANSFORM : Nat := 1 <<< 13

/-! ## Header, info, index sizes -/

/-- Global `header`: `char signature[5]` and the raw bytes of `float version`. -/
structure header_t where
  signature : List Nat
  version : List Nat
deriving DecidableEq, Repr

/-- Member function `header_t::load`. -/
def header_t.load (self : header_t) (s : ifstream) : header_t × ifstream :=
  let r1 := s.read_into 4 self.signature
  let r2 := r1.2.read_into 4 self.version
  (⟨r1.1, r2.1⟩, r2.2)

/-- Global `info`. -/
structure info_t where
  data_count : Nat
  encoding_type : Nat
  additional_uv_count : Nat
deriving DecidableEq, Repr

/-- Member function `info_t::load`: three bytes into the object; the log line then indexes
the two-entry table `symbols` with `encoding_type`. -/
def info_t.load (self : info_t) (s : ifstream) : Except Fault (info_t × ifstream) :=
  let r := s.read_into 3 [self.data_count, self.encoding_type, self.additional_uv_count]
  let encoding_type := r.1.getD 1 0 % 256
  if encoding_type < 2 then
    .ok (⟨r.1.getD 0 0 % 256, encoding_type, r.1.getD 2 0 % 256⟩, r.2)
  else .error .overrun

/-- Global `index_size`: six `uint8_t` members, in declaration order. -/
structure index_size_t where
  vertex : Nat
  texture : Nat
  material : Nat
  bone : Nat
  morph : Nat
  rigid : Nat
deriving DecidableEq, Repr

/-- The object as its six bytes (`(uint8_t*) &index_size`). -/
def index_size_t.bytes (t : index_size_t) : List Nat :=
  [t.vertex, t.texture, t.material, t.bone, t.morph, t.rigid]

/-- Member function `index_size_t::load`. -/
def index_size_t.load (self : index_size_t) (s : ifstream) : index_size_t × ifstream :=
  let r := s.read_into 6 self.bytes
  (⟨r.1.getD 0 0 % 256, r.1.getD 1 0 % 256, r.1.getD 2 0 % 256,
    r.1.getD 3 0 % 256, r.1.getD 4 0 % 256, r.1.getD 5 0 % 256⟩, r.2)

/-! ## Index reader -/

/-- Member function `index_t::load`: returns the member `data` (an `int32_t`). -/
def index_t.load (index_size : index_size_t) (s : ifstream) (type : index_type) :
    Except Fault (Int × ifstream) :=
  let size := index_size.bytes.getD type.toNat 0
  if size = 1 then do
    let r ← s.read 1
    pure (to_signed 8 (le_value r.1), r.2)
  else if size = 2 then do
    let r ← s.read 2
    pure (to_signed 16 (le_value r.1), r.2)
  else do
    let r ← s.read 4
    pure (to_signed 32 (le_value r.1), r.2)

/-! ## Strings -/

/-- Member `data` of `text` (a `std::string`, as its bytes). -/
structure text where
  data : List Nat
deriving DecidableEq, Repr

/-- Member function `text::utf16_to_code`, on the code units from the pointer onward: the number of units
used and the value stored in `out`.  A unit the pointer range does not hold is a unit of the
local buffer that no read has written. -/
def text.utf16_to_code (u16str : List Nat) : Except Fault (Nat × Nat) :=
  match u16str with
  | [] => .error .indeterminate
  | high :: rest =>
    if high > 0xD800 then
      match rest with
      | [] => .error .indeterminate
      | low :: _ =>
        let high := ((high - 0xD800) * 0x400) % 2 ^ 32
        .ok (2, (high + (low + 2 ^ 32 - 0xDC00) % 2 ^ 32 + 0x10000) % 2 ^ 32)
    else .ok (1, high)

/-- Member function `text::code_to_utf8`: `out += x` appends `x` converted to `char`. -/
def text.code_to_utf8 (code : Nat) (out : List Nat) : List Nat :=
  if code ≤ 0x7f then
    out ++ [code % 256]
  else if code ≤ 0x7ff then
    out ++ [((code >>> 6) ||| 0xc0) % 256, ((code &&& 0x3f) ||| 0x80) % 256]
  else if code ≤ 0xffff then
    out ++ [((code >>> 12) ||| 0xe0) % 256, (((code >>> 6) &&& 0x3f) ||| 0x80) % 256,
      ((code &&& 0x3f) ||| 0x80) % 256]
  else
    out ++ [((code >>> 18) ||| 0xf0) % 256, (((code >>> 12) &&& 0x3f) ||| 0x80) % 256,
      (((code >>> 6) &&& 0x3f) ||| 0x80) % 256, ((code &&& 0x3f) ||| 0x80) % 256]

/-- The 16-bit little-endian units that a read of the given bytes writes completely into
`u16str`. -/
def u16_units : List Nat → List Nat
  | b0 :: b1 :: rest => le_value [b0, b1] :: u16_units rest
  | _ => []

/-- The loop `for (unsigned i = 0; i < size;)` of `text::load`, with an iteration budget. -/
def text.decode_loop (u16str : List Nat) (size : Nat) :
    Nat → Nat → List Nat → Except Fault (List Nat)
  | 0, i, data => if i < size then .error .fuel else .ok data
  | fuel + 1, i, data =>
    if i < size then do
      let r ← text.utf16_to_code (u16str.drop i)
      text.decode_loop u16str size fuel (i + r.1) (text.code_to_utf8 r.2 data)
    else .ok data

/-- The bytes of `std::string("unnamed")`. -/
def unnamed : List Nat := [117, 110, 110, 97, 109, 101, 100]

/-- The bytes of `std::to_string(n)` for a non-negative `n`: its decimal digits. -/
def to_string (n : Nat) : List Nat := (Nat.toDigits 10 n).map Char.toNat

/-- Member function `text::load`, with the function-local `static int empty_count` passed in and returned.
The counter is an `int`: `empty_count++` is defined only while the counter is below
`INT_MAX = 2 ^ 31 - 1`. -/
def text.load (info : info_t) (empty_count : Nat) (self : text) (s : ifstream) :
    Except Fault (text × Nat × ifstream) := do
  let r ← s.read 4
  let size := le_value r.1
  if size = 0 then
    if empty_count < 2 ^ 31 - 1 then
      pure (⟨unnamed ++ to_string empty_count⟩, empty_count + 1, r.2)
    else .error .overflow
  else if info.encoding_type = 0 then
    if size > 1600 then .error .overrun
    else do
      let r2 ← r.2.read size
      let size := size / 2
      let data ← text.decode_loop (u16_units r2.1) size size 0 self.data
      pure (⟨data⟩, empty_count, r2.2)
  else
    if size > 1600 then .error .overrun
    else do
      let r2 ← r.2.read size
      pure (⟨r2.1⟩, empty_count, r2.2)

/-- Global `model_info`. -/
structure model_info_t where
  local_character_name : text
  global_character_name : text
  local_comment : text
  global_comment : text
deriving DecidableEq, Repr

/-- Member function `model_info_t::load`. -/
def model_info_t.load (info : info_t) (empty_count : Nat) (self : model_info_t) (s : ifstream) :
    Except Fault (model_info_t × Nat × ifstream) := do
  let r1 ← text.load info empty_count self.local_character_name s
  let r2 ← text.load info r1.2.1 self.global_character_name r1.2.2
  let r3 ← text.load info r2.2.1 self.local_comment r2.2.2
  let r4 ← text.load info r3.2.1 self.global_comment r3.2.2
  pure (⟨r1.1, r2.1, r3.1, r4.1⟩, r4.2.1, r4.2.2)

/-! ## Weights and vertices -/

/-- Union `weight_t`, as the members the selected branch of `load` writes (floats and vectors
as raw bytes).  The branch for `sdef` writes no `weight1`. -/
inductive weight_t where
  | bdef1 (bone_index : Int)
  | bdef2 (bone_index1 bone_index2 : Int) (weight1 : List Nat)
  | bdef4 (bone_index1 bone_index2 bone_index3 bone_index4 : Int)
      (weight1 weight2 weight3 weight4 : List Nat)
  | sdef (bone_index1 bone_index2 : Int) (C R0 R1 : List Nat)
deriving DecidableEq, Repr

/-- Member function `weight_t::load`; `type` is the value of the tag byte cast to `weight_type`. -/
def weight_t.load (index_size : index_size_t) (s : ifstream) (type : Nat) :
    Except Fault (weight_t × ifstream) :=
  if type = 0 then do
    let i ← index_t.load index_size s .BONE
    pure (.bdef1 i.1, i.2)
  else if type = 1 then do
    let i1 ← index_t.load index_size s .BONE
    let i2 ← index_t.load index_size i1.2 .BONE
    let w ← i2.2.read 4
    pure (.bdef2 i1.1 i2.1 w.1, w.2)
  else if type = 2 then do
    let i1 ← index_t.load index_size s .BONE
    let i2 ← index_t.load index_size i1.2 .BONE
    let i3 ← index_t.load index_size i2.2 .BONE
    let i4 ← index_t.load index_size i3.2 .BONE
    let w ← i4.2.read 16
    pure (.bdef4 i1.1 i2.1 i3.1 i4.1 (w.1.take 4) ((w.1.drop 4).take 4)
      ((w.1.drop 8).take 4) (w.1.drop 12), w.2)
  else do
    let i1 ← index_t.load index_size s .BONE
    let i2 ← index_t.load index_size i1.2 .BONE
    let c ← i2.2.read 12
    let r0 ← c.2.read 12
    let r1 ← r0.2.read 12
    pure (.sdef i1.1 i2.1 c.1 r0.1 r1.1, r1.2)

/-- Element of `vertices.data`; `additional_uv` is the offset of the claimed slice in the
store `vertices.additional_uvs` (the pointer is not set when there are no extra UVs). -/
structure vertex_t where
  position : List Nat
  normal : List Nat
  uv : List Nat
  additional_uv : Option Nat
  weight_type : Nat
  weight : weight_t
  edge_scale : List Nat
deriving DecidableEq, Repr

/-- Cuts `n` consecutive `vec4` values (16 bytes each) out of a byte sequence. -/
def vec4_chunks : Nat → List Nat → List (List Nat)
  | 0, _ => []
  | n + 1, l => l.take 16 :: vec4_chunks n (l.drop 16)

/-- Member function `vertex_t::load`; `store` and `cnt` are `vertices.additional_uvs` (one entry per `vec4`,
`[]` while unwritten) and `vertices.additional_uvs_count`. -/
def vertex_t.load (info : info_t) (index_size : index_size_t) (store : List (List Nat))
    (cnt : Nat) (s : ifstream) :
    Except Fault (vertex_t × List (List Nat) × Nat × ifstream) := do
  let N := info.additional_uv_count
  let position ← s.read 12
  let normal ← position.2.read 12
  let uv ← normal.2.read 8
  let extra ←
    (if N > 0 then do
      let r ← uv.2.read (16 * N)
      if cnt + N ≤ store.length then
        pure (some cnt, store.take cnt ++ vec4_chunks N r.1 ++ store.drop (cnt + N),
          (cnt + N) % 2 ^ 32, r.2)
      else .error .overrun
    else pure (none, store, cnt, uv.2) :
      Except Fault (Option Nat × List (List Nat) × Nat × ifstream))
  let weight_type ← extra.2.2.2.read 1
  let weight ← weight_t.load index_size weight_type.2 (le_value weight_type.1)
  let edge_scale ← weight.2.read 4
  pure (⟨position.1, normal.1, uv.1, extra.1, le_value weight_type.1, weight.1, edge_scale.1⟩,
    extra.2.1, extra.2.2.1, edge_scale.2)

/-- Global `vertices`. -/
structure vertex_list where
  count : Nat
  data : List vertex_t
  additional_uvs : List (List Nat)
  additional_uvs_count : Nat
deriving DecidableEq, Repr

/-- The loop `for (uint32_t i = 0; i < count; ++i) data[i].load(in)` of `vertex_list::load`,
by the number of elements still to load. -/
def vertex_list.load_loop (info : info_t) (index_size : index_size_t) :
    Nat → List vertex_t → List (List Nat) → Nat → ifstream →
    Except Fault (List vertex_t × List (List Nat) × Nat × ifstream)
  | 0, data, store, cnt, s => .ok (data, store, cnt, s)
  | n + 1, data, store, cnt, s => do
    let v ← vertex_t.load info index_size store cnt s
    vertex_list.load_loop info index_size n (data ++ [v.1]) v.2.1 v.2.2.1 v.2.2.2

/-- Member function `vertex_list::load`. -/
def vertex_list.load (info : info_t) (index_size : index_size_t) (self : vertex_list)
    (s : ifstream) : Except Fault (vertex_list × ifstream) :=
  let N := info.additional_uv_count
  let r := s.read_into 4 (le_bytes 4 self.count)
  let count := le_value r.1
  if count = 0 then
    .ok (⟨count, self.data, self.additional_uvs, self.additional_uvs_count⟩, r.2)
  else do
    let store := if N > 0 then List.replicate ((N * count) % 2 ^ 32) [] else self.additional_uvs
    let cnt := if N > 0 then 0 else self.additional_uvs_count
    let l ← vertex_list.load_loop info index_size count [] store cnt r.2
    pure (⟨count, l.1, l.2.1, l.2.2.1⟩, l.2.2.2)

/-! ## Faces, textures, materials -/

/-- Element of `faces.data`: `uint32_t vertex_index`. -/
structure face_t where
  vertex_index : Nat
deriving DecidableEq, Repr

/-- Member function `face_t::load`: the `int32_t` index converted to `uint32_t`. -/
def face_t.load (index_size : index_size_t) (s : ifstream) : Except Fault (face_t × ifstream) := do
  let index ← index_t.load index_size s .VERTEX
  pure (⟨(index.1 % 2 ^ 32).toNat⟩, index.2)

/-- Global `faces`. -/
structure face_list where
  count : Nat
  data : List face_t
deriving DecidableEq, Repr

/-- The loop of `face_list::load`, by the number of elements still to load. -/
def face_list.load_loop (index_size : index_size_t) :
    Nat → List face_t → ifstream → Except Fault (List face_t × ifstream)
  | 0, data, s => .ok (data, s)
  | n + 1, data, s => do
    let f ← face_t.load index_size s
    face_list.load_loop index_size n (data ++ [f.1]) f.2

/-- Member function `face_list::load`. -/
def face_list.load (index_size : index_size_t) (self : face_list) (s : ifstream) :
    Except Fault (face_list × ifstream) :=
  let r := s.read_into 4 (le_bytes 4 self.count)
  let count := le_value r.1
  if count = 0 then .ok (⟨count, self.data⟩, r.2)
  else do
    let l ← face_list.load_loop index_size count [] r.2
    pure (⟨count, l.1⟩, l.2)

/-- Element of `textures.data`. -/
structure texture_t where
  file_name : text
deriving DecidableEq, Repr

/-- Member function `texture_t::load`. -/
def texture_t.load (info : info_t) (empty_count : Nat) (self : texture_t) (s : ifstream) :
    Except Fault (texture_t × Nat × ifstream) := do
  let r ← text.load info empty_count self.file_name s
  pure (⟨r.1⟩, r.2.1, r.2.2)

/-- Global `textures`. -/
structure texture_list where
  count : Nat
  data : List texture_t
deriving DecidableEq, Repr

/-- The loop of `texture_list::load` (`data[i].file_name.load(in)` on the default-constructed
elements of `new texture_t[count]`), by the number of elements still to load. -/
def texture_list.load_loop (info : info_t) :
    Nat → List texture_t → Nat → ifstream → Except Fault (List texture_t × Nat × ifstream)
  | 0, data, empty_count, s => .ok (data, empty_count, s)
  | n + 1, data, empty_count, s => do
    let r ← text.load info empty_count ⟨[]⟩ s
    texture_list.load_loop info n (data ++ [⟨r.1⟩]) r.2.1 r.2.2

/-- Member function `texture_list::load`. -/
def texture_list.load (info : info_t) (empty_count : Nat) (self : texture_list) (s : ifstream) :
    Except Fault (texture_list × Nat × ifstream) :=
  let r := s.read_into 4 (le_bytes 4 self.count)
  let count := le_value r.1
  if count = 0 then .ok (⟨count, self.data⟩, empty_count, r.2)
  else do
    let l ← texture_list.load_loop info count [] empty_count r.2
    pure (⟨count, l.1⟩, l.2.1, l.2.2)

/-- Element of `materials.data` (floats and vectors as raw bytes). -/
structure material_t where
  local_name : text
  global_name : text
  diffuse_colour : List Nat
  specular_colour : List Nat
  specularity : List Nat
  ambient_colour : List Nat
  drawing_mode : Nat
  edge_colour : List Nat
  edge_size : List Nat
  texture_index : Int
  environment_index : Int
  environment_mode : Nat
  toon_flag : Nat
  toon_index : Int
  memo : text
  face_count : Int
deriving DecidableEq, Repr

/-- Member function `material_t::load`, on a default-constructed element. -/
def material_t.load (info : info_t) (index_size : index_size_t) (empty_count : Nat)
    (s : ifstream) : Except Fault (material_t × Nat × ifstream) := do
  let local_name ← text.load info empty_count ⟨[]⟩ s
  let global_name ← text.load info local_name.2.1 ⟨[]⟩ local_name.2.2
  let diffuse_colour ← global_name.2.2.read 16
  let specular_colour ← diffuse_colour.2.read 12
  let specularity ← specular_colour.2.read 4
  let ambient_colour ← specularity.2.read 12
  let drawing_mode ← ambient_colour.2.read 1
  let edge_colour ← drawing_mode.2.read 16
  let edge_size ← edge_colour.2.read 4
  let texture_index ← index_t.load index_size edge_size.2 .TEXTURE
  let environment_index ← index_t.load index_size texture_index.2 .TEXTURE
  let environment_mode ← environment_index.2.read 1
  let toon_flag ← environment_mode.2.read 1
  let toon_index ←
    (if le_value toon_flag.1 = 0 then index_t.load index_size toon_flag.2 .TEXTURE
    else do
      let temp ← toon_flag.2.read 1
      pure ((le_value temp.1 : Int), temp.2) : Except Fault (Int × ifstream))
  let memo ← text.load info global_name.2.1 ⟨[]⟩ toon_index.2
  let face_count ← memo.2.2.read 4
  pure (⟨local_name.1, global_name.1, diffuse_colour.1, specular_colour.1, specularity.1,
    ambient_colour.1, le_value drawing_mode.1, edge_colour.1, edge_size.1, texture_index.1,
    environment_index.1, le_value environment_mode.1, le_value toon_flag.1, toon_index.1,
    memo.1, to_signed 32 (le_value face_count.1)⟩, memo.2.1, face_count.2)

/-- Global `materials`. -/
structure material_list where
  count : Nat
  data : List material_t
deriving DecidableEq, Repr

/-- The loop of `material_list::load`, by the number of elements still to load. -/
def material_list.load_loop (info : info_t) (index_size : index_size_t) :
    Nat → List material_t → Nat → ifstream → Except Fault (List material_t × Nat × ifstream)
  | 0, data, empty_count, s => .ok (data, empty_count, s)
  | n + 1, data, empty_count, s => do
    let m ← material_t.load info index_size empty_count s
    material_list.load_loop info index_size n (data ++ [m.1]) m.2.1 m.2.2

/-- Member function `material_list::load`. -/
def material_list.load (info : info_t) (index_size : index_size_t) (empty_count : Nat)
    (self : material_list) (s : ifstream) : Except Fault (material_list × Nat × ifstream) :=
  let r := s.read_into 4 (le_bytes 4 self.count)
  let count := le_value r.1
  if count = 0 then .ok (⟨count, self.data⟩, empty_count, r.2)
  else do
    let l ← material_list.load_loop info index_size count [] empty_count r.2
    pure (⟨count, l.1⟩, l.2.1, l.2.2)

/-! ## Bones -/

/-- Element of `bone_t::links`; the limit vectors are written only when `has_limit == 1`. -/
structure link_t where
  ik_bone_index : Int
  has_limit : Int
  lower_limit : Option (List Nat)
  upper_limit : Option (List Nat)
deriving DecidableEq, Repr

/-- Member function `link_t::load`. -/
def link_t.load (index_size : index_size_t) (s : ifstream) : Except Fault (link_t × ifstream) := do
  let ik_bone_index ← index_t.load index_size s .BONE
  let has_limit ← ik_bone_index.2.read 1
  if to_signed 8 (le_value has_limit.1) = 1 then do
    let lower_limit ← has_limit.2.read 12
    let upper_limit ← lower_limit.2.read 12
    pure (⟨ik_bone_index.1, to_signed 8 (le_value has_limit.1), some lower_limit.1,
      some upper_limit.1⟩, upper_limit.2)
  else
    pure (⟨ik_bone_index.1, to_signed 8 (le_value has_limit.1), none, none⟩, has_limit.2)

/-- The loop `for (int i = 0; i < link_count; ++i) links[i].load(in)` of `bone_t::load`, by
the number of elements still to load. -/
def bone_t.load_links (index_size : index_size_t) :
    Nat → List link_t → ifstream → Except Fault (List link_t × ifstream)
  | 0, links, s => .ok (links, s)
  | n + 1, links, s => do
    let l ← link_t.load index_size s
    bone_t.load_links index_size n (links ++ [l.1]) l.2

/-- Element of `bones.data`.  `bone_flag` is kept as the 16-bit pattern read (the tests
`bone_flag & M` use masks below `2 ^ 14`, which see the same bits in the promoted `int`).
A member that `load` does not write is `none`. -/
structure bone_t where
  local_name : text
  global_name : text
  position : List Nat
  parent_bone_index : Int
  transform_level : Int
  bone_flag : Nat
  connection_index : Option Int
  position_offset : Option (List Nat)
  additional_parent_index : Option Int
  additional_rate : Option (List Nat)
  axis_vector : Option (List Nat)
  x_axis_vector : Option (List Nat)
  z_axis_vector : Option (List Nat)
  key_value : Option Int
  ik_bone_index : Option Int
  iterations : Option Int
  limit_angle : Option (List Nat)
  link_count : Option Int
  links : List link_t
deriving DecidableEq, Repr

/-- The block `connection_index or position_offset` of `bone_t::load`. -/
def bone_t.load_connection (index_size : index_size_t) (bone_flag : Nat) (s : ifstream) :
    Except Fault (Option Int × Option (List Nat) × ifstream) :=
  if bone_flag &&& CONNECTION ≠ 0 then do
    let i ← index_t.load index_size s .BONE
    pure (some i.1, none, i.2)
  else do
    let r ← s.read 12
    pure (none, some r.1, r.2)

/-- The block `additional_parent_index and additional_rate` of `bone_t::load`. -/
def bone_t.load_additional (index_size : index_size_t) (bone_flag : Nat) (s : ifstream) :
    Except Fault (Option Int × Option (List Nat) × ifstream) :=
  if bone_flag &&& (ADD_ROTATION ||| ADD_MOVEMENT) ≠ 0 then do
    let i ← index_t.load index_size s .BONE
    let r ← i.2.read 4
    pure (some i.1, some r.1, r.2)
  else pure (none, none, s)

/-- The block `axis_vector` of `bone_t::load`. -/
def bone_t.load_axis (bone_flag : Nat) (s : ifstream) :
    Except Fault (Option (List Nat) × ifstream) :=
  if bone_flag &&& FIXED_AXIS ≠ 0 then do
    let r ← s.read 12
    pure (some r.1, r.2)
  else pure (none, s)

/-- The block `x_axis_vector and z_axis_vector` of `bone_t::load`. -/
def bone_t.load_local_axis (bone_flag : Nat) (s : ifstream) :
    Except Fault (Option (List Nat) × Option (List Nat) × ifstream) :=
  if bone_flag &&& LOCAL_AXIS ≠ 0 then do
    let x ← s.read 12
    let z ← x.2.read 12
    pure (some x.1, some z.1, z.2)
  else pure (none, none, s)

/-- The block `key_value` of `bone_t::load`. -/
def bone_t.load_key (bone_flag : Nat) (s : ifstream) : Except Fault (Option Int × ifstream) :=
  if bone_flag &&& EXTERNAL_PARENT_TRANSFORM ≠ 0 then do
    let r ← s.read 4
    pure (some (to_signed 32 (le_value r.1)), r.2)
  else pure (none, s)

/-- The members of the block `ik_bone_index, iterations, limit_angle, link_count, links`. -/
structure ik_block where
  ik_bone_index : Option Int
  iterations : Option Int
  limit_angle : Option (List Nat)
  link_count : Option Int
  links : List link_t
deriving DecidableEq, Repr

/-- The block `ik_bone_index, iterations, limit_angle, link_count, links` of `bone_t::load`. -/
def bone_t.load_ik (index_size : index_size_t) (bone_flag : Nat) (s : ifstream) :
    Except Fault (ik_block × ifstream) :=
  if bone_flag &&& INV_KINEMATICS ≠ 0 then do
    let ik_bone_index ← index_t.load index_size s .BONE
    let iterations ← ik_bone_index.2.read 4
    let limit_angle ← iterations.2.read 4
    let cnt ← limit_angle.2.read 4
    let link_count := to_signed 32 (le_value cnt.1)
    if link_count > 0 then do
      let links ← bone_t.load_links index_size link_count.toNat [] cnt.2
      pure (⟨some ik_bone_index.1, some (to_signed 32 (le_value iterations.1)),
        some limit_angle.1, some link_count, links.1⟩, links.2)
    else
      pure (⟨some ik_bone_index.1, some (to_signed 32 (le_value iterations.1)),
        some limit_angle.1, some link_count, []⟩, cnt.2)
  else pure (⟨none, none, none, none, []⟩, s)

/-- Member function `bone_t::load`, on a default-constructed element; the flag-dependent blocks are the
functions above, in the order of the source. -/
def bone_t.load (info : info_t) (index_size : index_size_t) (empty_count : Nat) (s : ifstream) :
    Except Fault (bone_t × Nat × ifstream) := do
  let local_name ← text.load info empty_count ⟨[]⟩ s
  let global_name ← text.load info local_name.2.1 ⟨[]⟩ local_name.2.2
  let position ← global_name.2.2.read 12
  let parent_bone_index ← index_t.load index_size position.2 .BONE
  let transform_level ← parent_bone_index.2.read 4
  let flag ← transform_level.2.read 2
  let bone_flag := le_value flag.1
  let conn ← bone_t.load_connection index_size bone_flag flag.2
  let add ← bone_t.load_additional index_size bone_flag conn.2.2
  let axis ← bone_t.load_axis bone_flag add.2.2
  let loc ← bone_t.load_local_axis bone_flag axis.2
  let key ← bone_t.load_key bone_flag loc.2.2
  let ik ← bone_t.load_ik index_size bone_flag key.2
  pure (⟨local_name.1, global_name.1, position.1, parent_bone_index.1,
    to_signed 32 (le_value transform_level.1), bone_flag, conn.1, conn.2.1, add.1, add.2.1,
    axis.1, loc.1, loc.2.1, key.1, ik.1.ik_bone_index, ik.1.iterations, ik.1.limit_angle,
    ik.1.link_count, ik.1.links⟩, global_name.2.1, ik.2)

/-- Global `bones`. -/
structure bone_list where
  count : Nat
  data : List bone_t
deriving DecidableEq, Repr

/-- The loop of `bone_list::load`, by the number of elements still to load. -/
def bone_list.load_loop (info : info_t) (index_size : index_size_t) :
    Nat → List bone_t → Nat → ifstream → Except Fault (List bone_t × Nat × ifstream)
  | 0, data, empty_count, s => .ok (data, empty_count, s)
  | n + 1, data, empty_count, s => do
    let b ← bone_t.load info index_size empty_count s
    bone_list.load_loop info index_size n (data ++ [b.1]) b.2.1 b.2.2

/-- Member function `bone_list::load`. -/
def bone_list.load (info : info_t) (index_size : index_size_t) (empty_count : Nat)
    (self : bone_list) (s : ifstream) : Except Fault (bone_list × Nat × ifstream) :=
  let r := s.read_into 4 (le_bytes 4 self.count)
  let count := le_value r.1
  if count = 0 then .ok (⟨count, self.data⟩, empty_count, r.2)
  else do
    let l ← bone_list.load_loop info index_size count [] empty_count r.2
    pure (⟨count, l.1⟩, l.2.1, l.2.2)

/-! ## The decoder -/

/-- The namespace-scope objects that `pmx::read` fills, and the static counter of
`text::load`. -/
structure globals where
  header : header_t
  info : info_t
  index_size : index_size_t
  model_info : model_info_t
  vertices : vertex_list
  faces : face_list
  textures : texture_list
  materials : material_list
  bones : bone_list
  empty_count : Nat
deriving DecidableEq, Repr

/-- The objects at program start: zero-initialised members, empty strings, empty lists. -/
def globals.init : globals :=
  ⟨⟨[0, 0, 0, 0, 0], [0, 0, 0, 0]⟩, ⟨0, 0, 0⟩, ⟨0, 0, 0, 0, 0, 0⟩, ⟨⟨[]⟩, ⟨[]⟩, ⟨[]⟩, ⟨[]⟩⟩,
    ⟨0, [], [], 0⟩, ⟨0, []⟩, ⟨0, []⟩, ⟨0, []⟩, ⟨0, []⟩, 0⟩

/-- Function `pmx::read` on a file with the given content (`none`: the file could not be opened, the
stream starts with the fail bit set).  The function returns `void`: its result is the state
of the globals; the final state of its local stream is returned as well. -/
def read (g : globals) (file : Option (List Nat)) : Except Fault (globals × ifstream) := do
  let s : ifstream := match file with
    | some bytes => ⟨bytes, false⟩
    | none => ⟨[], true⟩
  let header := g.header.load s
  let info ← g.info.load header.2
  let index_size := g.index_size.load info.2
  let model_info ← model_info_t.load info.1 g.empty_count g.model_info index_size.2
  let vertices ← vertex_list.load info.1 index_size.1 g.vertices model_info.2.2
  let faces ← face_list.load index_size.1 g.faces vertices.2
  let textures ← texture_list.load info.1 model_info.2.1 g.textures faces.2
  let materials ← material_list.load info.1 index_size.1 textures.2.1 g.materials textures.2.2
  let bones ← bone_list.load info.1 index_size.1 materials.2.1 g.bones materials.2.2
  pure (⟨header.1, info.1, index_size.1, model_info.1, vertices.1, faces.1, textures.1,
    materials.1, bones.1, bones.2.1⟩, bones.2.2)

/-! ## Byte counts stated by the specification -/

/-- Sizes of the blocks of a bone record after its two names, in the order in which the
specification lists them, from the flag word `flag` and the bone index width `w`: position,
parent index, transform level, flag word, connection index or offset vector, additional
parent and rate, fixed axis, local axes, external-parent key, head of the IK block. -/
def bone_block_sizes (w flag : Nat) : List Nat :=
  [12, w, 4, 2,
    if flag &&& CONNECTION ≠ 0 then w else 12,
    if flag &&& ADD_ROTATION ≠ 0 ∨ flag &&& ADD_MOVEMENT ≠ 0 then w + 4 else 0,
    if flag &&& FIXED_AXIS ≠ 0 then 12 else 0,
    if flag &&& LOCAL_AXIS ≠ 0 then 24 else 0,
    if flag &&& EXTERNAL_PARENT_TRANSFORM ≠ 0 then 4 else 0,
    if flag &&& INV_KINEMATICS ≠ 0 then w + 12 else 0]

/-- Offset of block number `i` of a bone record, counted from the end of the two names. -/
def bone_block_offset (w flag i : Nat) : Nat := ((bone_block_sizes w flag).take i).sum

/-- Bytes of a bone record between the end of its two names and its link records. -/
def bone_fixed_size (w flag : Nat) : Nat := (bone_block_sizes w flag).sum

/-- The bone record that the specification reads out of the bytes `buf` that follow the two
names: every block at its offset, the optional members exactly when their flag bit is set,
and the given link records when the IK bit is set. -/
def bone_of_layout (w : Nat) (n1 n2 : text) (buf : List Nat) (links : List link_t) : bone_t :=
  let flag := le_value ((buf.drop (12 + w + 4)).take 2)
  let off := bone_block_offset w flag
  let index := fun (k : Nat) => to_signed (8 * w) (le_value ((buf.drop k).take w))
  let int32 := fun (k : Nat) => to_signed 32 (le_value ((buf.drop k).take 4))
  let bytes := fun (k n : Nat) => (buf.drop k).take n
  ⟨n1, n2, bytes (off 0) 12, index (off 1), int32 (off 2), flag,
    if flag &&& CONNECTION ≠ 0 then some (index (off 4)) else none,
    if flag &&& CONNECTION ≠ 0 then none else some (bytes (off 4) 12),
    if flag &&& ADD_ROTATION ≠ 0 ∨ flag &&& ADD_MOVEMENT ≠ 0 then some (index (off 5)) else none,
    if flag &&& ADD_ROTATION ≠ 0 ∨ flag &&& ADD_MOVEMENT ≠ 0
      then some (bytes (off 5 + w) 4) else none,
    if flag &&& FIXED_AXIS ≠ 0 then some (bytes (off 6) 12) else none,
    if flag &&& LOCAL_AXIS ≠ 0 then some (bytes (off 7) 12) else none,
    if flag &&& LOCAL_AXIS ≠ 0 then some (bytes (off 7 + 12) 12) else none,
    if flag &&& EXTERNAL_PARENT_TRANSFORM ≠ 0 then some (int32 (off 8)) else none,
    if flag &&& INV_KINEMATICS ≠ 0 then some (index (off 9)) else none,
    if flag &&& INV_KINEMATICS ≠ 0 then some (int32 (off 9 + w)) else none,
    if flag &&& INV_KINEMATICS ≠ 0 then some (bytes (off 9 + w + 4) 4) else none,
    if flag &&& INV_KINEMATICS ≠ 0 then some (int32 (off 9 + w + 8)) else none,
    if flag &&& INV_KINEMATICS ≠ 0 then links else []⟩

/-- The standard UTF-8 form of a code point, as the specification words it: one byte up to
`0x7F`, two up to `0x7FF`, three up to `0xFFFF`, else four; the leading byte is the length
tag plus the top bits, every continuation byte is `0x80` plus the next six bits. -/
def utf8_encode_spec (c : Nat) : List Nat :=
  if c ≤ 0x7F then [c]
  else if c ≤ 0x7FF then [0xC0 + c / 64, 0x80 + c % 64]
  else if c ≤ 0xFFFF then [0xE0 + c / 4096, 0x80 + c / 64 % 64, 0x80 + c % 64]
  else [0xF0 + c / 262144, 0x80 + c / 4096 % 64, 0x80 + c / 64 % 64, 0x80 + c % 64]

/-- A standard UTF-8 decoder for the bytes of one code point: it checks the leading tag and
the continuation tags and rejects overlong forms, surrogates and values above `0x10FFFF`. -/
def utf8_decode_std : List Nat → Option Nat
  | [b0] => if b0 < 0x80 then some b0 else none
  | [b0, b1] =>
    if 0xC0 ≤ b0 ∧ b0 < 0xE0 ∧ 0x80 ≤ b1 ∧ b1 < 0xC0 then
      (if 0x80 ≤ (b0 - 0xC0) * 64 + (b1 - 0x80) then some ((b0 - 0xC0) * 64 + (b1 - 0x80))
       else none)
    else none
  | [b0, b1, b2] =>
    if 0xE0 ≤ b0 ∧ b0 < 0xF0 ∧ 0x80 ≤ b1 ∧ b1 < 0xC0 ∧ 0x80 ≤ b2 ∧ b2 < 0xC0 then
      (if 0x800 ≤ (b0 - 0xE0) * 4096 + (b1 - 0x80) * 64 + (b2 - 0x80) ∧
          ¬ (0xD800 ≤ (b0 - 0xE0) * 4096 + (b1 - 0x80) * 64 + (b2 - 0x80) ∧
            (b0 - 0xE0) * 4096 + (b1 - 0x80) * 64 + (b2 - 0x80) ≤ 0xDFFF)
       then some ((b0 - 0xE0) * 4096 + (b1 - 0x80) * 64 + (b2 - 0x80)) else none)
    else none
  | [b0, b1, b2, b3] =>
    if 0xF0 ≤ b0 ∧ b0 < 0xF8 ∧ 0x80 ≤ b1 ∧ b1 < 0xC0 ∧ 0x80 ≤ b2 ∧ b2 < 0xC0 ∧
        0x80 ≤ b3 ∧ b3 < 0xC0 then
      (if 0x10000 ≤ (b0 - 0xF0) * 262144 + (b1 - 0x80) * 4096 + (b2 - 0x80) * 64 + (b3 - 0x80) ∧
          (b0 - 0xF0) * 262144 + (b1 - 0x80) * 4096 + (b2 - 0x80) * 64 + (b3 - 0x80) ≤ 0x10FFFF
       then some ((b0 - 0xF0) * 262144 + (b1 - 0x80) * 4096 + (b2 - 0x80) * 64 + (b3 - 0x80))
       else none)
    else none
  | _ => none

/-- The standard UTF-16 code units of a code point: the value itself below `0x10000`, else
the surrogate pair. -/
def utf16_encode_std (c : Nat) : List Nat :=
  if c < 0x10000 then [c]
  else [0xD800 + (c - 0x10000) / 0x400, 0xDC00 + (c - 0x10000) % 0x400]

/-- A string field of the file: the 4-byte little-endian length, then the bytes. -/
def string_field (b : List Nat) : List Nat := le_bytes 4 b.length ++ b

/-- The string the specification assigns to a UTF-8 field with content `b` when `n`
zero-length fields were decoded before it: the placeholder `unnamed<n>` for an empty field,
the bytes themselves otherwise. -/
def field_text (n : Nat) (b : List Nat) : text :=
  if b = [] then ⟨unnamed ++ to_string n⟩ else ⟨b⟩

/-- The number of zero-length fields decoded once the field with content `b` is. -/
def field_count (n : Nat) (b : List Nat) : Nat := if b = [] then n + 1 else n

/-- Whether the string field at the head of the stream has length zero. -/
def zero_length (s : ifstream) : Bool := decide (le_value (s.buf.take 4) = 0)

/-- Number of zero-length fields among the fields at the heads of the given stream states. -/
def zero_fields (ss : List ifstream) : Nat := (ss.filter zero_length).length

/-- The string fields of one decode session: `text::load` is called on default-constructed
strings at the stream states `ss` in turn, whatever records the fields belong to and whatever
is read in between; the static counter is carried from call to call.  The result is the
value of the counter after the last call. -/
def text.session (info : info_t) : Nat → List ifstream → Except Fault Nat
  | empty_count, [] => .ok empty_count
  | empty_count, s :: ss => do
    let r ← text.load info empty_count ⟨[]⟩ s
    text.session info r.2.1 ss

/-- The flag bits that the specification lets decide the shape of a bone record. -/
def bone_shape_mask : Nat :=
  CONNECTION ||| ADD_ROTATION ||| ADD_MOVEMENT ||| FIXED_AXIS ||| LOCAL_AXIS |||
    EXTERNAL_PARENT_TRANSFORM ||| INV_KINEMATICS

/-- Face record number `i` of a face list as the specification reads it: the index decoded
from the `w` bytes at offset `i * w` after the count, held in the `uint32_t` member. -/
def face_of_bytes (w : Nat) (after : List Nat) (i : Nat) : face_t :=
  ⟨(to_signed (8 * w) (le_value ((after.drop (i * w)).take w)) % 2 ^ 32).toNat⟩

/-- Number of bytes of the weight variant that a tag selects, as the data model lays the
variants out for bone index width `w`: BDEF1 one index; BDEF2 two indices and `weight1`;
BDEF4 four indices and four weights; SDEF two indices, `weight1` and the vectors `C`, `R0`,
`R1`. -/
def weight_variant_bytes (w tag : Nat) : Nat :=
  if tag = 0 then w
  else if tag = 1 then 2 * w + 4
  else if tag = 2 then 4 * w + 16
  else 2 * w + 4 + 36

/-- Size of the link record at the head of `buf`, as the specification lays it out for bone
index width `w`: the bone index, the limit flag and, when the flag is 1, the lower and upper
limit vectors. -/
def link_size (w : Nat) (buf : List Nat) : Nat :=
  if le_value ((buf.drop w).take 1) = 1 then w + 1 + 24 else w + 1

/-- The link record at the head of `buf` as the specification reads it. -/
def link_of_bytes (w : Nat) (buf : List Nat) : link_t :=
  ⟨to_signed (8 * w) (le_value (buf.take w)), to_signed 8 (le_value ((buf.drop w).take 1)),
    if le_value ((buf.drop w).take 1) = 1 then some ((buf.drop (w + 1)).take 12) else none,
    if le_value ((buf.drop w).take 1) = 1 then some ((buf.drop (w + 13)).take 12) else none⟩

/-- The `n` consecutive link records at the head of `buf`. -/
def links_of_bytes (w : Nat) : Nat → List Nat → List link_t
  | 0, _ => []
  | n + 1, buf => link_of_bytes w buf :: links_of_bytes w n (buf.drop (link_size w buf))

/-- Number of bytes of the `n` consecutive link records at the head of `buf`. -/
def links_size (w : Nat) : Nat → List Nat → Nat
  | 0, _ => 0
  | n + 1, buf => link_size w buf + links_size w n (buf.drop (link_size w buf))

end pmx

namespace pmx

/-! ## Stream lemmas -/

theorem read_ok (s : ifstream) (n : Nat) (hf : s.failbit = false) (hn : n ≤ s.buf.length) :
    s.read n = .ok (s.buf.take n, ⟨s.buf.drop n, false⟩) := by
  simp [ifstream.read, ifstream.read_into, hf, hn]

theorem le_value_lt (l : List Nat) : le_value l < 256 ^ l.length := by
  induction l with
  | nil => simp [le_value]
  | cons b bs ih =>
    simp only [le_value, List.length_cons, pow_succ]
    have := Nat.mod_lt b (show 256 > 0 by norm_num)
    omega

theorem index_load_of_size (index_size : index_size_t) (s : ifstream) (type : index_type)
    (w : Nat) (hw : w = 1 ∨ w = 2 ∨ w = 4) (hsize : index_size.bytes.getD type.toNat 0 = w)
    (hf : s.failbit = false) (hlen : w ≤ s.buf.length) :
    index_t.load index_size s type =
      .ok (to_signed (8 * w) (le_value (s.buf.take w)), ⟨s.buf.drop w, false⟩) := by
  unfold index_t.load
  simp only [hsize]
  rcases hw with rfl | rfl | rfl <;>
    simp [read_ok _ _ hf hlen, bind, Except.bind, pure, Except.pure]

/-- C1: for a width `w` in {1,2,4} found in the table for the category, `index_t::load` on a
good stream holding at least `w` bytes returns the two's-complement little-endian value of the
first `w` bytes (the unsigned value `u`, or `u - 2^(8w)` when `u ≥ 2^(8w-1)`), which lies in
`[-2^(8w-1), 2^(8w-1) - 1]`, and leaves the stream after those `w` bytes. -/
theorem index_load_value_range (index_size : index_size_t) (s : ifstream) (type : index_type)
    (w : Nat) (hw : w = 1 ∨ w = 2 ∨ w = 4) (hsize : index_size.bytes.getD type.toNat 0 = w)
    (hf : s.failbit = false) (hlen : w ≤ s.buf.length) :
    ∃ v : Int, index_t.load index_size s type = .ok (v, ⟨s.buf.drop w, false⟩) ∧
      v = (if le_value (s.buf.take w) < 2 ^ (8 * w - 1) then (le_value (s.buf.take w) : Int)
           else (le_value (s.buf.take w) : Int) - 2 ^ (8 * w)) ∧
      -(2 : Int) ^ (8 * w - 1) ≤ v ∧ v ≤ 2 ^ (8 * w - 1) - 1 := by
  refine ⟨_, index_load_of_size index_size s type w hw hsize hf hlen, ?_⟩
  have hlt := le_value_lt (s.buf.take w)
  rw [List.length_take, Nat.min_eq_left hlen] at hlt
  generalize le_value (s.buf.take w) = u at hlt
  rcases hw with rfl | rfl | rfl
  · norm_num at hlt ⊢
    have hm : u % 256 = u := Nat.mod_eq_of_lt hlt
    simp only [to_signed, hm]
    norm_num
    split <;> omega
  · norm_num at hlt ⊢
    have hm : u % 65536 = u := Nat.mod_eq_of_lt hlt
    simp only [to_signed, hm]
    norm_num
    split <;> omega
  · norm_num at hlt ⊢
    have hm : u % 4294967296 = u := Nat.mod_eq_of_lt hlt
    simp only [to_signed, hm]
    norm_num
    split <;> omega

/-- Witness of C1: the single byte `0xFF` read with width 1 gives `-1`. -/
theorem index_load_value_range_witness :
    ∃ v : Int, index_t.load ⟨1, 1, 1, 1, 1, 1⟩ ⟨[255, 7], false⟩ .BONE = .ok (v, ⟨[7], false⟩) ∧
      v = -1 ∧ -(2 : Int) ^ (8 * 1 - 1) ≤ v ∧ v ≤ 2 ^ (8 * 1 - 1) - 1 := by
  obtain ⟨v, h1, h2, h3, h4⟩ := index_load_value_range ⟨1, 1, 1, 1, 1, 1⟩ ⟨[255, 7], false⟩ .BONE 1
    (Or.inl rfl) rfl rfl (by decide)
  refine ⟨v, h1, ?_, h3, h4⟩
  rw [h2]
  decide

theorem index_size_load_table (self : index_size_t) (t0 t1 t2 t3 t4 t5 : Nat) (rest : List Nat) :
    index_size_t.load self ⟨t0 :: t1 :: t2 :: t3 :: t4 :: t5 :: rest, false⟩ =
      (⟨t0 % 256, t1 % 256, t2 % 256, t3 % 256, t4 % 256, t5 % 256⟩, ⟨rest, false⟩) := by
  simp [index_size_t.load, ifstream.read_into, index_size_t.bytes]

/-- C2: `index_size_t::load` on a good stream that starts with a six-byte table extracts
exactly those six bytes; when the entries are in {1,2,4}, `index_t::load` for a category `c`
under the loaded table extracts, from any good stream holding that many bytes, exactly as
many bytes as entry number `c` of the table (in the order vertex, texture, material, bone,
morph, rigid). -/
theorem index_width_table_lookup (self : index_size_t) (s : ifstream) (table rest : List Nat)
    (hf : s.failbit = false) (hbuf : s.buf = table ++ rest) (htl : table.length = 6)
    (hval : ∀ b ∈ table, b = 1 ∨ b = 2 ∨ b = 4) (c : index_type) :
    (index_size_t.load self s).2 = ⟨rest, false⟩ ∧
    consumed s (index_size_t.load self s).2 = 6 ∧
    ∀ s1 : ifstream, s1.failbit = false → table.getD c.toNat 0 ≤ s1.buf.length →
      ∃ v s2, index_t.load (index_size_t.load self s).1 s1 c = .ok (v, s2) ∧
        s2 = ⟨s1.buf.drop (table.getD c.toNat 0), false⟩ ∧
        consumed s1 s2 = table.getD c.toNat 0 := by
  obtain ⟨buf, fb⟩ := s
  simp only at hf hbuf
  subst hf hbuf
  match table, htl, hval with
  | [t0, t1, t2, t3, t4, t5], _, hval =>
    have hmod : ∀ b, (b = 1 ∨ b = 2 ∨ b = 4) → b % 256 = b := by
      intro b hb
      rcases hb with rfl | rfl | rfl <;> rfl
    have h0 := hval t0 (by simp)
    have h1 := hval t1 (by simp)
    have h2 := hval t2 (by simp)
    have h3 := hval t3 (by simp)
    have h4 := hval t4 (by simp)
    have h5 := hval t5 (by simp)
    have hload := index_size_load_table self t0 t1 t2 t3 t4 t5 rest
    simp only [List.cons_append, List.nil_append] at hload ⊢
    rw [hload, hmod t0 h0, hmod t1 h1, hmod t2 h2, hmod t3 h3, hmod t4 h4, hmod t5 h5]
    refine ⟨rfl, by simp only [consumed, List.length_cons]; omega, ?_⟩
    intro s1 hf1 hlen1
    have hw : [t0, t1, t2, t3, t4, t5].getD c.toNat 0 = 1 ∨
        [t0, t1, t2, t3, t4, t5].getD c.toNat 0 = 2 ∨
        [t0, t1, t2, t3, t4, t5].getD c.toNat 0 = 4 := by
      cases c <;> simpa [index_type.toNat]
    refine ⟨_, _, index_load_of_size _ s1 c _ hw rfl hf1 hlen1, rfl, ?_⟩
    simp only [consumed, List.length_drop]
    omega

/-- Witness of C2: the table `1,2,4,1,2,4` and the texture category (width 2), read from
the two bytes that follow the table. -/
theorem index_width_table_lookup_witness :
    (index_size_t.load ⟨0, 0, 0, 0, 0, 0⟩ ⟨[1, 2, 4, 1, 2, 4, 9, 9], false⟩).2 = ⟨[9, 9], false⟩ ∧
    consumed ⟨[1, 2, 4, 1, 2, 4, 9, 9], false⟩
      (index_size_t.load ⟨0, 0, 0, 0, 0, 0⟩ ⟨[1, 2, 4, 1, 2, 4, 9, 9], false⟩).2 = 6 ∧
    ∃ v s2, index_t.load (index_size_t.load ⟨0, 0, 0, 0, 0, 0⟩
        ⟨[1, 2, 4, 1, 2, 4, 9, 9], false⟩).1 ⟨[9, 9], false⟩ .TEXTURE = .ok (v, s2) ∧
      s2 = ⟨[], false⟩ ∧ consumed ⟨[9, 9], false⟩ s2 = 2 := by
  obtain ⟨h1, h2, h3⟩ := index_width_table_lookup ⟨0, 0, 0, 0, 0, 0⟩
    ⟨[1, 2, 4, 1, 2, 4, 9, 9], false⟩ [1, 2, 4, 1, 2, 4] [9, 9] rfl rfl rfl (by decide) .TEXTURE
  exact ⟨h1, h2, h3 ⟨[9, 9], false⟩ rfl (by decide)⟩

end pmx

namespace pmx

/-! ## Bone records -/

theorem lor_eq_zero_iff (a b : Nat) : a ||| b = 0 ↔ a = 0 ∧ b = 0 := by
  constructor
  · intro h
    have hbit : ∀ i, a.testBit i = false ∧ b.testBit i = false := by
      intro i
      have := congrArg (fun x => x.testBit i) h
      simpa using this
    exact ⟨Nat.eq_of_testBit_eq (fun i => by simp [(hbit i).1]),
      Nat.eq_of_testBit_eq (fun i => by simp [(hbit i).2])⟩
  · rintro ⟨rfl, rfl⟩
    rfl

theorem add_flags_iff (flag : Nat) :
    flag &&& (ADD_ROTATION ||| ADD_MOVEMENT) ≠ 0 ↔
      (flag &&& ADD_ROTATION ≠ 0 ∨ flag &&& ADD_MOVEMENT ≠ 0) := by
  rw [Nat.and_or_distrib_left, Ne, lor_eq_zero_iff]
  tauto

theorem read_ok_iff (s : ifstream) (n : Nat) (r : List Nat) (s1 : ifstream) :
    s.read n = .ok (r, s1) ↔
      (s.failbit = false ∧ n ≤ s.buf.length ∧ r = s.buf.take n ∧ s1 = ⟨s.buf.drop n, false⟩) := by
  constructor
  · intro h
    by_cases hc : s.failbit = false ∧ n ≤ s.buf.length
    · rw [read_ok s n hc.1 hc.2] at h
      simp only [Except.ok.injEq, Prod.mk.injEq] at h
      exact ⟨hc.1, hc.2, h.1.symm, h.2.symm⟩
    · simp [ifstream.read, hc] at h
  · rintro ⟨hf, hn, rfl, rfl⟩
    exact read_ok s n hf hn

theorem text_load_advances (info : info_t) (ec : Nat) (self : text) (s : ifstream)
    (t : text) (ec1 : Nat) (s1 : ifstream) (h : text.load info ec self s = .ok (t, ec1, s1)) :
    s.failbit = false ∧ s1.failbit = false ∧
      ∃ k, 4 ≤ k ∧ k ≤ s.buf.length ∧ s1.buf = s.buf.drop k := by
  unfold text.load at h
  simp only [bind, Except.bind] at h
  split at h
  · cases h
  · rename_i v hv
    obtain ⟨r, sr⟩ := v
    obtain ⟨hf, hn, rfl, rfl⟩ := (read_ok_iff s 4 r sr).1 hv
    refine ⟨hf, ?_⟩
    simp only at h
    split at h
    · split at h
      · simp only [pure, Except.pure, Except.ok.injEq, Prod.mk.injEq] at h
        obtain ⟨-, -, rfl⟩ := h
        exact ⟨rfl, 4, le_refl _, hn, rfl⟩
      · cases h
    · split at h
      · split at h
        · cases h
        · split at h
          · cases h
          · rename_i v2 hv2
            obtain ⟨r2, sr2⟩ := v2
            obtain ⟨-, hn2, rfl, rfl⟩ := (read_ok_iff _ _ r2 sr2).1 hv2
            split at h
            · cases h
            · simp only [pure, Except.pure, Except.ok.injEq, Prod.mk.injEq] at h
              obtain ⟨-, -, rfl⟩ := h
              simp only [List.length_drop] at hn2
              exact ⟨rfl, 4 + le_value (List.take 4 s.buf), by omega, by omega,
                by simp only [List.drop_drop]⟩
      · split at h
        · cases h
        · split at h
          · cases h
          · rename_i v2 hv2
            obtain ⟨r2, sr2⟩ := v2
            obtain ⟨-, hn2, rfl, rfl⟩ := (read_ok_iff _ _ r2 sr2).1 hv2
            simp only [pure, Except.pure, Except.ok.injEq, Prod.mk.injEq] at h
            obtain ⟨-, -, rfl⟩ := h
            simp only [List.length_drop] at hn2
            exact ⟨rfl, 4 + le_value (List.take 4 s.buf), by omega, by omega,
                by simp only [List.drop_drop]⟩

theorem read_ok_drop (buf : List Nat) (k n : Nat) (hn : k + n ≤ buf.length) :
    (⟨buf.drop k, false⟩ : ifstream).read n =
      .ok ((buf.drop k).take n, ⟨buf.drop (k + n), false⟩) := by
  rw [read_ok _ n rfl (by simp only [List.length_drop]; omega)]
  simp only [List.drop_drop]

theorem index_load_drop (index_size : index_size_t) (type : index_type) (buf : List Nat)
    (k w : Nat) (hw : w = 1 ∨ w = 2 ∨ w = 4) (hsize : index_size.bytes.getD type.toNat 0 = w)
    (hn : k + w ≤ buf.length) :
    index_t.load index_size ⟨buf.drop k, false⟩ type =
      .ok (to_signed (8 * w) (le_value ((buf.drop k).take w)), ⟨buf.drop (k + w), false⟩) := by
  rw [index_load_of_size index_size _ type w hw hsize rfl (by simp only [List.length_drop]; omega)]
  simp only [List.drop_drop]

theorem load_connection_ok (index_size : index_size_t) (flag w : Nat) (buf : List Nat)
    (k : Nat) (hw : w = 1 ∨ w = 2 ∨ w = 4)
    (hsize : index_size.bytes.getD index_type.BONE.toNat 0 = w)
    (hlen : k + (if flag &&& CONNECTION ≠ 0 then w else 12) ≤ buf.length) :
    bone_t.load_connection index_size flag ⟨buf.drop k, false⟩ =
      .ok (if flag &&& CONNECTION ≠ 0
            then some (to_signed (8 * w) (le_value ((buf.drop k).take w))) else none,
          if flag &&& CONNECTION ≠ 0 then none else some ((buf.drop k).take 12),
          ⟨buf.drop (k + (if flag &&& CONNECTION ≠ 0 then w else 12)), false⟩) := by
  unfold bone_t.load_connection
  by_cases h : flag &&& CONNECTION ≠ 0
  · simp only [if_pos h] at hlen ⊢
    rw [index_load_drop index_size .BONE buf k w hw hsize hlen]
    rfl
  · simp only [if_neg h] at hlen ⊢
    rw [read_ok_drop buf k 12 hlen]
    rfl

theorem load_additional_ok (index_size : index_size_t) (flag w : Nat) (buf : List Nat)
    (k : Nat) (hw : w = 1 ∨ w = 2 ∨ w = 4)
    (hsize : index_size.bytes.getD index_type.BONE.toNat 0 = w)
    (hlen : k + (if flag &&& ADD_ROTATION ≠ 0 ∨ flag &&& ADD_MOVEMENT ≠ 0 then w + 4 else 0)
      ≤ buf.length) :
    bone_t.load_additional index_size flag ⟨buf.drop k, false⟩ =
      .ok (if flag &&& ADD_ROTATION ≠ 0 ∨ flag &&& ADD_MOVEMENT ≠ 0
            then some (to_signed (8 * w) (le_value ((buf.drop k).take w))) else none,
          if flag &&& ADD_ROTATION ≠ 0 ∨ flag &&& ADD_MOVEMENT ≠ 0
            then some ((buf.drop (k + w)).take 4) else none,
          ⟨buf.drop (k +
            (if flag &&& ADD_ROTATION ≠ 0 ∨ flag &&& ADD_MOVEMENT ≠ 0 then w + 4 else 0)),
            false⟩) := by
  unfold bone_t.load_additional
  by_cases h : flag &&& ADD_ROTATION ≠ 0 ∨ flag &&& ADD_MOVEMENT ≠ 0
  · have h1 := (add_flags_iff flag).2 h
    simp only [if_pos h] at hlen ⊢
    rw [if_pos h1, index_load_drop index_size .BONE buf k w hw hsize (by omega)]
    simp only [bind, Except.bind]
    rw [read_ok_drop buf (k + w) 4 (by omega)]
    simp only [pure, Except.pure, Nat.add_assoc]
  · have h1 : ¬ (flag &&& (ADD_ROTATION ||| ADD_MOVEMENT) ≠ 0) := fun hc =>
      h ((add_flags_iff flag).1 hc)
    simp only [if_neg h] at hlen ⊢
    rw [if_neg h1]
    rfl

theorem load_axis_ok (flag : Nat) (buf : List Nat) (k : Nat)
    (hlen : k + (if flag &&& FIXED_AXIS ≠ 0 then 12 else 0) ≤ buf.length) :
    bone_t.load_axis flag ⟨buf.drop k, false⟩ =
      .ok (if flag &&& FIXED_AXIS ≠ 0 then some ((buf.drop k).take 12) else none,
        ⟨buf.drop (k + (if flag &&& FIXED_AXIS ≠ 0 then 12 else 0)), false⟩) := by
  unfold bone_t.load_axis
  by_cases h : flag &&& FIXED_AXIS ≠ 0
  · simp only [if_pos h] at hlen ⊢
    rw [read_ok_drop buf k 12 hlen]
    rfl
  · simp only [if_neg h] at hlen ⊢
    rfl

theorem load_local_axis_ok (flag : Nat) (buf : List Nat) (k : Nat)
    (hlen : k + (if flag &&& LOCAL_AXIS ≠ 0 then 24 else 0) ≤ buf.length) :
    bone_t.load_local_axis flag ⟨buf.drop k, false⟩ =
      .ok (if flag &&& LOCAL_AXIS ≠ 0 then some ((buf.drop k).take 12) else none,
        if flag &&& LOCAL_AXIS ≠ 0 then some ((buf.drop (k + 12)).take 12) else none,
        ⟨buf.drop (k + (if flag &&& LOCAL_AXIS ≠ 0 then 24 else 0)), false⟩) := by
  unfold bone_t.load_local_axis
  by_cases h : flag &&& LOCAL_AXIS ≠ 0
  · simp only [if_pos h] at hlen ⊢
    rw [read_ok_drop buf k 12 (by omega)]
    simp only [bind, Except.bind]
    rw [read_ok_drop buf (k + 12) 12 (by omega)]
    simp only [pure, Except.pure, Nat.add_assoc]
  · simp only [if_neg h] at hlen ⊢
    rfl

theorem load_key_ok (flag : Nat) (buf : List Nat) (k : Nat)
    (hlen : k + (if flag &&& EXTERNAL_PARENT_TRANSFORM ≠ 0 then 4 else 0) ≤ buf.length) :
    bone_t.load_key flag ⟨buf.drop k, false⟩ =
      .ok (if flag &&& EXTERNAL_PARENT_TRANSFORM ≠ 0
            then some (to_signed 32 (le_value ((buf.drop k).take 4))) else none,
        ⟨buf.drop (k + (if flag &&& EXTERNAL_PARENT_TRANSFORM ≠ 0 then 4 else 0)), false⟩) := by
  unfold bone_t.load_key
  by_cases h : flag &&& EXTERNAL_PARENT_TRANSFORM ≠ 0
  · simp only [if_pos h] at hlen ⊢
    rw [read_ok_drop buf k 4 hlen]
    rfl
  · simp only [if_neg h] at hlen ⊢
    rfl

theorem load_links_zero (index_size : index_size_t) (links : List link_t) (s : ifstream) :
    bone_t.load_links index_size 0 links s = .ok (links, s) := rfl

theorem load_ik_ok (index_size : index_size_t) (flag w : Nat) (buf : List Nat) (k : Nat)
    (hw : w = 1 ∨ w = 2 ∨ w = 4)
    (hsize : index_size.bytes.getD index_type.BONE.toNat 0 = w)
    (hlen : k + (if flag &&& INV_KINEMATICS ≠ 0 then w + 12 else 0) ≤ buf.length)
    (links : List link_t) (s3 : ifstream)
    (hlinks : flag &&& INV_KINEMATICS ≠ 0 →
      bone_t.load_links index_size
        (to_signed 32 (le_value ((buf.drop (k + w + 8)).take 4))).toNat []
        ⟨buf.drop (k + w + 12), false⟩ = .ok (links, s3)) :
    bone_t.load_ik index_size flag ⟨buf.drop k, false⟩ =
      .ok (if flag &&& INV_KINEMATICS ≠ 0 then
            ⟨some (to_signed (8 * w) (le_value ((buf.drop k).take w))),
              some (to_signed 32 (le_value ((buf.drop (k + w)).take 4))),
              some ((buf.drop (k + w + 4)).take 4),
              some (to_signed 32 (le_value ((buf.drop (k + w + 8)).take 4))), links⟩
          else ⟨none, none, none, none, []⟩,
        if flag &&& INV_KINEMATICS ≠ 0 then s3 else ⟨buf.drop k, false⟩) := by
  unfold bone_t.load_ik
  by_cases h : flag &&& INV_KINEMATICS ≠ 0
  · simp only [if_pos h] at hlen ⊢
    have hl := hlinks h
    rw [index_load_drop index_size .BONE buf k w hw hsize (by omega)]
    simp only [bind, Except.bind]
    rw [read_ok_drop buf (k + w) 4 (by omega)]
    simp only []
    rw [read_ok_drop buf (k + w + 4) 4 (by omega)]
    simp only []
    rw [read_ok_drop buf (k + w + 4 + 4) 4 (by omega)]
    simp only []
    have e8 : k + w + 4 + 4 = k + w + 8 := by omega
    have e12 : k + w + 4 + 4 + 4 = k + w + 12 := by omega
    rw [e8, e12]
    by_cases hpos : to_signed 32 (le_value ((buf.drop (k + w + 8)).take 4)) > 0
    · rw [if_pos hpos, hl]
      rfl
    · rw [if_neg hpos]
      have hz : (to_signed 32 (le_value ((buf.drop (k + w + 8)).take 4))).toNat = 0 := by
        omega
      rw [hz, load_links_zero] at hl
      simp only [Except.ok.injEq, Prod.mk.injEq] at hl
      obtain ⟨rfl, rfl⟩ := hl
      rfl
  · simp only [if_neg h] at hlen ⊢
    rfl

theorem index_load_advances (index_size : index_size_t) (s : ifstream) (type : index_type)
    (v : Int) (s1 : ifstream) (h : index_t.load index_size s type = .ok (v, s1)) :
    s.failbit = false ∧ ∃ k, k ≤ s.buf.length ∧ s1 = ⟨s.buf.drop k, false⟩ := by
  unfold index_t.load at h
  simp only [bind, Except.bind, pure, Except.pure] at h
  split at h
  · split at h
    · cases h
    · rename_i r hr
      obtain ⟨r1, r2⟩ := r
      obtain ⟨hf, hn, -, rfl⟩ := (read_ok_iff _ _ _ _).1 hr
      simp only [Except.ok.injEq, Prod.mk.injEq] at h
      exact ⟨hf, 1, hn, h.2.symm⟩
  · split at h
    · split at h
      · cases h
      · rename_i r hr
        obtain ⟨r1, r2⟩ := r
        obtain ⟨hf, hn, -, rfl⟩ := (read_ok_iff _ _ _ _).1 hr
        simp only [Except.ok.injEq, Prod.mk.injEq] at h
        exact ⟨hf, 2, hn, h.2.symm⟩
    · split at h
      · cases h
      · rename_i r hr
        obtain ⟨r1, r2⟩ := r
        obtain ⟨hf, hn, -, rfl⟩ := (read_ok_iff _ _ _ _).1 hr
        simp only [Except.ok.injEq, Prod.mk.injEq] at h
        exact ⟨hf, 4, hn, h.2.symm⟩

theorem link_load_advances (index_size : index_size_t) (s : ifstream) (l : link_t)
    (s1 : ifstream) (h : link_t.load index_size s = .ok (l, s1)) :
    s.failbit = false ∧ s1.failbit = false ∧ s1.buf.length ≤ s.buf.length := by
  unfold link_t.load at h
  simp only [bind, Except.bind, pure, Except.pure] at h
  split at h
  · cases h
  · rename_i i hi
    obtain ⟨iv, si⟩ := i
    obtain ⟨hf, k, hk, rfl⟩ := index_load_advances _ _ _ _ _ hi
    refine ⟨hf, ?_⟩
    simp only at h
    split at h
    · cases h
    · rename_i r hr
      obtain ⟨r1, r2⟩ := r
      obtain ⟨-, hn, -, rfl⟩ := (read_ok_iff _ _ _ _).1 hr
      simp only [List.length_drop] at hn
      simp only at h
      split at h
      · split at h
        · cases h
        · rename_i lo hlo
          obtain ⟨lo1, lo2⟩ := lo
          obtain ⟨-, hn1, -, rfl⟩ := (read_ok_iff _ _ _ _).1 hlo
          simp only [List.length_drop] at hn1
          simp only at h
          split at h
          · cases h
          · rename_i up hup
            obtain ⟨up1, up2⟩ := up
            obtain ⟨-, hn2, -, rfl⟩ := (read_ok_iff _ _ _ _).1 hup
            simp only [Except.ok.injEq, Prod.mk.injEq] at h
            obtain ⟨-, rfl⟩ := h
            simp only [List.length_drop]
            exact ⟨trivial, by omega⟩
      · simp only [Except.ok.injEq, Prod.mk.injEq] at h
        obtain ⟨-, rfl⟩ := h
        simp only [List.length_drop]
        exact ⟨trivial, by omega⟩

theorem load_links_advances (index_size : index_size_t) (n : Nat) :
    ∀ (acc : List link_t) (s : ifstream) (ls : List link_t) (s1 : ifstream),
      s.failbit = false → bone_t.load_links index_size n acc s = .ok (ls, s1) →
      s1.failbit = false ∧ s1.buf.length ≤ s.buf.length := by
  induction n with
  | zero =>
    intro acc s ls s1 hf h
    rw [load_links_zero] at h
    simp only [Except.ok.injEq, Prod.mk.injEq] at h
    obtain ⟨-, rfl⟩ := h
    exact ⟨hf, le_refl _⟩
  | succ n ih =>
    intro acc s ls s1 hf h
    simp only [bone_t.load_links, bind, Except.bind] at h
    split at h
    · cases h
    · rename_i l hl
      obtain ⟨lv, sl⟩ := l
      obtain ⟨-, hf1, hle⟩ := link_load_advances _ _ _ _ hl
      obtain ⟨hf2, hle2⟩ := ih _ _ _ _ hf1 h
      exact ⟨hf2, le_trans hle2 hle⟩

theorem bone_load_core (info : info_t) (index_size : index_size_t) (ec : Nat) (s s1 : ifstream)
    (n1 n2 : text) (ec1 ec2 : Nat) (buf : List Nat) (w flag : Nat)
    (hw : w = 1 ∨ w = 2 ∨ w = 4)
    (hsize : index_size.bytes.getD index_type.BONE.toNat 0 = w)
    (h1 : text.load info ec ⟨[]⟩ s = .ok (n1, ec1, s1))
    (h2 : text.load info ec1 ⟨[]⟩ s1 = .ok (n2, ec2, ⟨buf, false⟩))
    (hflag : le_value ((buf.drop (12 + w + 4)).take 2) = flag)
    (c1 c2 c3 c4 c5 c6 : Nat)
    (hc1 : (if flag &&& CONNECTION ≠ 0 then w else 12) = c1)
    (hc2 : (if flag &&& ADD_ROTATION ≠ 0 ∨ flag &&& ADD_MOVEMENT ≠ 0 then w + 4 else 0) = c2)
    (hc3 : (if flag &&& FIXED_AXIS ≠ 0 then 12 else 0) = c3)
    (hc4 : (if flag &&& LOCAL_AXIS ≠ 0 then 24 else 0) = c4)
    (hc5 : (if flag &&& EXTERNAL_PARENT_TRANSFORM ≠ 0 then 4 else 0) = c5)
    (hc6 : (if flag &&& INV_KINEMATICS ≠ 0 then w + 12 else 0) = c6)
    (hlen : 12 + w + 4 + 2 + c1 + c2 + c3 + c4 + c5 + c6 ≤ buf.length)
    (links : List link_t) (s3 : ifstream)
    (hlinks : flag &&& INV_KINEMATICS ≠ 0 →
      bone_t.load_links index_size
        (to_signed 32
          (le_value ((buf.drop (12 + w + 4 + 2 + c1 + c2 + c3 + c4 + c5 + w + 8)).take 4))).toNat
        [] ⟨buf.drop (12 + w + 4 + 2 + c1 + c2 + c3 + c4 + c5 + w + 12), false⟩ =
        .ok (links, s3)) :
    bone_t.load info index_size ec s = .ok (bone_of_layout w n1 n2 buf links, ec2,
      if flag &&& INV_KINEMATICS ≠ 0 then s3
      else ⟨buf.drop (12 + w + 4 + 2 + c1 + c2 + c3 + c4 + c5), false⟩) := by
  have e1 := read_ok_drop buf 0 12 (by omega)
  have e2 := index_load_drop index_size .BONE buf 12 w hw hsize (by omega)
  have e3 := read_ok_drop buf (12 + w) 4 (by omega)
  have e4 := read_ok_drop buf (12 + w + 4) 2 (by omega)
  have e5 := load_connection_ok index_size flag w buf (12 + w + 4 + 2) hw hsize
    (by rw [hc1]; omega)
  rw [hc1] at e5
  have e6 := load_additional_ok index_size flag w buf (12 + w + 4 + 2 + c1) hw hsize
    (by rw [hc2]; omega)
  rw [hc2] at e6
  have e7 := load_axis_ok flag buf (12 + w + 4 + 2 + c1 + c2) (by rw [hc3]; omega)
  rw [hc3] at e7
  have e8 := load_local_axis_ok flag buf (12 + w + 4 + 2 + c1 + c2 + c3) (by rw [hc4]; omega)
  rw [hc4] at e8
  have e9 := load_key_ok flag buf (12 + w + 4 + 2 + c1 + c2 + c3 + c4) (by rw [hc5]; omega)
  rw [hc5] at e9
  have e10 := load_ik_ok index_size flag w buf (12 + w + 4 + 2 + c1 + c2 + c3 + c4 + c5) hw hsize
    (by rw [hc6]; omega) links s3 hlinks
  simp only [List.drop_zero, Nat.zero_add] at e1
  unfold bone_t.load
  simp only [bind, Except.bind, h1, h2, e1, e2, e3, e4, hflag, e5, e6, e7, e8, e9, e10]
  simp only [pure, Except.pure, Except.ok.injEq, Prod.mk.injEq, and_true]
  simp only [bone_of_layout, bone_block_offset, bone_block_sizes, hflag, hc1, hc2, hc3, hc4, hc5,
    hc6, List.take, List.sum_cons, List.sum_nil, List.drop_zero, Nat.add_zero, ← Nat.add_assoc]
  by_cases hik : flag &&& INV_KINEMATICS ≠ 0
  · simp only [if_pos hik]
  · simp only [if_neg hik]

theorem bone_fixed_size_eq (w flag : Nat) :
    bone_fixed_size w flag =
      12 + w + 4 + 2
        + (if flag &&& CONNECTION ≠ 0 then w else 12)
        + (if flag &&& ADD_ROTATION ≠ 0 ∨ flag &&& ADD_MOVEMENT ≠ 0 then w + 4 else 0)
        + (if flag &&& FIXED_AXIS ≠ 0 then 12 else 0)
        + (if flag &&& LOCAL_AXIS ≠ 0 then 24 else 0)
        + (if flag &&& EXTERNAL_PARENT_TRANSFORM ≠ 0 then 4 else 0)
        + (if flag &&& INV_KINEMATICS ≠ 0 then w + 12 else 0) := by
  simp only [bone_fixed_size, bone_block_sizes, List.sum_cons, List.sum_nil, Nat.add_zero,
    ← Nat.add_assoc]

theorem bone_block_offset_nine (w flag : Nat) :
    bone_block_offset w flag 9 =
      12 + w + 4 + 2
        + (if flag &&& CONNECTION ≠ 0 then w else 12)
        + (if flag &&& ADD_ROTATION ≠ 0 ∨ flag &&& ADD_MOVEMENT ≠ 0 then w + 4 else 0)
        + (if flag &&& FIXED_AXIS ≠ 0 then 12 else 0)
        + (if flag &&& LOCAL_AXIS ≠ 0 then 24 else 0)
        + (if flag &&& EXTERNAL_PARENT_TRANSFORM ≠ 0 then 4 else 0) := by
  simp only [bone_block_offset, bone_block_sizes, List.take, List.sum_cons, List.sum_nil,
    Nat.add_zero, ← Nat.add_assoc]

theorem and_shape_mask (f m : Nat) (hm : bone_shape_mask &&& m = m) :
    f &&& m = (f &&& bone_shape_mask) &&& m := by
  rw [Nat.and_assoc, hm]

theorem bone_block_sizes_mask (w flag flag1 : Nat)
    (h : flag1 &&& bone_shape_mask = flag &&& bone_shape_mask) :
    bone_block_sizes w flag1 = bone_block_sizes w flag := by
  have e1 : ∀ m, bone_shape_mask &&& m = m → flag1 &&& m = flag &&& m := by
    intro m hm
    rw [and_shape_mask flag1 m hm, and_shape_mask flag m hm, h]
  simp only [bone_block_sizes, e1 CONNECTION (by decide), e1 ADD_ROTATION (by decide),
    e1 ADD_MOVEMENT (by decide), e1 FIXED_AXIS (by decide), e1 LOCAL_AXIS (by decide),
    e1 EXTERNAL_PARENT_TRANSFORM (by decide), e1 INV_KINEMATICS (by decide)]

theorem to_signed_byte_one (f : Nat) (hf : f < 256) : to_signed 8 f = 1 ↔ f = 1 := by
  have hm : f % 2 ^ 8 = f := Nat.mod_eq_of_lt (by norm_num; exact hf)
  simp only [to_signed, hm]
  norm_num
  split <;> omega

theorem link_load_drop (index_size : index_size_t) (buf : List Nat) (k w : Nat)
    (hw : w = 1 ∨ w = 2 ∨ w = 4)
    (hsize : index_size.bytes.getD index_type.BONE.toNat 0 = w)
    (hlen : k + link_size w (buf.drop k) ≤ buf.length) :
    link_t.load index_size ⟨buf.drop k, false⟩ =
      .ok (link_of_bytes w (buf.drop k),
        ⟨buf.drop (k + link_size w (buf.drop k)), false⟩) := by
  have hls : w + 1 ≤ link_size w (buf.drop k) := by
    unfold link_size
    split <;> omega
  have hf256 : le_value (((buf.drop k).drop w).take 1) < 256 := by
    have h := le_value_lt (((buf.drop k).drop w).take 1)
    have hl : (((buf.drop k).drop w).take 1).length = 1 := by
      rw [List.length_take, List.length_drop, List.length_drop]; omega
    rw [hl] at h
    omega
  have e1 := index_load_drop index_size .BONE buf k w hw hsize (by omega)
  have e2 := read_ok_drop buf (k + w) 1 (by omega)
  have hd : (buf.drop k).drop w = buf.drop (k + w) := by rw [List.drop_drop]
  rw [hd] at hf256
  by_cases h1 : le_value ((buf.drop (k + w)).take 1) = 1
  · have hs : to_signed 8 (le_value ((buf.drop (k + w)).take 1)) = 1 :=
      (to_signed_byte_one _ hf256).2 h1
    have hsz : link_size w (buf.drop k) = w + 1 + 24 := by
      unfold link_size
      rw [hd, if_pos h1]
    rw [hsz] at hlen ⊢
    have e3 := read_ok_drop buf (k + w + 1) 12 (by omega)
    have e4 := read_ok_drop buf (k + w + 1 + 12) 12 (by omega)
    have o3 : k + w + 1 + 12 + 12 = k + (w + 1 + 24) := by omega
    rw [o3] at e4
    have o4 : k + w + 1 = k + (w + 1) := by omega
    have o5 : k + w + 1 + 12 = k + (w + 13) := by omega
    rw [o5] at e3 e4
    rw [o4] at e2 e3
    simp only [link_t.load, bind, Except.bind, e1, e2, hs, if_true, e3, e4, pure, Except.pure,
      link_of_bytes, hd, List.drop_drop, if_pos h1]
  · have hs : ¬ to_signed 8 (le_value ((buf.drop (k + w)).take 1)) = 1 :=
      fun h => h1 ((to_signed_byte_one _ hf256).1 h)
    have hsz : link_size w (buf.drop k) = w + 1 := by
      unfold link_size
      rw [hd, if_neg h1]
    rw [hsz] at hlen ⊢
    have o4 : k + w + 1 = k + (w + 1) := by omega
    rw [o4] at e2
    simp only [link_t.load, bind, Except.bind, e1, e2, hs, if_false, pure, Except.pure,
      link_of_bytes, hd, if_neg h1]

theorem links_of_bytes_length (w : Nat) :
    ∀ (n : Nat) (buf : List Nat), (links_of_bytes w n buf).length = n := by
  intro n
  induction n with
  | zero => intro buf; rfl
  | succ n ih => intro buf; simp only [links_of_bytes, List.length_cons, ih]

theorem load_links_layout (index_size : index_size_t) (buf : List Nat) (w : Nat)
    (hw : w = 1 ∨ w = 2 ∨ w = 4)
    (hsize : index_size.bytes.getD index_type.BONE.toNat 0 = w) :
    ∀ (n : Nat) (acc : List link_t) (k : Nat),
      k + links_size w n (buf.drop k) ≤ buf.length →
      bone_t.load_links index_size n acc ⟨buf.drop k, false⟩ =
        .ok (acc ++ links_of_bytes w n (buf.drop k),
          ⟨buf.drop (k + links_size w n (buf.drop k)), false⟩) := by
  intro n
  induction n with
  | zero =>
    intro acc k _
    simp [bone_t.load_links, links_of_bytes, links_size]
  | succ n ih =>
    intro acc k hlen
    simp only [links_size, List.drop_drop] at hlen
    have hl := link_load_drop index_size buf k w hw hsize (by omega)
    simp only [bone_t.load_links, bind, Except.bind, hl]
    rw [ih _ _ (by omega)]
    simp only [links_of_bytes, links_size, List.drop_drop, List.append_assoc,
      List.singleton_append, Nat.add_assoc]

/-- C3: a bone record decoded with bone index width `w` in {1,2,4}, whose two names `n1`, `n2`
decode (leaving the stream at `s2`), whose flag word is `flag`, and whose blocks and link
records are all in the stream, is decoded by `bone_t::load` to the record laid out as the
specification says: the blocks in the listed order, each optional block present exactly when
its flag bit is set, and, when `INV_KINEMATICS` is set, as many link records as `link_count`
says (none for a count that is not positive), read one after the other.  After the names it
extracts `12 + w + 4 + 2 + (w | 12) + (w+4)? + 12? + 24? + 4? + (w+12)?` bytes plus the bytes
of these link records; flag bits outside the seven that select blocks do not change any block
size. -/
theorem bone_load_byte_count (info : info_t) (index_size : index_size_t) (ec : Nat)
    (s s1 s2 : ifstream) (n1 n2 : text) (ec1 ec2 : Nat) (w flag n : Nat)
    (hw : w = 1 ∨ w = 2 ∨ w = 4)
    (hsize : index_size.bytes.getD index_type.BONE.toNat 0 = w)
    (h1 : text.load info ec ⟨[]⟩ s = .ok (n1, ec1, s1))
    (h2 : text.load info ec1 ⟨[]⟩ s1 = .ok (n2, ec2, s2))
    (hflag : le_value ((s2.buf.drop (12 + w + 4)).take 2) = flag)
    (hn : (if flag &&& INV_KINEMATICS ≠ 0 then
        (to_signed 32
          (le_value ((s2.buf.drop (bone_block_offset w flag 9 + w + 8)).take 4))).toNat
      else 0) = n)
    (hlen : bone_fixed_size w flag + links_size w n (s2.buf.drop (bone_fixed_size w flag)) ≤
      s2.buf.length) :
    ∃ s_end : ifstream,
      bone_t.load info index_size ec s =
        .ok (bone_of_layout w n1 n2 s2.buf
          (links_of_bytes w n (s2.buf.drop (bone_fixed_size w flag))), ec2, s_end) ∧
      s_end = ⟨s2.buf.drop (bone_fixed_size w flag +
        links_size w n (s2.buf.drop (bone_fixed_size w flag))), false⟩ ∧
      (links_of_bytes w n (s2.buf.drop (bone_fixed_size w flag))).length = n ∧
      consumed s s_end = consumed s s1 + consumed s1 s2 + bone_fixed_size w flag +
        links_size w n (s2.buf.drop (bone_fixed_size w flag)) ∧
      bone_fixed_size w flag =
        12 + w + 4 + 2
          + (if flag &&& CONNECTION ≠ 0 then w else 12)
          + (if flag &&& ADD_ROTATION ≠ 0 ∨ flag &&& ADD_MOVEMENT ≠ 0 then w + 4 else 0)
          + (if flag &&& FIXED_AXIS ≠ 0 then 12 else 0)
          + (if flag &&& LOCAL_AXIS ≠ 0 then 24 else 0)
          + (if flag &&& EXTERNAL_PARENT_TRANSFORM ≠ 0 then 4 else 0)
          + (if flag &&& INV_KINEMATICS ≠ 0 then w + 12 else 0) ∧
      ∀ flag1, flag1 &&& bone_shape_mask = flag &&& bone_shape_mask →
        bone_block_sizes w flag1 = bone_block_sizes w flag := by
  obtain ⟨-, hf1, k1, -, hk1, hb1⟩ := text_load_advances _ _ _ _ _ _ _ h1
  obtain ⟨-, hf2, k2, -, hk2, hb2⟩ := text_load_advances _ _ _ _ _ _ _ h2
  obtain ⟨buf, fb⟩ := s2
  simp only at hf2 hflag hlen hn hb2
  subst hf2
  have hfix := bone_fixed_size_eq w flag
  have hoff := bone_block_offset_nine w flag
  refine ⟨_, ?_, rfl, links_of_bytes_length w n _, ?_, hfix,
    fun flag1 h => bone_block_sizes_mask w flag flag1 h⟩
  · by_cases hik : flag &&& INV_KINEMATICS ≠ 0
    · rw [if_pos hik] at hn
      have hfo : bone_fixed_size w flag = bone_block_offset w flag 9 + (w + 12) := by
        rw [hfix, hoff, if_pos hik]
      have hll := load_links_layout index_size buf w hw hsize n [] (bone_fixed_size w flag) hlen
      rw [List.nil_append] at hll
      have hcore := bone_load_core info index_size ec s s1 n1 n2 ec1 ec2 buf w flag hw hsize h1
        h2 hflag _ _ _ _ _ _ rfl rfl rfl rfl rfl rfl
        (by rw [hfix] at hlen; omega)
        (links_of_bytes w n (buf.drop (bone_fixed_size w flag)))
        ⟨buf.drop (bone_fixed_size w flag +
          links_size w n (buf.drop (bone_fixed_size w flag))), false⟩
        (by
          intro _
          rw [hoff] at hn
          rw [← hll, hfo, hoff, ← hn]
          simp only [← Nat.add_assoc])
      rw [hcore, if_pos hik]
    · rw [if_neg hik] at hn
      subst hn
      have hcore := bone_load_core info index_size ec s s1 n1 n2 ec1 ec2 buf w flag hw hsize h1
        h2 hflag _ _ _ _ _ _ rfl rfl rfl rfl rfl rfl
        (by rw [hfix] at hlen; omega) [] ⟨[], false⟩ (fun h => absurd h hik)
      rw [hcore, if_neg hik]
      simp only [links_of_bytes, links_size, Nat.add_zero, hfix, if_neg hik]
  · have hl1 : s1.buf.length = s.buf.length - k1 := by rw [hb1, List.length_drop]
    have hl2 : buf.length = s1.buf.length - k2 := by rw [hb2, List.length_drop]
    simp only [consumed, List.length_drop]
    omega

/-- Witness of C3: a record with two empty names, flag word `CONNECTION | INV_KINEMATICS`,
width 1 and `link_count = 2`: a link with limit vectors (26 bytes) and one without (2
bytes).  8 bytes of names, 33 bytes of blocks and 28 bytes of link records are extracted;
the byte after them stays in the stream. -/
theorem bone_load_byte_count_witness :
    ∃ s_end : ifstream,
      bone_t.load ⟨0, 1, 0⟩ ⟨1, 1, 1, 1, 1, 1⟩ 0
        ⟨[0, 0, 0, 0, 0, 0, 0, 0, 1, 2, 3, 4, 5, 6, 7, 8, 9, 10, 11, 12, 255, 0, 0, 0, 0, 33,
          0, 5, 3, 40, 0, 0, 0, 0, 0, 128, 63, 2, 0, 0, 0, 2, 1, 101, 102, 103, 104, 105, 106,
          107, 108, 109, 110, 111, 112, 113, 114, 115, 116, 117, 118, 119, 120, 121, 122, 123,
          124, 3, 0, 9], false⟩ =
        .ok (bone_of_layout 1 ⟨unnamed ++ to_string 0⟩ ⟨unnamed ++ to_string 1⟩
          [1, 2, 3, 4, 5, 6, 7, 8, 9, 10, 11, 12, 255, 0, 0, 0, 0, 33, 0, 5, 3, 40, 0, 0, 0, 0,
          0, 128, 63, 2, 0, 0, 0, 2, 1, 101, 102, 103, 104, 105, 106, 107, 108, 109, 110, 111,
          112, 113, 114, 115, 116, 117, 118, 119, 120, 121, 122, 123, 124, 3, 0, 9]
          [⟨2, 1, some [101, 102, 103, 104, 105, 106, 107, 108, 109, 110, 111, 112],
            some [113, 114, 115, 116, 117, 118, 119, 120, 121, 122, 123, 124]⟩, ⟨3, 0, none, none⟩], 2, s_end) ∧
      s_end = ⟨[9], false⟩ ∧
      consumed ⟨[0, 0, 0, 0, 0, 0, 0, 0, 1, 2, 3, 4, 5, 6, 7, 8, 9, 10, 11, 12, 255, 0, 0, 0, 0, 33,
          0, 5, 3, 40, 0, 0, 0, 0, 0, 128, 63, 2, 0, 0, 0, 2, 1, 101, 102, 103, 104, 105, 106,
          107, 108, 109, 110, 111, 112, 113, 114, 115, 116, 117, 118, 119, 120, 121, 122, 123,
          124, 3, 0, 9], false⟩ s_end = 8 + 33 + 28 := by
  obtain ⟨s_end, h, he, -, hc, -, -⟩ := bone_load_byte_count ⟨0, 1, 0⟩ ⟨1, 1, 1, 1, 1, 1⟩ 0
    ⟨[0, 0, 0, 0, 0, 0, 0, 0, 1, 2, 3, 4, 5, 6, 7, 8, 9, 10, 11, 12, 255, 0, 0, 0, 0, 33,
          0, 5, 3, 40, 0, 0, 0, 0, 0, 128, 63, 2, 0, 0, 0, 2, 1, 101, 102, 103, 104, 105, 106,
          107, 108, 109, 110, 111, 112, 113, 114, 115, 116, 117, 118, 119, 120, 121, 122, 123,
          124, 3, 0, 9], false⟩
    ⟨[0, 0, 0, 0, 1, 2, 3, 4, 5, 6, 7, 8, 9, 10, 11, 12, 255, 0, 0, 0, 0, 33, 0, 5, 3, 40,
      0, 0, 0, 0, 0, 128, 63, 2, 0, 0, 0, 2, 1, 101, 102, 103, 104, 105, 106, 107, 108, 109,
      110, 111, 112, 113, 114, 115, 116, 117, 118, 119, 120, 121, 122, 123, 124, 3, 0, 9], false⟩
    ⟨[1, 2, 3, 4, 5, 6, 7, 8, 9, 10, 11, 12, 255, 0, 0, 0, 0, 33, 0, 5, 3, 40, 0, 0, 0, 0,
          0, 128, 63, 2, 0, 0, 0, 2, 1, 101, 102, 103, 104, 105, 106, 107, 108, 109, 110, 111,
          112, 113, 114, 115, 116, 117, 118, 119, 120, 121, 122, 123, 124, 3, 0, 9], false⟩
    ⟨unnamed ++ to_string 0⟩ ⟨unnamed ++ to_string 1⟩ 1 2 1 33 2 (Or.inl rfl) rfl
    (by decide) (by decide) (by decide) (by decide) (by decide)
  have hl : links_of_bytes 1 2 (List.drop (bone_fixed_size 1 33)
      [1, 2, 3, 4, 5, 6, 7, 8, 9, 10, 11, 12, 255, 0, 0, 0, 0, 33, 0, 5, 3, 40, 0, 0, 0, 0,
          0, 128, 63, 2, 0, 0, 0, 2, 1, 101, 102, 103, 104, 105, 106, 107, 108, 109, 110, 111,
          112, 113, 114, 115, 116, 117, 118, 119, 120, 121, 122, 123, 124, 3, 0, 9]) =
      [⟨2, 1, some [101, 102, 103, 104, 105, 106, 107, 108, 109, 110, 111, 112],
            some [113, 114, 115, 116, 117, 118, 119, 120, 121, 122, 123, 124]⟩, ⟨3, 0, none, none⟩] := by
    decide
  simp only at h
  rw [hl] at h
  refine ⟨s_end, h, ?_, ?_⟩
  · rw [he]
    decide
  · rw [hc]
    decide

/-- C4 (as amended): a bone record whose flag word is 0, decoded with bone index width 1,
makes `bone_t::load` extract, after its two names, exactly `12 + 1 + 4 + 2 + 12 = 31` bytes:
`CONNECTION` is clear, so the 12-byte offset vector follows the flag word; no other optional
member is read. -/
theorem bone_load_flag_zero (info : info_t) (index_size : index_size_t) (ec : Nat)
    (s s1 s2 : ifstream) (n1 n2 : text) (ec1 ec2 : Nat)
    (hsize : index_size.bytes.getD index_type.BONE.toNat 0 = 1)
    (h1 : text.load info ec ⟨[]⟩ s = .ok (n1, ec1, s1))
    (h2 : text.load info ec1 ⟨[]⟩ s1 = .ok (n2, ec2, s2))
    (hflag : le_value ((s2.buf.drop (12 + 1 + 4)).take 2) = 0)
    (hlen : 31 ≤ s2.buf.length) :
    ∃ (b : bone_t) (s_end : ifstream),
      bone_t.load info index_size ec s = .ok (b, ec2, s_end) ∧
      s_end = ⟨s2.buf.drop 31, false⟩ ∧
      consumed s s_end = consumed s s1 + consumed s1 s2 + (12 + 1 + 4 + 2 + 12) ∧
      b.bone_flag = 0 ∧ b.connection_index = none ∧
      b.position_offset = some ((s2.buf.drop 19).take 12) ∧
      b.additional_parent_index = none ∧ b.axis_vector = none ∧ b.x_axis_vector = none ∧
      b.key_value = none ∧ b.ik_bone_index = none ∧ b.links = [] := by
  obtain ⟨-, hf1, k1, -, hk1, hb1⟩ := text_load_advances _ _ _ _ _ _ _ h1
  obtain ⟨-, hf2, k2, -, hk2, hb2⟩ := text_load_advances _ _ _ _ _ _ _ h2
  obtain ⟨buf, fb⟩ := s2
  simp only at hf2 hflag hlen hb2
  subst hf2
  have hcore := bone_load_core info index_size ec s s1 n1 n2 ec1 ec2 buf 1 0 (Or.inl rfl) hsize
    h1 h2 hflag 12 0 0 0 0 0 (by decide) (by decide) (by decide) (by decide) (by decide)
    (by decide) (by omega) [] ⟨[], false⟩ (fun h => absurd h (by decide))
  rw [if_neg (by decide)] at hcore
  refine ⟨_, _, hcore, rfl, ?_, ?_⟩
  · have hl1 : s1.buf.length = s.buf.length - k1 := by rw [hb1, List.length_drop]
    have hl2 : buf.length = s1.buf.length - k2 := by rw [hb2, List.length_drop]
    simp only [consumed, List.length_drop]
    omega
  · simp [bone_of_layout, hflag, bone_block_offset, bone_block_sizes]

/-- Witness of C4 (as amended): two empty names, then 31 bytes with flag word 0, then two
more bytes that stay in the stream. -/
theorem bone_load_flag_zero_witness :
    ∃ (b : bone_t) (s_end : ifstream),
      bone_t.load ⟨0, 1, 0⟩ ⟨1, 1, 1, 1, 1, 1⟩ 0
        ⟨[0, 0, 0, 0, 0, 0, 0, 0, 1, 2, 3, 4, 5, 6, 7, 8, 9, 10, 11, 12, 255, 0, 0, 0, 0, 0, 0,
          21, 22, 23, 24, 25, 26, 27, 28, 29, 30, 31, 32, 7, 7], false⟩ = .ok (b, 2, s_end) ∧
      s_end = ⟨[7, 7], false⟩ ∧
      consumed ⟨[0, 0, 0, 0, 0, 0, 0, 0, 1, 2, 3, 4, 5, 6, 7, 8, 9, 10, 11, 12, 255, 0, 0, 0, 0,
          0, 0, 21, 22, 23, 24, 25, 26, 27, 28, 29, 30, 31, 32, 7, 7], false⟩ s_end = 4 + 4 + 31 := by
  obtain ⟨b, s_end, h, he, hc, -⟩ := bone_load_flag_zero ⟨0, 1, 0⟩ ⟨1, 1, 1, 1, 1, 1⟩ 0
    ⟨[0, 0, 0, 0, 0, 0, 0, 0, 1, 2, 3, 4, 5, 6, 7, 8, 9, 10, 11, 12, 255, 0, 0, 0, 0, 0, 0,
      21, 22, 23, 24, 25, 26, 27, 28, 29, 30, 31, 32, 7, 7], false⟩
    ⟨[0, 0, 0, 0, 1, 2, 3, 4, 5, 6, 7, 8, 9, 10, 11, 12, 255, 0, 0, 0, 0, 0, 0,
      21, 22, 23, 24, 25, 26, 27, 28, 29, 30, 31, 32, 7, 7], false⟩
    ⟨[1, 2, 3, 4, 5, 6, 7, 8, 9, 10, 11, 12, 255, 0, 0, 0, 0, 0, 0,
      21, 22, 23, 24, 25, 26, 27, 28, 29, 30, 31, 32, 7, 7], false⟩
    ⟨unnamed ++ to_string 0⟩ ⟨unnamed ++ to_string 1⟩ 1 2 rfl (by decide) (by decide)
    (by decide) (by decide)
  refine ⟨b, s_end, h, ?_, ?_⟩
  · rw [he]
    decide
  · rw [hc]
    decide

/-- Counterexample to C4 as stated: a bone record with flag word 0 and bone index width 1,
whose two names are zero-length fields (4 bytes each).  `bone_t::load` extracts the 8 bytes
of the names and 31 further bytes, not 19: the bytes `21 .. 32` that follow the flag word
are read as the offset vector. -/
theorem bone_load_flag_zero_not_19 :
    ∃ (b : bone_t) (s_end : ifstream),
      bone_t.load ⟨0, 1, 0⟩ ⟨1, 1, 1, 1, 1, 1⟩ 0
        ⟨[0, 0, 0, 0, 0, 0, 0, 0, 1, 2, 3, 4, 5, 6, 7, 8, 9, 10, 11, 12, 255, 0, 0, 0, 0, 0, 0,
          21, 22, 23, 24, 25, 26, 27, 28, 29, 30, 31, 32, 7, 7], false⟩ = .ok (b, 2, s_end) ∧
      b.bone_flag = 0 ∧
      b.position_offset = some [21, 22, 23, 24, 25, 26, 27, 28, 29, 30, 31, 32] ∧
      s_end = ⟨[7, 7], false⟩ ∧
      consumed ⟨[0, 0, 0, 0, 0, 0, 0, 0, 1, 2, 3, 4, 5, 6, 7, 8, 9, 10, 11, 12, 255, 0, 0, 0, 0,
          0, 0, 21, 22, 23, 24, 25, 26, 27, 28, 29, 30, 31, 32, 7, 7], false⟩ s_end
        ≠ (4 + 4) + (12 + 1 + 4 + 2) := by
  refine ⟨_, _, rfl, ?_, ?_, ?_, ?_⟩ <;> decide

/-! ## Weight variants -/

theorem weight_load_bdef1 (index_size : index_size_t) (buf : List Nat) (w : Nat)
    (hw : w = 1 ∨ w = 2 ∨ w = 4)
    (hsize : index_size.bytes.getD index_type.BONE.toNat 0 = w) (hlen : w ≤ buf.length) :
    weight_t.load index_size ⟨buf, false⟩ 0 =
      .ok (.bdef1 (to_signed (8 * w) (le_value (buf.take w))), ⟨buf.drop w, false⟩) := by
  have e1 := index_load_drop index_size .BONE buf 0 w hw hsize (by omega)
  simp only [List.drop_zero, Nat.zero_add] at e1
  simp only [weight_t.load, if_true, bind, Except.bind, e1, pure, Except.pure]

theorem weight_load_bdef2 (index_size : index_size_t) (buf : List Nat) (w : Nat)
    (hw : w = 1 ∨ w = 2 ∨ w = 4)
    (hsize : index_size.bytes.getD index_type.BONE.toNat 0 = w)
    (hlen : 2 * w + 4 ≤ buf.length) :
    weight_t.load index_size ⟨buf, false⟩ 1 =
      .ok (.bdef2 (to_signed (8 * w) (le_value (buf.take w)))
        (to_signed (8 * w) (le_value ((buf.drop w).take w))) ((buf.drop (w + w)).take 4),
        ⟨buf.drop (2 * w + 4), false⟩) := by
  have e1 := index_load_drop index_size .BONE buf 0 w hw hsize (by omega)
  have e2 := index_load_drop index_size .BONE buf w w hw hsize (by omega)
  have e3 := read_ok_drop buf (w + w) 4 (by omega)
  have e : w + w + 4 = 2 * w + 4 := by omega
  simp only [List.drop_zero, Nat.zero_add] at e1
  simp only [weight_t.load, if_true, bind, Except.bind, e1, e2, e3, e, pure, Except.pure,
    one_ne_zero, if_false]

theorem weight_load_bdef4 (index_size : index_size_t) (buf : List Nat) (w : Nat)
    (hw : w = 1 ∨ w = 2 ∨ w = 4)
    (hsize : index_size.bytes.getD index_type.BONE.toNat 0 = w)
    (hlen : 4 * w + 16 ≤ buf.length) :
    weight_t.load index_size ⟨buf, false⟩ 2 =
      .ok (.bdef4 (to_signed (8 * w) (le_value (buf.take w)))
        (to_signed (8 * w) (le_value ((buf.drop w).take w)))
        (to_signed (8 * w) (le_value ((buf.drop (w + w)).take w)))
        (to_signed (8 * w) (le_value ((buf.drop (w + w + w)).take w)))
        (((buf.drop (w + w + w + w)).take 16).take 4)
        ((((buf.drop (w + w + w + w)).take 16).drop 4).take 4)
        ((((buf.drop (w + w + w + w)).take 16).drop 8).take 4)
        (((buf.drop (w + w + w + w)).take 16).drop 12),
        ⟨buf.drop (4 * w + 16), false⟩) := by
  have e1 := index_load_drop index_size .BONE buf 0 w hw hsize (by omega)
  have e2 := index_load_drop index_size .BONE buf w w hw hsize (by omega)
  have e3 := index_load_drop index_size .BONE buf (w + w) w hw hsize (by omega)
  have e4 := index_load_drop index_size .BONE buf (w + w + w) w hw hsize (by omega)
  have e5 := read_ok_drop buf (w + w + w + w) 16 (by omega)
  have e : w + w + w + w + 16 = 4 * w + 16 := by omega
  simp only [List.drop_zero, Nat.zero_add] at e1
  simp only [weight_t.load, bind, Except.bind, e1, e2, e3, e4, e5, e, pure, Except.pure]
  simp

theorem weight_load_sdef (index_size : index_size_t) (buf : List Nat) (w tag : Nat)
    (hw : w = 1 ∨ w = 2 ∨ w = 4)
    (hsize : index_size.bytes.getD index_type.BONE.toNat 0 = w)
    (htag : 3 ≤ tag) (hlen : 2 * w + 36 ≤ buf.length) :
    weight_t.load index_size ⟨buf, false⟩ tag =
      .ok (.sdef (to_signed (8 * w) (le_value (buf.take w)))
        (to_signed (8 * w) (le_value ((buf.drop w).take w)))
        ((buf.drop (w + w)).take 12) ((buf.drop (w + w + 12)).take 12)
        ((buf.drop (w + w + 12 + 12)).take 12), ⟨buf.drop (2 * w + 36), false⟩) := by
  have e1 := index_load_drop index_size .BONE buf 0 w hw hsize (by omega)
  have e2 := index_load_drop index_size .BONE buf w w hw hsize (by omega)
  have e3 := read_ok_drop buf (w + w) 12 (by omega)
  have e4 := read_ok_drop buf (w + w + 12) 12 (by omega)
  have e5 := read_ok_drop buf (w + w + 12 + 12) 12 (by omega)
  have e : w + w + 12 + 12 + 12 = 2 * w + 36 := by omega
  have t0 : ¬ tag = 0 := by omega
  have t1 : ¬ tag = 1 := by omega
  have t2 : ¬ tag = 2 := by omega
  simp only [List.drop_zero, Nat.zero_add] at e1
  simp only [weight_t.load, bind, Except.bind, e1, e2, e3, e4, e5, e, pure, Except.pure, t0, t1,
    t2, if_false]

/-- C5 at the failing input: an SDEF weight (tag 3) with bone index width 1, stored as the
format lays it out (indices 1 and 2, `weight1` = bytes `0,0,128,63`, then `C`, `R0`, `R1` of
12 bytes each, 42 bytes in all) and followed by the 4 bytes of the edge scale.
`weight_t::load` extracts 38 bytes, not 42: it reads no `weight1`, takes the bytes of
`weight1` and the first 8 bytes of `C` for `C`, and leaves the last 4 bytes of `R1` in the
stream. -/
theorem weight_load_sdef_skips_weight1 :
    weight_t.load ⟨1, 1, 1, 1, 1, 1⟩
      ⟨[1, 2, 0, 0, 128, 63,
        11, 12, 13, 14, 15, 16, 17, 18, 19, 20, 21, 22,
        31, 32, 33, 34, 35, 36, 37, 38, 39, 40, 41, 42,
        51, 52, 53, 54, 55, 56, 57, 58, 59, 60, 61, 62,
        0, 0, 128, 63], false⟩ 3 =
      .ok (.sdef 1 2 [0, 0, 128, 63, 11, 12, 13, 14, 15, 16, 17, 18]
        [19, 20, 21, 22, 31, 32, 33, 34, 35, 36, 37, 38]
        [39, 40, 41, 42, 51, 52, 53, 54, 55, 56, 57, 58],
        ⟨[59, 60, 61, 62, 0, 0, 128, 63], false⟩) ∧
    consumed ⟨[1, 2, 0, 0, 128, 63,
        11, 12, 13, 14, 15, 16, 17, 18, 19, 20, 21, 22,
        31, 32, 33, 34, 35, 36, 37, 38, 39, 40, 41, 42,
        51, 52, 53, 54, 55, 56, 57, 58, 59, 60, 61, 62,
        0, 0, 128, 63], false⟩ ⟨[59, 60, 61, 62, 0, 0, 128, 63], false⟩ = 2 * 1 + 36 ∧
    2 * 1 + 36 ≠ 2 * 1 + 4 + 36 := by
  decide

/-! ## Encoding codec -/

theorem or_tag_c0 : ∀ x, x < 32 → (x ||| 0xc0) % 256 = 0xC0 + x := by decide

theorem or_tag_e0 : ∀ x, x < 16 → (x ||| 0xe0) % 256 = 0xE0 + x := by decide

theorem or_tag_f0 : ∀ x, x < 8 → (x ||| 0xf0) % 256 = 0xF0 + x := by decide

theorem or_tag_80 : ∀ x, x < 64 → (x ||| 0x80) % 256 = 0x80 + x := by decide

theorem and_3f (x : Nat) : x &&& 0x3f = x % 64 := Nat.and_pow_two_sub_one_eq_mod x 6

theorem code_to_utf8_eq_spec (c : Nat) (hc : c ≤ 0x10FFFF) (out : List Nat) :
    text.code_to_utf8 c out = out ++ utf8_encode_spec c := by
  have s6 : c >>> 6 = c / 64 := Nat.shiftRight_eq_div_pow c 6
  have s12 : c >>> 12 = c / 4096 := Nat.shiftRight_eq_div_pow c 12
  have s18 : c >>> 18 = c / 262144 := Nat.shiftRight_eq_div_pow c 18
  have m0 : c % 64 < 64 := Nat.mod_lt _ (by norm_num)
  have m1 : c / 64 % 64 < 64 := Nat.mod_lt _ (by norm_num)
  have m2 : c / 4096 % 64 < 64 := Nat.mod_lt _ (by norm_num)
  unfold text.code_to_utf8 utf8_encode_spec
  simp only [s6, s12, s18, and_3f]
  by_cases h1 : c ≤ 0x7f
  · rw [if_pos h1, if_pos h1, Nat.mod_eq_of_lt (by omega)]
  · rw [if_neg h1, if_neg h1]
    by_cases h2 : c ≤ 0x7ff
    · rw [if_pos h2, if_pos h2, or_tag_c0 _ (by omega), or_tag_80 _ m0]
    · rw [if_neg h2, if_neg h2]
      by_cases h3 : c ≤ 0xffff
      · rw [if_pos h3, if_pos h3, or_tag_e0 _ (by omega), or_tag_80 _ m0, or_tag_80 _ m1]
      · rw [if_neg h3, if_neg h3, or_tag_f0 _ (by omega), or_tag_80 _ m0, or_tag_80 _ m1,
          or_tag_80 _ m2]

theorem utf8_decode_encode_spec (c : Nat) (hc : c ≤ 0x10FFFF)
    (hs : ¬ (0xD800 ≤ c ∧ c ≤ 0xDFFF)) : utf8_decode_std (utf8_encode_spec c) = some c := by
  unfold utf8_encode_spec
  by_cases h1 : c ≤ 0x7F
  · rw [if_pos h1]
    simp only [utf8_decode_std]
    rw [if_pos (by omega)]
  · rw [if_neg h1]
    by_cases h2 : c ≤ 0x7FF
    · rw [if_pos h2]
      simp only [utf8_decode_std]
      have e : (0xC0 + c / 64 - 0xC0) * 64 + (0x80 + c % 64 - 0x80) = c := by omega
      rw [e, if_pos (by omega), if_pos (by omega)]
    · rw [if_neg h2]
      by_cases h3 : c ≤ 0xFFFF
      · rw [if_pos h3]
        simp only [utf8_decode_std]
        have e : (0xE0 + c / 4096 - 0xE0) * 4096 + (0x80 + c / 64 % 64 - 0x80) * 64 +
            (0x80 + c % 64 - 0x80) = c := by omega
        rw [e, if_pos (by omega), if_pos (by omega)]
      · rw [if_neg h3]
        simp only [utf8_decode_std]
        have e : (0xF0 + c / 262144 - 0xF0) * 262144 + (0x80 + c / 4096 % 64 - 0x80) * 4096 +
            (0x80 + c / 64 % 64 - 0x80) * 64 + (0x80 + c % 64 - 0x80) = c := by omega
        rw [e, if_pos (by omega), if_pos (by omega)]

/-- C9: for a code point `c ≤ 0x10FFFF`, `text::code_to_utf8` appends to `out` exactly the
standard UTF-8 bytes of `c` (tagged leading byte, `0x80`-tagged continuation bytes): 1, 2, 3
or 4 bytes by the range of `c`; what `out` held stays in front, unchanged; and a standard
decoder reads `c` back from the appended bytes when `c` is not a surrogate. -/
theorem code_to_utf8_standard (c : Nat) (hc : c ≤ 0x10FFFF) (out : List Nat) :
    text.code_to_utf8 c out = out ++ utf8_encode_spec c ∧
    (text.code_to_utf8 c out).take out.length = out ∧
    (utf8_encode_spec c).length =
      (if c ≤ 0x7F then 1 else if c ≤ 0x7FF then 2 else if c ≤ 0xFFFF then 3 else 4) ∧
    (¬ (0xD800 ≤ c ∧ c ≤ 0xDFFF) → utf8_decode_std (utf8_encode_spec c) = some c) := by
  refine ⟨code_to_utf8_eq_spec c hc out, ?_, ?_, utf8_decode_encode_spec c hc⟩
  · rw [code_to_utf8_eq_spec c hc out, List.take_left]
  · unfold utf8_encode_spec
    split_ifs <;> rfl

/-- Witness of C9: the code point `0x20AC` appended to a string holding the byte `65`. -/
theorem code_to_utf8_standard_witness :
    text.code_to_utf8 0x20AC [65] = [65] ++ [0xE2, 0x82, 0xAC] ∧
    (text.code_to_utf8 0x20AC [65]).take 1 = [65] ∧
    (utf8_encode_spec 0x20AC).length = 3 ∧
    utf8_decode_std (utf8_encode_spec 0x20AC) = some 0x20AC := by
  obtain ⟨h1, h2, h3, h4⟩ := code_to_utf8_standard 0x20AC (by decide) [65]
  exact ⟨h1, h2, h3, h4 (by decide)⟩

theorem utf16_to_code_single (u : Nat) (rest : List Nat) (hu : u ≤ 0xD800) :
    text.utf16_to_code (u :: rest) = .ok (1, u) := by
  simp only [text.utf16_to_code, if_neg (show ¬ u > 0xD800 by omega)]

theorem utf16_to_code_pair (u l : Nat) (rest : List Nat) (hu : 0xD800 < u) :
    text.utf16_to_code (u :: l :: rest) =
      .ok (2, ((u - 0xD800) * 0x400 % 2 ^ 32 + (l + 2 ^ 32 - 0xDC00) % 2 ^ 32 + 0x10000) %
        2 ^ 32) := by
  simp only [text.utf16_to_code, if_pos (show u > 0xD800 from hu)]

theorem utf16_round_trip_below_surrogates (c : Nat) (rest : List Nat) (hc : c < 0xD800) :
    text.utf16_to_code (utf16_encode_std c ++ rest) = .ok (1, c) := by
  rw [utf16_encode_std, if_pos (by omega)]
  exact utf16_to_code_single c rest (by omega)

theorem utf16_round_trip_upper_planes (c : Nat) (rest : List Nat) (hlo : 0x10400 ≤ c)
    (hhi : c ≤ 0x10FFFF) :
    text.utf16_to_code (utf16_encode_std c ++ rest) = .ok (2, c) := by
  rw [utf16_encode_std, if_neg (by omega)]
  simp only [List.cons_append, List.nil_append]
  rw [utf16_to_code_pair _ _ rest (by omega)]
  have e : ((0xD800 + (c - 0x10000) / 0x400 - 0xD800) * 0x400 % 2 ^ 32 +
      (0xDC00 + (c - 0x10000) % 0x400 + 2 ^ 32 - 0xDC00) % 2 ^ 32 + 0x10000) % 2 ^ 32 = c := by
    omega
  rw [e]

/-- C8 at the failing inputs: the unit `0xE000`, which is not a high surrogate, followed by
the unit `0x0041`: `text::utf16_to_code` returns 2 with code `0x202441` instead of 1 with code
`0xE000`; and the high surrogate `0xD800` followed by the low surrogate `0xDC00`: it returns
1 with code `0xD800` instead of 2 with code `0x10000`. -/
theorem utf16_to_code_range_check :
    text.utf16_to_code [0xE000, 0x0041] = .ok (2, 0x202441) ∧
    text.utf16_to_code [0xD800, 0xDC00] = .ok (1, 0xD800) ∧
    (0xD800 - 0xD800) * 0x400 + (0xDC00 - 0xDC00) + 0x10000 = 0x10000 := by
  decide

/-- C7 at the failing inputs: the code point `0xE000` is the single UTF-16 unit `0xE000`;
followed by the unit of `A`, `text::utf16_to_code` uses both units and yields `0x202441`,
whose bytes from `text::code_to_utf8` a standard decoder rejects.  The code point `0x10000`
is the pair `0xD800, 0xDC00`; `text::utf16_to_code` uses one unit and yields `0xD800`, whose
bytes a standard decoder rejects. -/
theorem utf16_utf8_round_trip_breaks :
    utf16_encode_std 0xE000 = [0xE000] ∧
    text.utf16_to_code (utf16_encode_std 0xE000 ++ [0x0041]) = .ok (2, 0x202441) ∧
    text.code_to_utf8 0x202441 [] = [0xF8, 0x82, 0x91, 0x81] ∧
    utf8_decode_std (text.code_to_utf8 0x202441 []) = none ∧
    utf16_encode_std 0x10000 = [0xD800, 0xDC00] ∧
    text.utf16_to_code (utf16_encode_std 0x10000) = .ok (1, 0xD800) ∧
    text.code_to_utf8 0xD800 [] = [0xED, 0xA0, 0x80] ∧
    utf8_decode_std (text.code_to_utf8 0xD800 []) = none := by
  decide

/-! ## String fields -/

theorem le_value_le_bytes (n v : Nat) (hv : v < 256 ^ n) : le_value (le_bytes n v) = v := by
  induction n generalizing v with
  | zero =>
    simp only [pow_zero, Nat.lt_one_iff] at hv
    simp [le_bytes, le_value, hv]
  | succ n ih =>
    have h1 : v / 256 < 256 ^ n := by
      rw [pow_succ] at hv
      exact Nat.div_lt_of_lt_mul (by rw [Nat.mul_comm]; exact hv)
    simp only [le_bytes, le_value, Nat.mod_mod, ih _ h1]
    omega

theorem le_bytes_length (n v : Nat) : (le_bytes n v).length = n := by
  induction n generalizing v with
  | zero => rfl
  | succ n ih => simp [le_bytes, ih]

theorem text_load_empty (info : info_t) (ec : Nat) (self : text) (s : ifstream)
    (hf : s.failbit = false) (h4 : 4 ≤ s.buf.length) (hz : le_value (s.buf.take 4) = 0)
    (hec : ec < 2 ^ 31 - 1) :
    text.load info ec self s =
      .ok (⟨unnamed ++ to_string ec⟩, ec + 1, ⟨s.buf.drop 4, false⟩) := by
  simp only [text.load, bind, Except.bind, read_ok s 4 hf h4, hz, if_true, hec, pure,
    Except.pure]

theorem text_load_empty_overflow (info : info_t) (ec : Nat) (self : text) (s : ifstream)
    (hf : s.failbit = false) (h4 : 4 ≤ s.buf.length) (hz : le_value (s.buf.take 4) = 0)
    (hec : ¬ ec < 2 ^ 31 - 1) :
    text.load info ec self s = .error .overflow := by
  simp only [text.load, bind, Except.bind, read_ok s 4 hf h4, hz, if_true, hec, if_false]

theorem field_count_le (n : Nat) (b : List Nat) : field_count n b ≤ n + 1 := by
  unfold field_count
  split <;> omega

theorem text_load_utf8 (info : info_t) (ec : Nat) (self : text) (s : ifstream)
    (henc : info.encoding_type ≠ 0) (hf : s.failbit = false) (h4 : 4 ≤ s.buf.length)
    (hnz : le_value (s.buf.take 4) ≠ 0) (hcap : le_value (s.buf.take 4) ≤ 1600)
    (hlen : 4 + le_value (s.buf.take 4) ≤ s.buf.length) :
    text.load info ec self s =
      .ok (⟨(s.buf.drop 4).take (le_value (s.buf.take 4))⟩, ec,
        ⟨s.buf.drop (4 + le_value (s.buf.take 4)), false⟩) := by
  have e := read_ok_drop s.buf 4 (le_value (s.buf.take 4)) hlen
  have hcap1 : ¬ le_value (s.buf.take 4) > 1600 := by omega
  simp only [text.load, bind, Except.bind, read_ok s 4 hf h4, hnz, henc, hcap1, if_false, e,
    pure, Except.pure]

theorem text_load_field (info : info_t) (ec : Nat) (self : text) (b rest : List Nat)
    (henc : info.encoding_type ≠ 0) (hb : b.length ≤ 1600) (hec : ec < 2 ^ 31 - 1) :
    text.load info ec self ⟨string_field b ++ rest, false⟩ =
      .ok (field_text ec b, field_count ec b, ⟨rest, false⟩) := by
  have hl4 : (le_bytes 4 b.length).length = 4 := le_bytes_length 4 b.length
  have htake : (string_field b ++ rest).take 4 = le_bytes 4 b.length := by
    rw [string_field, List.append_assoc, List.take_left' hl4]
  have hdrop : (string_field b ++ rest).drop 4 = b ++ rest := by
    rw [string_field, List.append_assoc, List.drop_left' hl4]
  have hval : le_value ((string_field b ++ rest).take 4) = b.length := by
    rw [htake, le_value_le_bytes 4 _ (by norm_num; omega)]
  have hlen : (string_field b ++ rest).length = 4 + b.length + rest.length := by
    simp only [string_field, List.length_append, hl4]
  by_cases hnil : b = []
  · subst hnil
    have := text_load_empty info ec self ⟨string_field [] ++ rest, false⟩ rfl
      (by simp only [hlen]; omega) (by simpa using hval) hec
    rw [this]
    simp only [field_text, field_count, if_true, hdrop, List.nil_append]
  · have hpos : b.length ≠ 0 := fun h => hnil (List.length_eq_zero.mp h)
    have := text_load_utf8 info ec self ⟨string_field b ++ rest, false⟩ henc rfl
      (by simp only [hlen]; omega) (by simp only [hval]; exact hpos)
      (by simp only [hval]; exact hb) (by simp only [hval, hlen]; omega)
    rw [this]
    simp only [hval, field_text, field_count, if_neg hnil, hdrop, List.take_left]
    rw [← List.drop_drop, hdrop, List.drop_left]

/-! ## The whole decode -/

/-- An input made of an 8-byte header, an Info record with encoding selector 1 and extra-UV
count 0, six index-width bytes equal to 1, four model-info string fields that fit the
1600-byte buffer of `text::load`, and five zero counts.  From the start state, `pmx::read`
fills header, info, index widths and model info from these bytes in this order (an empty
field yields the next placeholder name), leaves the five lists with count 0 and no record,
and ends with the stream good and no byte left. -/
theorem read_empty_model (s0 s1 s2 s3 v0 v1 v2 v3 d : Nat) (b1 b2 b3 b4 : List Nat)
    (h1 : b1.length ≤ 1600) (h2 : b2.length ≤ 1600) (h3 : b3.length ≤ 1600)
    (h4 : b4.length ≤ 1600) :
    read globals.init
      (some ([s0, s1, s2, s3, v0, v1, v2, v3] ++ [d, 1, 0] ++ [1, 1, 1, 1, 1, 1] ++
        string_field b1 ++ string_field b2 ++ string_field b3 ++ string_field b4 ++
        [0, 0, 0, 0] ++ [0, 0, 0, 0] ++ [0, 0, 0, 0] ++ [0, 0, 0, 0] ++ [0, 0, 0, 0])) =
      .ok (⟨⟨[s0, s1, s2, s3, 0], [v0, v1, v2, v3]⟩, ⟨d % 256, 1, 0⟩, ⟨1, 1, 1, 1, 1, 1⟩,
        ⟨field_text 0 b1, field_text (field_count 0 b1) b2,
          field_text (field_count (field_count 0 b1) b2) b3,
          field_text (field_count (field_count (field_count 0 b1) b2) b3) b4⟩,
        ⟨0, [], [], 0⟩, ⟨0, []⟩, ⟨0, []⟩, ⟨0, []⟩, ⟨0, []⟩,
        field_count (field_count (field_count (field_count 0 b1) b2) b3) b4⟩,
        ⟨[], false⟩) := by
  have henc : (⟨d % 256, 1, 0⟩ : info_t).encoding_type ≠ 0 := Nat.one_ne_zero
  simp only [List.append_assoc, List.cons_append, List.nil_append]
  simp only [read, globals.init, header_t.load, info_t.load, index_size_t.load,
    index_size_t.bytes, ifstream.read_into, model_info_t.load, bind, Except.bind, pure,
    Except.pure]
  simp
  have c1 := field_count_le 0 b1
  have c2 := field_count_le (field_count 0 b1) b2
  have c3 := field_count_le (field_count (field_count 0 b1) b2) b3
  rw [text_load_field _ 0 _ b1 _ henc h1 (by norm_num)]
  simp only []
  rw [text_load_field _ _ _ b2 _ henc h2 (by norm_num; omega)]
  simp only []
  rw [text_load_field _ _ _ b3 _ henc h3 (by norm_num; omega)]
  simp only []
  rw [text_load_field _ _ _ b4 _ henc h4 (by norm_num; omega)]
  simp [vertex_list.load, face_list.load, texture_list.load, material_list.load,
    bone_list.load, ifstream.read_into, le_value, le_bytes]

/-- The empty model with signature `PMX `, version 2.0, names `Mi` and `hi` and two empty
comments. -/
theorem read_empty_model_witness :
    read globals.init
      (some ([80, 77, 88, 32, 0, 0, 0, 64] ++ [8, 1, 0] ++ [1, 1, 1, 1, 1, 1] ++
        string_field [77, 105] ++ string_field [104, 105] ++ string_field [] ++ string_field [] ++
        [0, 0, 0, 0] ++ [0, 0, 0, 0] ++ [0, 0, 0, 0] ++ [0, 0, 0, 0] ++ [0, 0, 0, 0])) =
      .ok (⟨⟨[80, 77, 88, 32, 0], [0, 0, 0, 64]⟩, ⟨8 % 256, 1, 0⟩, ⟨1, 1, 1, 1, 1, 1⟩,
        ⟨field_text 0 [77, 105], field_text (field_count 0 [77, 105]) [104, 105],
          field_text (field_count (field_count 0 [77, 105]) [104, 105]) [],
          field_text (field_count (field_count (field_count 0 [77, 105]) [104, 105]) []) []⟩,
        ⟨0, [], [], 0⟩, ⟨0, []⟩, ⟨0, []⟩, ⟨0, []⟩, ⟨0, []⟩,
        field_count (field_count (field_count (field_count 0 [77, 105]) [104, 105]) []) []⟩,
        ⟨[], false⟩) :=
  read_empty_model 80 77 88 32 0 0 0 64 8 [77, 105] [104, 105] [] [] (by decide) (by decide)
    (by decide) (by decide)

theorem text_load_field_overrun (info : info_t) (ec : Nat) (self : text) (b rest : List Nat)
    (hb : 1600 < b.length) (hb32 : b.length < 2 ^ 32) :
    text.load info ec self ⟨string_field b ++ rest, false⟩ = .error .overrun := by
  have hl4 : (le_bytes 4 b.length).length = 4 := le_bytes_length 4 b.length
  have htake : (string_field b ++ rest).take 4 = le_bytes 4 b.length := by
    rw [string_field, List.append_assoc, List.take_left' hl4]
  have hval : le_value ((string_field b ++ rest).take 4) = b.length := by
    rw [htake, le_value_le_bytes 4 _ (by norm_num; omega)]
  have hlen : 4 ≤ (string_field b ++ rest).length := by
    simp only [string_field, List.length_append, hl4]
    omega
  have hnz : ¬ b.length = 0 := by omega
  have hcap : b.length > 1600 := hb
  simp only [text.load, bind, Except.bind, read_ok ⟨string_field b ++ rest, false⟩ 4 rfl hlen,
    hval, hnz, hcap, if_true, if_false]
  split <;> rfl

theorem read_long_first_field (hdr b rest : List Nat) (hh : hdr.length = 8) (d : Nat)
    (hb : 1600 < b.length) (hb32 : b.length < 2 ^ 32) :
    read globals.init
      (some (hdr ++ [d, 1, 0] ++ [1, 1, 1, 1, 1, 1] ++ string_field b ++ rest)) =
      .error .overrun := by
  match hdr, hh with
  | [s0, s1, s2, s3, v0, v1, v2, v3], _ =>
    simp only [List.append_assoc, List.cons_append, List.nil_append]
    simp only [read, globals.init, header_t.load, info_t.load, index_size_t.load,
      index_size_t.bytes, ifstream.read_into, model_info_t.load, bind, Except.bind, pure,
      Except.pure]
    simp
    rw [text_load_field_overrun _ 0 _ b _ hb hb32]

/-- C6: inputs of the described shape whose first model-info string field holds 100000
bytes, or 1601 bytes.  `text::load` has one local buffer of 1600 bytes (`u8str`) and reads the
declared number of bytes into it without comparing the two: the read writes past the buffer,
and the run leaves defined behaviour in the ModelInfo stage (the result `Fault.overrun`)
instead of decoding the input to its end.  The same holds for every field longer than 1600
bytes. -/
theorem read_empty_model_long_string :
    read globals.init
      (some ([80, 77, 88, 32, 0, 0, 0, 64] ++ [8, 1, 0] ++ [1, 1, 1, 1, 1, 1] ++
        string_field (List.replicate 100000 97) ++
        (string_field [] ++ string_field [] ++ string_field [] ++
        [0, 0, 0, 0] ++ [0, 0, 0, 0] ++ [0, 0, 0, 0] ++ [0, 0, 0, 0] ++ [0, 0, 0, 0]))) =
      .error .overrun ∧
    string_field (List.replicate 100000 97) = [160, 134, 1, 0] ++ List.replicate 100000 97 ∧
    read globals.init
      (some ([80, 77, 88, 32, 0, 0, 0, 64] ++ [8, 1, 0] ++ [1, 1, 1, 1, 1, 1] ++
        string_field (List.replicate 1601 97) ++
        (string_field [] ++ string_field [] ++ string_field [] ++
        [0, 0, 0, 0] ++ [0, 0, 0, 0] ++ [0, 0, 0, 0] ++ [0, 0, 0, 0] ++ [0, 0, 0, 0]))) =
      .error .overrun ∧
    string_field (List.replicate 1601 97) = [65, 6, 0, 0] ++ List.replicate 1601 97 ∧
    (∀ (hdr b rest : List Nat) (d : Nat), hdr.length = 8 → 1600 < b.length →
      b.length < 2 ^ 32 →
      read globals.init
        (some (hdr ++ [d, 1, 0] ++ [1, 1, 1, 1, 1, 1] ++ string_field b ++ rest)) =
        .error .overrun) := by
  refine ⟨?_, ?_, ?_, ?_, ?_⟩
  · exact read_long_first_field [80, 77, 88, 32, 0, 0, 0, 64] (List.replicate 100000 97) _ rfl 8
      (by rw [List.length_replicate]; decide) (by rw [List.length_replicate]; decide)
  · unfold string_field
    rw [List.length_replicate]
    rfl
  · exact read_long_first_field [80, 77, 88, 32, 0, 0, 0, 64] (List.replicate 1601 97) _ rfl 8
      (by rw [List.length_replicate]; decide) (by rw [List.length_replicate]; decide)
  · unfold string_field
    rw [List.length_replicate]
    rfl
  · intro hdr b rest d hh hb hb32
    exact read_long_first_field hdr b rest hh d hb hb32

/-! ## Placeholder names -/

theorem text_load_nonzero_counter (info : info_t) (ec ec2 : Nat) (self : text) (s : ifstream)
    (hnz : le_value (s.buf.take 4) ≠ 0) :
    text.load info ec self s =
      (match text.load info ec2 self s with
        | .ok r => .ok (r.1, ec, r.2.2)
        | .error e => .error e) := by
  by_cases hc : s.failbit = false ∧ 4 ≤ s.buf.length
  · simp only [text.load, bind, Except.bind, read_ok s 4 hc.1 hc.2, hnz, if_false, pure,
      Except.pure]
    by_cases henc : info.encoding_type = 0
    · simp only [henc, if_true]
      by_cases hcap : le_value (s.buf.take 4) > 1600
      · simp only [hcap, if_true]
      · simp only [hcap, if_false]
        cases ifstream.read ⟨s.buf.drop 4, false⟩ (le_value (s.buf.take 4)) with
        | error e => rfl
        | ok r2 =>
          simp only []
          cases text.decode_loop (u16_units r2.1) (le_value (s.buf.take 4) / 2)
            (le_value (s.buf.take 4) / 2) 0 self.data with
          | error e => rfl
          | ok d => rfl
    · simp only [henc, if_false]
      by_cases hcap : le_value (s.buf.take 4) > 1600
      · simp only [hcap, if_true]
      · simp only [hcap, if_false]
        cases ifstream.read ⟨s.buf.drop 4, false⟩ (le_value (s.buf.take 4)) with
        | error e => rfl
        | ok r2 => rfl
  · simp only [text.load, bind, Except.bind, ifstream.read, hc, if_false]

theorem unnamed_as_string (n : Nat) :
    unnamed ++ to_string n = ("unnamed" ++ toString n).toList.map Char.toNat := by
  have h1 : ("unnamed" ++ toString n).toList = "unnamed".toList ++ Nat.toDigits 10 n := by
    simp only [toString, Nat.repr, String.toList, String.data_append, List.asString]
  rw [h1, List.map_append]
  rfl

theorem text_load_step (info : info_t) (ec : Nat) (x : ifstream)
    (hx : ∃ r, text.load info 0 ⟨[]⟩ x = .ok r)
    (hec : zero_length x = true → ec < 2 ^ 31 - 1) :
    ∃ t s1, text.load info ec ⟨[]⟩ x =
        .ok (t, ec + (if zero_length x = true then 1 else 0), s1) ∧
      (zero_length x = true →
        t = ⟨unnamed ++ to_string ec⟩ ∧ s1 = ⟨x.buf.drop 4, false⟩ ∧ consumed x s1 = 4) := by
  obtain ⟨⟨t0, ec0, s0⟩, h0⟩ := hx
  obtain ⟨hf, -, k, hk4, hk, -⟩ := text_load_advances _ _ _ _ _ _ _ h0
  by_cases hz : le_value (x.buf.take 4) = 0
  · have hzl : zero_length x = true := by simp [zero_length, hz]
    refine ⟨_, _, ?_, fun _ => ⟨rfl, rfl, ?_⟩⟩
    · rw [text_load_empty info ec ⟨[]⟩ x hf (by omega) hz (hec hzl), if_pos hzl]
    · simp only [consumed, List.length_drop]
      omega
  · have hzl : ¬ zero_length x = true := by simp [zero_length, hz]
    refine ⟨t0, s0, ?_, fun h => absurd h hzl⟩
    rw [text_load_nonzero_counter info ec 0 ⟨[]⟩ x hz, h0, if_neg hzl]
    rfl

theorem zero_fields_append (pre post : List ifstream) :
    zero_fields (pre ++ post) = zero_fields pre + zero_fields post := by
  simp only [zero_fields, List.filter_append, List.length_append]

theorem zero_fields_cons (s : ifstream) (post : List ifstream) :
    zero_fields (s :: post) = (if zero_length s = true then 1 else 0) + zero_fields post := by
  by_cases hz : zero_length s = true
  · simp only [zero_fields, List.filter_cons, hz, if_true, List.length_cons]
    omega
  · simp [zero_fields, List.filter_cons, hz]

theorem zero_fields_replicate (n : Nat) (z : ifstream) (hz : zero_length z = true) :
    zero_fields (List.replicate n z) = n := by
  induction n with
  | zero => rfl
  | succ n ih => rw [List.replicate_succ, zero_fields_cons, if_pos hz, ih]; omega

theorem session_counter (info : info_t) (pre : List ifstream) :
    ∀ ec, (∀ x ∈ pre, ∃ r, text.load info 0 ⟨[]⟩ x = .ok r) →
      ec + zero_fields pre ≤ 2 ^ 31 - 1 →
      text.session info ec pre = .ok (ec + zero_fields pre) := by
  induction pre with
  | nil =>
    intro ec _ _
    rfl
  | cons x xs ih =>
    intro ec h hb
    rw [zero_fields_cons] at hb
    obtain ⟨t, s1, hl, -⟩ := text_load_step info ec x (h x (List.mem_cons_self _ _))
      (by intro hz; rw [if_pos hz] at hb; omega)
    simp only [text.session, bind, Except.bind, hl]
    rw [ih _ (fun y hy => h y (List.mem_cons_of_mem _ hy)) (by omega), zero_fields_cons]
    congr 1
    omega

theorem session_append (info : info_t) (pre post : List ifstream) :
    ∀ ec, text.session info ec (pre ++ post) =
      (text.session info ec pre).bind (fun e => text.session info e post) := by
  induction pre with
  | nil =>
    intro ec
    rfl
  | cons x xs ih =>
    intro ec
    simp only [List.cons_append, text.session, bind, Except.bind]
    cases text.load info ec ⟨[]⟩ x with
    | error e => rfl
    | ok r => exact ih _

/-- C10 (as amended): in a session whose string fields all decode and in which fewer than
`2 ^ 31 - 1` zero-length fields were decoded before the field at hand (the counter is an
`int`), the counter before a field equals the number of zero-length fields decoded before it;
a zero-length field decodes to the string `unnamed` followed by the decimal form of that
number, takes exactly 4 bytes from the stream and raises the counter by one, so that every
later zero-length field gets a larger number; a field that is not zero-length leaves the
counter unchanged. -/
theorem unnamed_counter_session (info : info_t) (pre : List ifstream) (s : ifstream)
    (hall : ∀ x ∈ pre ++ [s], ∃ r, text.load info 0 ⟨[]⟩ x = .ok r)
    (hbound : zero_fields pre < 2 ^ 31 - 1) :
    text.session info 0 pre = .ok (zero_fields pre) ∧
    ∃ t s1, text.load info (zero_fields pre) ⟨[]⟩ s = .ok (t, zero_fields (pre ++ [s]), s1) ∧
      (zero_length s = true →
        t.data = ("unnamed" ++ toString (zero_fields pre)).toList.map Char.toNat ∧
        s1 = ⟨s.buf.drop 4, false⟩ ∧ consumed s s1 = 4 ∧
        zero_fields (pre ++ [s]) = zero_fields pre + 1 ∧
        ∀ post, zero_fields pre < zero_fields (pre ++ s :: post)) ∧
      (zero_length s = false → zero_fields (pre ++ [s]) = zero_fields pre) := by
  have hpre : ∀ x ∈ pre, ∃ r, text.load info 0 ⟨[]⟩ x = .ok r := fun x hx =>
    hall x (List.mem_append_left _ hx)
  have hs : ∃ r, text.load info 0 ⟨[]⟩ s = .ok r :=
    hall s (List.mem_append_right _ (List.mem_singleton_self s))
  have hcount := session_counter info pre 0 hpre (by omega)
  rw [Nat.zero_add] at hcount
  obtain ⟨t, s1, hl, hzero⟩ := text_load_step info (zero_fields pre) s hs (fun _ => hbound)
  have hsum : zero_fields (pre ++ [s]) =
      zero_fields pre + (if zero_length s = true then 1 else 0) := by
    rw [zero_fields_append, zero_fields_cons]
    simp only [zero_fields, List.filter_nil, List.length_nil, Nat.add_zero]
  refine ⟨hcount, t, s1, by rw [hsum]; exact hl, ?_, ?_⟩
  · intro hz
    obtain ⟨ht, hs1, hc⟩ := hzero hz
    refine ⟨by rw [ht, unnamed_as_string], hs1, hc, by rw [hsum, if_pos hz], ?_⟩
    intro post
    rw [zero_fields_append, zero_fields_cons, if_pos hz]
    omega
  · intro hz
    rw [hsum, if_neg (by simp [hz])]
    rfl

/-- Witness of C10 (as amended): a session of three fields, the first and the third of
length zero. -/
theorem unnamed_counter_session_witness :
    text.session ⟨0, 1, 0⟩ 0 [⟨[0, 0, 0, 0], false⟩, ⟨[2, 0, 0, 0, 104, 105], false⟩] = .ok 1 ∧
    ∃ t s1, text.load ⟨0, 1, 0⟩ 1 ⟨[]⟩ ⟨[0, 0, 0, 0, 9], false⟩ = .ok (t, 2, s1) ∧
      t.data = ("unnamed" ++ toString 1).toList.map Char.toNat ∧ s1 = ⟨[9], false⟩ ∧
      consumed ⟨[0, 0, 0, 0, 9], false⟩ s1 = 4 := by
  obtain ⟨h1, t, s1, h2, h3, -⟩ := unnamed_counter_session ⟨0, 1, 0⟩
    [⟨[0, 0, 0, 0], false⟩, ⟨[2, 0, 0, 0, 104, 105], false⟩] ⟨[0, 0, 0, 0, 9], false⟩
    (by
      intro x hx
      simp only [List.cons_append, List.nil_append, List.mem_cons, List.mem_singleton,
        List.not_mem_nil, or_false] at hx
      rcases hx with rfl | rfl | rfl
      · exact ⟨_, rfl⟩
      · exact ⟨_, rfl⟩
      · exact ⟨_, rfl⟩)
    (by decide)
  obtain ⟨h4, h5, h6, -, -⟩ := h3 (by decide)
  exact ⟨h1, t, s1, h2, h4, h5, h6⟩

/-- Counterexample to C10 as stated: a session of `2 ^ 31` zero-length fields `00 00 00 00`.
The first `2 ^ 31 - 1` of them bring the `int` counter to `INT_MAX`; the next one evaluates
`empty_count++` at `INT_MAX`, a signed overflow: the counter cannot reach `2 ^ 31` and the
field does not get a name with a larger number. -/
theorem unnamed_counter_overflows :
    text.session ⟨0, 1, 0⟩ 0 (List.replicate (2 ^ 31 - 1) ⟨[0, 0, 0, 0], false⟩) =
      .ok (2 ^ 31 - 1) ∧
    text.load ⟨0, 1, 0⟩ (2 ^ 31 - 1) ⟨[]⟩ ⟨[0, 0, 0, 0], false⟩ = .error .overflow ∧
    text.session ⟨0, 1, 0⟩ 0 (List.replicate (2 ^ 31 - 1) ⟨[0, 0, 0, 0], false⟩ ++
      [⟨[0, 0, 0, 0], false⟩]) = .error .overflow := by
  have hz : zero_length ⟨[0, 0, 0, 0], false⟩ = true := by decide
  have hzf := zero_fields_replicate (2 ^ 31 - 1) ⟨[0, 0, 0, 0], false⟩ hz
  have h1 : text.session ⟨0, 1, 0⟩ 0 (List.replicate (2 ^ 31 - 1) ⟨[0, 0, 0, 0], false⟩) =
      .ok (2 ^ 31 - 1) := by
    have h := session_counter ⟨0, 1, 0⟩ (List.replicate (2 ^ 31 - 1) ⟨[0, 0, 0, 0], false⟩) 0
      (by
        intro x hx
        rw [List.eq_of_mem_replicate hx]
        exact ⟨_, rfl⟩)
      (by rw [hzf]; omega)
    rw [hzf, Nat.zero_add] at h
    exact h
  have h2 : text.load ⟨0, 1, 0⟩ (2 ^ 31 - 1) ⟨[]⟩ ⟨[0, 0, 0, 0], false⟩ = .error .overflow :=
    text_load_empty_overflow _ _ _ _ rfl (by decide) (by decide) (Nat.lt_irrefl _)
  refine ⟨h1, h2, ?_⟩
  rw [session_append, h1]
  simp only [Except.bind, text.session, bind, h2]

/-! ## UTF-8 string fields -/

/-- C11: with the UTF-8 encoding selected, a string field whose 4-byte little-endian length
is `n` with `1 ≤ n ≤ 1600`, followed by `n` bytes `b`, makes `text::load` return exactly the
bytes `b`, unchanged and in order; the counter of placeholder names is untouched and exactly
`4 + n` bytes are extracted from the stream. -/
theorem text_load_utf8_bytes (info : info_t) (ec : Nat) (self : text) (s : ifstream)
    (lenb b rest : List Nat) (henc : info.encoding_type = 1) (hf : s.failbit = false)
    (hbuf : s.buf = lenb ++ b ++ rest) (hl : lenb.length = 4)
    (hn : le_value lenb = b.length) (h1 : 1 ≤ b.length) (h1600 : b.length ≤ 1600) :
    text.load info ec self s = .ok (⟨b⟩, ec, ⟨rest, false⟩) ∧
    consumed s ⟨rest, false⟩ = 4 + b.length := by
  have htake : s.buf.take 4 = lenb := by
    rw [hbuf, List.append_assoc, List.take_left' hl]
  have hdrop : s.buf.drop 4 = b ++ rest := by
    rw [hbuf, List.append_assoc, List.drop_left' hl]
  have hlen : s.buf.length = 4 + b.length + rest.length := by
    rw [hbuf, List.length_append, List.length_append, hl]
  have hval : le_value (s.buf.take 4) = b.length := by rw [htake, hn]
  have h := text_load_utf8 info ec self s (by rw [henc]; exact Nat.one_ne_zero) hf
    (by omega) (by omega) (by omega) (by omega)
  rw [hval, hdrop, List.take_left, ← List.drop_drop, hdrop, List.drop_left] at h
  refine ⟨h, ?_⟩
  simp only [consumed, hlen]
  omega

/-- Witness of C11: the field `02 00 00 00 68 69` followed by one more byte. -/
theorem text_load_utf8_bytes_witness :
    text.load ⟨0, 1, 0⟩ 0 ⟨[]⟩ ⟨[2, 0, 0, 0, 104, 105, 9], false⟩ =
      .ok (⟨[104, 105]⟩, 0, ⟨[9], false⟩) ∧
    consumed ⟨[2, 0, 0, 0, 104, 105, 9], false⟩ ⟨[9], false⟩ = 4 + [104, 105].length :=
  text_load_utf8_bytes ⟨0, 1, 0⟩ 0 ⟨[]⟩ ⟨[2, 0, 0, 0, 104, 105, 9], false⟩ [2, 0, 0, 0]
    [104, 105] [9] rfl rfl rfl rfl (by decide) (by decide) (by decide)

/-! ## Material records -/

/-- C12: in a material record decoded with texture index width `t` in {1,2,4}, the 65 bytes
of colours, the two texture indices, the environment mode and the toon tag follow the two
names; when the tag byte is 0 the toon reference is read as a texture index (`t` bytes,
signed), otherwise (tag 1) exactly one byte is read and stored as a value in `0..255`.
The memo string is read from offset `65 + 2t + 2 + (t | 1)` after the names, and the face
count from the 4 bytes after the memo. -/
theorem material_load_toon (info : info_t) (index_size : index_size_t) (ec : Nat)
    (s s1 s2 s3 : ifstream) (n1 n2 memo : text) (ec1 ec2 ec3 : Nat) (t tag : Nat)
    (ht : t = 1 ∨ t = 2 ∨ t = 4)
    (hsize : index_size.bytes.getD index_type.TEXTURE.toNat 0 = t)
    (h1 : text.load info ec ⟨[]⟩ s = .ok (n1, ec1, s1))
    (h2 : text.load info ec1 ⟨[]⟩ s1 = .ok (n2, ec2, s2))
    (htag : le_value ((s2.buf.drop (65 + 2 * t + 1)).take 1) = tag)
    (hlen : 65 + 2 * t + 2 + (if tag = 0 then t else 1) ≤ s2.buf.length)
    (hmemo : text.load info ec2 ⟨[]⟩
      ⟨s2.buf.drop (65 + 2 * t + 2 + (if tag = 0 then t else 1)), false⟩ = .ok (memo, ec3, s3))
    (hfc : 4 ≤ s3.buf.length) :
    ∃ m : material_t,
      material_t.load info index_size ec s = .ok (m, ec3, ⟨s3.buf.drop 4, false⟩) ∧
      m.local_name = n1 ∧ m.global_name = n2 ∧ m.toon_flag = tag ∧ m.memo = memo ∧
      m.texture_index = to_signed (8 * t) (le_value ((s2.buf.drop 65).take t)) ∧
      m.environment_index = to_signed (8 * t) (le_value ((s2.buf.drop (65 + t)).take t)) ∧
      (tag = 0 → m.toon_index =
        to_signed (8 * t) (le_value ((s2.buf.drop (65 + 2 * t + 2)).take t))) ∧
      (tag ≠ 0 → m.toon_index = ((le_value ((s2.buf.drop (65 + 2 * t + 2)).take 1) : Nat) : Int)
        ∧ 0 ≤ m.toon_index ∧ m.toon_index ≤ 255) ∧
      consumed s2 ⟨s2.buf.drop (65 + 2 * t + 2 + (if tag = 0 then t else 1)), false⟩ =
        65 + 2 * t + 2 + (if tag = 0 then t else 1) := by
  obtain ⟨-, hf2, -⟩ := text_load_advances _ _ _ _ _ _ _ h2
  obtain ⟨-, hf3, -⟩ := text_load_advances _ _ _ _ _ _ _ hmemo
  obtain ⟨buf, fb⟩ := s2
  simp only at hf2 htag hlen hmemo
  subst hf2
  have e1 := read_ok_drop buf 0 16 (by omega)
  have e2 := read_ok_drop buf 16 12 (by omega)
  have e3 := read_ok_drop buf 28 4 (by omega)
  have e4 := read_ok_drop buf 32 12 (by omega)
  have e5 := read_ok_drop buf 44 1 (by omega)
  have e6 := read_ok_drop buf 45 16 (by omega)
  have e7 := read_ok_drop buf 61 4 (by omega)
  have e8 := index_load_drop index_size .TEXTURE buf 65 t ht hsize (by omega)
  have e9 := index_load_drop index_size .TEXTURE buf (65 + t) t ht hsize (by omega)
  have o0 : 65 + t + t = 65 + 2 * t := by omega
  have o2 : 65 + 2 * t + 1 + 1 = 65 + 2 * t + 2 := by omega
  rw [o0] at e9
  have e10 := read_ok_drop buf (65 + 2 * t) 1 (by omega)
  have e11 := read_ok_drop buf (65 + 2 * t + 1) 1 (by omega)
  rw [o2] at e11
  have e14 := read_ok s3 4 hf3 hfc
  simp only [List.drop_zero, Nat.zero_add, Nat.reduceAdd] at e1 e2 e3 e4 e5 e6 e7
  by_cases h0 : tag = 0
  · rw [if_pos h0] at hlen hmemo
    have e12 := index_load_drop index_size .TEXTURE buf (65 + 2 * t + 2) t ht hsize (by omega)
    refine ⟨⟨n1, n2, buf.take 16, (buf.drop 16).take 12, (buf.drop 28).take 4,
      (buf.drop 32).take 12, le_value ((buf.drop 44).take 1), (buf.drop 45).take 16,
      (buf.drop 61).take 4, to_signed (8 * t) (le_value ((buf.drop 65).take t)),
      to_signed (8 * t) (le_value ((buf.drop (65 + t)).take t)),
      le_value ((buf.drop (65 + 2 * t)).take 1), tag,
      to_signed (8 * t) (le_value ((buf.drop (65 + 2 * t + 2)).take t)),
      memo, to_signed 32 (le_value (s3.buf.take 4))⟩, ?_, ?_⟩
    · unfold material_t.load
      simp only [bind, Except.bind, h1, h2, e1, e2, e3, e4, e5, e6, e7, e8, e9, e10, e11,
        htag, h0, if_true, e12, hmemo, e14, pure, Except.pure]
    · simp only [h0, if_true, consumed, List.length_drop, ne_eq, not_true_eq_false,
        false_implies, true_implies, and_true, true_and]
      omega
  · rw [if_neg h0] at hlen hmemo
    have e12 := read_ok_drop buf (65 + 2 * t + 2) 1 (by omega)
    have hb : le_value ((buf.drop (65 + 2 * t + 2)).take 1) < 256 := by
      have := le_value_lt ((buf.drop (65 + 2 * t + 2)).take 1)
      rw [List.length_take, List.length_drop, Nat.min_eq_left (by omega)] at this
      simpa using this
    refine ⟨⟨n1, n2, buf.take 16, (buf.drop 16).take 12, (buf.drop 28).take 4,
      (buf.drop 32).take 12, le_value ((buf.drop 44).take 1), (buf.drop 45).take 16,
      (buf.drop 61).take 4, to_signed (8 * t) (le_value ((buf.drop 65).take t)),
      to_signed (8 * t) (le_value ((buf.drop (65 + t)).take t)),
      le_value ((buf.drop (65 + 2 * t)).take 1), tag,
      ((le_value ((buf.drop (65 + 2 * t + 2)).take 1) : Nat) : Int),
      memo, to_signed 32 (le_value (s3.buf.take 4))⟩, ?_, ?_⟩
    · unfold material_t.load
      simp only [bind, Except.bind, h1, h2, e1, e2, e3, e4, e5, e6, e7, e8, e9, e10, e11,
        htag, h0, if_false, e12, hmemo, e14, pure, Except.pure]
    · simp only [h0, if_false, consumed, List.length_drop, ne_eq, not_false_eq_true,
        false_implies, true_implies, and_true, true_and]
      omega

/-- Witness of C12: a material with two empty names, texture index width 1, toon tag 1 and
inbuilt toon value 200, an empty memo and face count 3. -/
theorem material_load_toon_witness :
    ∃ m : material_t,
      material_t.load ⟨0, 1, 0⟩ ⟨1, 1, 1, 1, 1, 1⟩ 0
        ⟨[0, 0, 0, 0, 0, 0, 0, 0, 1, 2, 3, 4, 5, 6, 7, 8, 9, 10, 11, 12, 13, 14, 15, 16, 17, 18,
        19, 20, 21, 22, 23, 24, 25, 26, 27, 28, 29, 30, 31, 32, 33, 34, 35, 36, 37, 38, 39, 40,
        41, 42, 43, 44, 45, 46, 47, 48, 49, 50, 51, 52, 53, 54, 55, 56, 57, 58, 59, 60, 61, 62,
        63, 64, 65, 0, 255, 0, 1, 200, 0, 0, 0, 0, 3, 0, 0, 0], false⟩ =
        .ok (m, 3, ⟨[], false⟩) ∧
      m.toon_flag = 1 ∧ m.toon_index = 200 ∧ m.texture_index = 0 ∧ m.environment_index = -1 := by
  obtain ⟨m, h, -, -, h3, -, h5, h6, -, h8, -⟩ := material_load_toon ⟨0, 1, 0⟩ ⟨1, 1, 1, 1, 1, 1⟩ 0
    ⟨[0, 0, 0, 0, 0, 0, 0, 0, 1, 2, 3, 4, 5, 6, 7, 8, 9, 10, 11, 12, 13, 14, 15, 16, 17, 18,
    19, 20, 21, 22, 23, 24, 25, 26, 27, 28, 29, 30, 31, 32, 33, 34, 35, 36, 37, 38, 39, 40,
    41, 42, 43, 44, 45, 46, 47, 48, 49, 50, 51, 52, 53, 54, 55, 56, 57, 58, 59, 60, 61, 62,
    63, 64, 65, 0, 255, 0, 1, 200, 0, 0, 0, 0, 3, 0, 0, 0], false⟩
    ⟨[0, 0, 0, 0, 1, 2, 3, 4, 5, 6, 7, 8, 9, 10, 11, 12, 13, 14, 15, 16, 17, 18, 19, 20, 21,
    22, 23, 24, 25, 26, 27, 28, 29, 30, 31, 32, 33, 34, 35, 36, 37, 38, 39, 40, 41, 42, 43,
    44, 45, 46, 47, 48, 49, 50, 51, 52, 53, 54, 55, 56, 57, 58, 59, 60, 61, 62, 63, 64, 65, 0,
    255, 0, 1, 200, 0, 0, 0, 0, 3, 0, 0, 0], false⟩
    ⟨[1, 2, 3, 4, 5, 6, 7, 8, 9, 10, 11, 12, 13, 14, 15, 16, 17, 18, 19, 20, 21, 22, 23, 24,
    25, 26, 27, 28, 29, 30, 31, 32, 33, 34, 35, 36, 37, 38, 39, 40, 41, 42, 43, 44, 45, 46,
    47, 48, 49, 50, 51, 52, 53, 54, 55, 56, 57, 58, 59, 60, 61, 62, 63, 64, 65, 0, 255, 0, 1,
    200, 0, 0, 0, 0, 3, 0, 0, 0], false⟩
    ⟨[3, 0, 0, 0], false⟩
    ⟨unnamed ++ to_string 0⟩ ⟨unnamed ++ to_string 1⟩ ⟨unnamed ++ to_string 2⟩ 1 2 3 1 1
    (Or.inl rfl) rfl (by decide) (by decide) (by decide) (by decide) (by decide) (by decide)
  refine ⟨m, h, h3, ?_, ?_, ?_⟩
  · rw [(h8 (by decide)).1]
    decide
  · rw [h5]
    decide
  · rw [h6]
    decide

/-! ## List readers -/

theorem read_into_count (s : ifstream) (cntb after : List Nat) (old : Nat)
    (hf : s.failbit = false) (hbuf : s.buf = cntb ++ after) (hl : cntb.length = 4) :
    s.read_into 4 (le_bytes 4 old) = (cntb, ⟨after, false⟩) := by
  have h4 : 4 ≤ s.buf.length := by rw [hbuf, List.length_append]; omega
  have hd : (le_bytes 4 old).drop 4 = [] :=
    List.drop_eq_nil_of_le (by rw [le_bytes_length])
  simp only [ifstream.read_into, hf, h4, if_true, hd, List.append_nil, Bool.false_eq_true,
    if_false]
  rw [hbuf, List.take_left' hl, List.drop_left' hl]

theorem face_load_drop (index_size : index_size_t) (buf : List Nat) (k w : Nat)
    (hw : w = 1 ∨ w = 2 ∨ w = 4)
    (hsize : index_size.bytes.getD index_type.VERTEX.toNat 0 = w) (hn : k + w ≤ buf.length) :
    face_t.load index_size ⟨buf.drop k, false⟩ =
      .ok (⟨(to_signed (8 * w) (le_value ((buf.drop k).take w)) % 2 ^ 32).toNat⟩,
        ⟨buf.drop (k + w), false⟩) := by
  simp only [face_t.load, bind, Except.bind, index_load_drop index_size .VERTEX buf k w hw hsize hn,
    pure, Except.pure]

theorem face_loop_drop (index_size : index_size_t) (buf : List Nat) (w : Nat)
    (hw : w = 1 ∨ w = 2 ∨ w = 4)
    (hsize : index_size.bytes.getD index_type.VERTEX.toNat 0 = w) (n : Nat) :
    ∀ (acc : List face_t) (k : Nat), k + n * w ≤ buf.length →
      face_list.load_loop index_size n acc ⟨buf.drop k, false⟩ =
        .ok (acc ++ (List.range n).map (fun i => face_of_bytes w (buf.drop k) i),
          ⟨buf.drop (k + n * w), false⟩) := by
  induction n with
  | zero =>
    intro acc k _
    simp [face_list.load_loop]
  | succ n ih =>
    intro acc k hk
    have hk1 : k + w ≤ buf.length := by
      have : (n + 1) * w = n * w + w := Nat.succ_mul n w
      omega
    have hk2 : k + w + n * w ≤ buf.length := by
      have : (n + 1) * w = n * w + w := Nat.succ_mul n w
      omega
    simp only [face_list.load_loop, bind, Except.bind, face_load_drop index_size buf k w hw hsize hk1]
    rw [ih _ (k + w) hk2]
    have e1 : k + w + n * w = k + (n + 1) * w := by
      have : (n + 1) * w = n * w + w := Nat.succ_mul n w
      omega
    rw [e1, List.range_succ_eq_map, List.map_cons, List.map_map, List.append_assoc]
    have hhead : face_of_bytes w (buf.drop k) 0 =
        ⟨(to_signed (8 * w) (le_value ((buf.drop k).take w)) % 2 ^ 32).toNat⟩ := by
      simp [face_of_bytes]
    have htail : List.map ((fun i => face_of_bytes w (buf.drop k) i) ∘ Nat.succ) (List.range n) =
        List.map (fun i => face_of_bytes w (buf.drop (k + w)) i) (List.range n) := by
      apply List.map_congr_left
      intro i _
      simp only [Function.comp, face_of_bytes, List.drop_drop]
      have e2 : k + (i + 1) * w = k + w + i * w := by
        have : (i + 1) * w = i * w + w := Nat.succ_mul i w
        omega
      rw [e2]
    rw [hhead, htail, List.singleton_append]

/-- C13: on a good stream that holds a 4-byte count `n` followed by at least `n * w` bytes,
with vertex index width `w` in {1,2,4}, `face_list::load` stores the count; for `n = 0` it
stores no record (the data of the list is left as it was: empty from the start state);
otherwise it stores exactly `n` records, record `i` holding the index decoded from the bytes
`[i*w, (i+1)*w)` after the count, in stream order.  It extracts exactly `4 + n * w` bytes. -/
theorem face_list_load_records (index_size : index_size_t) (self : face_list) (s : ifstream)
    (cntb after : List Nat) (n w : Nat) (hw : w = 1 ∨ w = 2 ∨ w = 4)
    (hsize : index_size.bytes.getD index_type.VERTEX.toNat 0 = w)
    (hf : s.failbit = false) (hbuf : s.buf = cntb ++ after) (hl : cntb.length = 4)
    (hn : le_value cntb = n) (hlen : n * w ≤ after.length) :
    ∃ r : face_list,
      face_list.load index_size self s = .ok (r, ⟨after.drop (n * w), false⟩) ∧
      r.count = n ∧
      (n = 0 → r.data = self.data) ∧
      (n ≠ 0 → r.data = (List.range n).map (face_of_bytes w after) ∧ r.data.length = n) ∧
      consumed s ⟨after.drop (n * w), false⟩ = 4 + n * w := by
  have hcount := read_into_count s cntb after self.count hf hbuf hl
  have hcons : consumed s ⟨after.drop (n * w), false⟩ = 4 + n * w := by
    simp only [consumed, hbuf, List.length_append, hl, List.length_drop]
    omega
  by_cases h0 : n = 0
  · subst h0
    refine ⟨⟨0, self.data⟩, ?_, rfl, fun _ => rfl, fun h => absurd rfl h, hcons⟩
    simp only [face_list.load, hcount, hn, if_true, Nat.zero_mul, List.drop_zero]
  · refine ⟨⟨n, (List.range n).map (face_of_bytes w after)⟩, ?_, rfl, fun h => absurd h h0,
      fun _ => ⟨rfl, by simp⟩, hcons⟩
    have hloop := face_loop_drop index_size after w hw hsize n [] 0 (by omega)
    simp only [List.drop_zero, Nat.zero_add, List.nil_append] at hloop
    simp only [face_list.load, hcount, hn, h0, if_false, bind, Except.bind, hloop, pure,
      Except.pure]

/-- Witness of C13: three faces of width 2 (indices 1, 258 and -1), then one more byte. -/
theorem face_list_load_records_witness :
    ∃ r : face_list,
      face_list.load ⟨2, 1, 1, 1, 1, 1⟩ ⟨0, []⟩ ⟨[3, 0, 0, 0, 1, 0, 2, 1, 255, 255, 9], false⟩ =
        .ok (r, ⟨[9], false⟩) ∧
      r.count = 3 ∧ r.data = [⟨1⟩, ⟨258⟩, ⟨4294967295⟩] ∧
      consumed ⟨[3, 0, 0, 0, 1, 0, 2, 1, 255, 255, 9], false⟩ ⟨[9], false⟩ = 4 + 3 * 2 := by
  obtain ⟨r, h1, h2, -, h4, h5⟩ := face_list_load_records ⟨2, 1, 1, 1, 1, 1⟩ ⟨0, []⟩
    ⟨[3, 0, 0, 0, 1, 0, 2, 1, 255, 255, 9], false⟩ [3, 0, 0, 0] [1, 0, 2, 1, 255, 255, 9] 3 2
    (Or.inr (Or.inl rfl)) rfl rfl rfl rfl (by decide) (by decide)
  refine ⟨r, h1, h2, ?_, h5⟩
  rw [(h4 (by decide)).1]
  decide

/-! ## Vertex records -/

theorem weight_load_any (index_size : index_size_t) (buf : List Nat) (k w tag wb : Nat)
    (hw : w = 1 ∨ w = 2 ∨ w = 4)
    (hsize : index_size.bytes.getD index_type.BONE.toNat 0 = w)
    (hwb : (if tag = 0 then w else if tag = 1 then 2 * w + 4 else if tag = 2 then 4 * w + 16
      else 2 * w + 36) = wb)
    (hlen : k + wb ≤ buf.length) :
    ∃ wt : weight_t,
      weight_t.load index_size ⟨buf.drop k, false⟩ tag =
        .ok (wt, ⟨buf.drop (k + wb), false⟩) ∧
      (tag = 0 → ∃ i, wt = .bdef1 i) ∧
      (tag = 1 → ∃ i1 i2 w1, wt = .bdef2 i1 i2 w1) ∧
      (tag = 2 → ∃ i1 i2 i3 i4 w1 w2 w3 w4, wt = .bdef4 i1 i2 i3 i4 w1 w2 w3 w4) ∧
      (3 ≤ tag → wt = .sdef (to_signed (8 * w) (le_value ((buf.drop k).take w)))
        (to_signed (8 * w) (le_value ((buf.drop (k + w)).take w)))
        ((buf.drop (k + (w + w))).take 12) ((buf.drop (k + (w + w + 12))).take 12)
        ((buf.drop (k + (w + w + 12 + 12))).take 12)) := by
  have hl : (buf.drop k).length = buf.length - k := List.length_drop k buf
  by_cases h0 : tag = 0
  · subst h0
    rw [if_pos rfl] at hwb
    subst hwb
    have h := weight_load_bdef1 index_size (buf.drop k) w hw hsize (by omega)
    rw [List.drop_drop] at h
    exact ⟨_, h, fun _ => ⟨_, rfl⟩, fun h => absurd h (by decide), fun h => absurd h (by decide),
      fun h => absurd h (by decide)⟩
  · by_cases h1 : tag = 1
    · subst h1
      rw [if_neg (by decide), if_pos rfl] at hwb
      subst hwb
      have h := weight_load_bdef2 index_size (buf.drop k) w hw hsize (by omega)
      simp only [List.drop_drop] at h
      exact ⟨_, h, fun h => absurd h (by decide), fun _ => ⟨_, _, _, rfl⟩,
        fun h => absurd h (by decide), fun h => absurd h (by decide)⟩
    · by_cases h2 : tag = 2
      · subst h2
        rw [if_neg (by decide), if_neg (by decide), if_pos rfl] at hwb
        subst hwb
        have h := weight_load_bdef4 index_size (buf.drop k) w hw hsize (by omega)
        simp only [List.drop_drop] at h
        exact ⟨_, h, fun h => absurd h (by decide), fun h => absurd h (by decide),
          fun _ => ⟨_, _, _, _, _, _, _, _, rfl⟩, fun h => absurd h (by decide)⟩
      · have h3 : 3 ≤ tag := by omega
        rw [if_neg h0, if_neg h1, if_neg h2] at hwb
        subst hwb
        have h := weight_load_sdef index_size (buf.drop k) w tag hw hsize h3 (by omega)
        simp only [List.drop_drop] at h
        exact ⟨_, h, fun h => absurd h h0, fun h => absurd h h1, fun h => absurd h h2,
          fun _ => rfl⟩

theorem vertex_load_core (info : info_t) (index_size : index_size_t) (store : List (List Nat))
    (cnt : Nat) (buf : List Nat) (o k w tag wb : Nat) (hk : info.additional_uv_count = k)
    (hw : w = 1 ∨ w = 2 ∨ w = 4)
    (hsize : index_size.bytes.getD index_type.BONE.toNat 0 = w)
    (htag : le_value ((buf.drop (o + 32 + 16 * k)).take 1) = tag)
    (hwb : (if tag = 0 then w else if tag = 1 then 2 * w + 4 else if tag = 2 then 4 * w + 16
      else 2 * w + 36) = wb)
    (hlen : o + (37 + 16 * k + wb) ≤ buf.length)
    (hstore : 0 < k → cnt + k ≤ store.length) :
    ∃ wt : weight_t,
      weight_t.load index_size ⟨buf.drop (o + 33 + 16 * k), false⟩ tag =
        .ok (wt, ⟨buf.drop (o + 33 + 16 * k + wb), false⟩) ∧
      vertex_t.load info index_size store cnt ⟨buf.drop o, false⟩ =
        .ok (⟨(buf.drop o).take 12, (buf.drop (o + 12)).take 12, (buf.drop (o + 24)).take 8,
            if 0 < k then some cnt else none, tag, wt,
            (buf.drop (o + 33 + 16 * k + wb)).take 4⟩,
          if 0 < k then
            store.take cnt ++ vec4_chunks k ((buf.drop (o + 32)).take (16 * k)) ++
              store.drop (cnt + k)
          else store,
          if 0 < k then (cnt + k) % 2 ^ 32 else cnt,
          ⟨buf.drop (o + 37 + 16 * k + wb), false⟩) := by
  obtain ⟨wt, hwt, -⟩ := weight_load_any index_size buf (o + 33 + 16 * k) w tag wb hw hsize hwb
    (by omega)
  refine ⟨wt, hwt, ?_⟩
  have e1 := read_ok_drop buf o 12 (by omega)
  have e2 := read_ok_drop buf (o + 12) 12 (by omega)
  have e3 := read_ok_drop buf (o + 12 + 12) 8 (by omega)
  have a1 : o + 12 + 12 = o + 24 := by omega
  have a2 : o + 24 + 8 = o + 32 := by omega
  rw [a1, a2] at e3
  rw [a1] at e2
  have e6 := read_ok_drop buf (o + 33 + 16 * k + wb) 4 (by omega)
  have a5 : o + 33 + 16 * k + wb + 4 = o + 37 + 16 * k + wb := by
    omega
  rw [a5] at e6
  by_cases hk0 : 0 < k
  · have hst := hstore hk0
    have e4 := read_ok_drop buf (o + 32) (16 * k) (by omega)
    have e5 := read_ok_drop buf (o + 32 + 16 * k) 1 (by omega)
    have a3 : o + 32 + 16 * k + 1 = o + 33 + 16 * k := by omega
    rw [a3] at e5
    have hk1 : k > 0 := hk0
    simp only [vertex_t.load, hk, bind, Except.bind, e1, e2, e3, hk1, if_true, e4, hst, pure,
      Except.pure, e5, htag, hwt, e6, if_pos hk0]
  · have hz : k = 0 := by omega
    subst hz
    have e5 := read_ok_drop buf (o + 32) 1 (by omega)
    have a3 : o + 32 + 1 = o + 33 + 16 * 0 := by omega
    rw [a3] at e5
    have a4 : o + 32 + 16 * 0 = o + 32 := by omega
    rw [a4] at htag
    simp only [vertex_t.load, hk, bind, Except.bind, e1, e2, e3, gt_iff_lt, Nat.lt_irrefl,
      if_false, pure, Except.pure, e5, htag, hwt, e6]

theorem vertex_load_bdef_layout (info : info_t) (index_size : index_size_t)
    (store : List (List Nat)) (cnt : Nat) (s : ifstream) (k w tag : Nat)
    (hk : info.additional_uv_count = k) (hw : w = 1 ∨ w = 2 ∨ w = 4)
    (hsize : index_size.bytes.getD index_type.BONE.toNat 0 = w) (hf : s.failbit = false)
    (htag : le_value ((s.buf.drop (32 + 16 * k)).take 1) = tag) (htag2 : tag ≤ 2)
    (hlen : 37 + 16 * k + weight_variant_bytes w tag ≤ s.buf.length)
    (hstore : 0 < k → cnt + k ≤ store.length) :
    ∃ (v : vertex_t) (st : List (List Nat)) (cn : Nat),
      vertex_t.load info index_size store cnt s =
        .ok (v, st, cn, ⟨s.buf.drop (37 + 16 * k + weight_variant_bytes w tag), false⟩) ∧
      v.weight_type = tag ∧
      v.edge_scale = (s.buf.drop (33 + 16 * k + weight_variant_bytes w tag)).take 4 ∧
      consumed s ⟨s.buf.drop (37 + 16 * k + weight_variant_bytes w tag), false⟩ =
        37 + 16 * k + weight_variant_bytes w tag := by
  obtain ⟨buf, fb⟩ := s
  simp only at hf htag hlen
  subst hf
  have hwb : (if tag = 0 then w else if tag = 1 then 2 * w + 4 else if tag = 2 then 4 * w + 16
      else 2 * w + 36) = weight_variant_bytes w tag := by
    unfold weight_variant_bytes
    by_cases h0 : tag = 0
    · rw [if_pos h0, if_pos h0]
    · by_cases h1 : tag = 1
      · rw [if_neg h0, if_pos h1, if_neg h0, if_pos h1]
      · have h2 : tag = 2 := by omega
        rw [if_neg h0, if_neg h1, if_pos h2, if_neg h0, if_neg h1, if_pos h2]
  obtain ⟨wt, -, hv⟩ := vertex_load_core info index_size store cnt buf 0 k w tag _ hk hw hsize
    (by simpa using htag) hwb (by omega) hstore
  simp only [Nat.zero_add, List.drop_zero] at hv
  refine ⟨_, _, _, hv, rfl, rfl, ?_⟩
  simp only [consumed, List.length_drop]
  omega

/-- C19: a vertex record with no extra UV, bone index width 1 and weight tag 3 (SDEF), laid
out as the data model says: position, normal, uv, tag, two bone indices `03 FF`, `weight1`
`00 00 80 3F`, `C` (`51..62`), `R0` (`63..74`), `R1` (`75..86`), edge scale `00 00 00 40`;
one more byte follows.  `vertex_t::load` reads the 33 bytes up to the tag and then, in the
SDEF branch of `weight_t::load`, the two indices and 36 bytes: `weight1` and the first 8
bytes of `C` become `C`, and so on; the last 4 bytes of `R1` (`83 84 85 86`) are taken as the
edge scale and the 4 bytes of the edge scale stay in the stream.  The record takes 75 bytes,
not the `37 + 42 = 79` of the claimed layout. -/
theorem vertex_sdef_takes_r1_as_edge_scale :
    vertex_t.load ⟨0, 1, 0⟩ ⟨1, 1, 1, 1, 1, 1⟩ [] 0
      ⟨[1, 2, 3, 4, 5, 6, 7, 8, 9, 10, 11, 12, 21, 22, 23, 24, 25, 26, 27, 28, 29, 30, 31, 32,
        41, 42, 43, 44, 45, 46, 47, 48, 3, 3, 255, 0, 0, 128, 63,
        51, 52, 53, 54, 55, 56, 57, 58, 59, 60, 61, 62, 63, 64, 65, 66, 67, 68, 69, 70, 71,
        72, 73, 74, 75, 76, 77, 78, 79, 80, 81, 82, 83, 84, 85, 86, 0, 0, 0, 64, 9],
        false⟩ =
      .ok (⟨[1, 2, 3, 4, 5, 6, 7, 8, 9, 10, 11, 12],
          [21, 22, 23, 24, 25, 26, 27, 28, 29, 30, 31, 32], [41, 42, 43, 44, 45, 46, 47, 48],
          none, 3,
          .sdef 3 (-1) [0, 0, 128, 63, 51, 52, 53, 54, 55, 56, 57, 58]
            [59, 60, 61, 62, 63, 64, 65, 66, 67, 68, 69, 70]
            [71, 72, 73, 74, 75, 76, 77, 78, 79, 80, 81, 82],
          [83, 84, 85, 86]⟩, [], 0, ⟨[0, 0, 0, 64, 9], false⟩) ∧
    consumed
      ⟨[1, 2, 3, 4, 5, 6, 7, 8, 9, 10, 11, 12, 21, 22, 23, 24, 25, 26, 27, 28, 29, 30, 31, 32,
        41, 42, 43, 44, 45, 46, 47, 48, 3, 3, 255, 0, 0, 128, 63,
        51, 52, 53, 54, 55, 56, 57, 58, 59, 60, 61, 62, 63, 64, 65, 66, 67, 68, 69, 70, 71,
        72, 73, 74, 75, 76, 77, 78, 79, 80, 81, 82, 83, 84, 85, 86, 0, 0, 0, 64, 9],
        false⟩ ⟨[0, 0, 0, 64, 9], false⟩ = 75 ∧
    37 + 16 * 0 + weight_variant_bytes 1 3 = 79 := by
  decide

/-! ## Inputs outside the format -/

theorem text_load_selector (info1 info2 : info_t) (h1 : info1.encoding_type ≠ 0)
    (h2 : info2.encoding_type ≠ 0) (ec : Nat) (t : text) (s : ifstream) :
    text.load info1 ec t s = text.load info2 ec t s := by
  simp only [text.load, h1, h2, if_false]

theorem info_load_selector_overrun (self : info_t) (d sel u : Nat) (rest : List Nat)
    (hsel : 2 ≤ sel % 256) :
    info_t.load self ⟨d :: sel :: u :: rest, false⟩ = .error .overrun := by
  have h : ¬ sel % 256 < 2 := by omega
  simp [info_t.load, ifstream.read_into, h]

/-- C14: the Info record `08 02 00` (encoding selector 2) in a file that goes on with the
index widths and the UTF-8 field `02 00 00 00 68 69`.  `info_t::load` stores the three bytes
and tests none of them; its log line then indexes the two-entry table `symbols` with the
selector, an access past the array: the run leaves defined behaviour at the Info stage (the
result `Fault.overrun`), which is not a failure that the program detects or reports.  The
same holds for every selector byte from 2 to 255.  Nothing after the Info stage tests the
selector either: `text::load` run under selector 2 decodes that field as the UTF-8 string
`hi`. -/
theorem selector_two_indexes_past_symbols :
    info_t.load ⟨0, 0, 0⟩
      ⟨[8, 2, 0] ++ [1, 1, 1, 1, 1, 1] ++ [2, 0, 0, 0, 104, 105], false⟩ = .error .overrun ∧
    read globals.init
      (some ([80, 77, 88, 32, 0, 0, 0, 64] ++ [8, 2, 0] ++ [1, 1, 1, 1, 1, 1] ++
        [2, 0, 0, 0, 104, 105] ++ [0, 0, 0, 0] ++ [0, 0, 0, 0] ++ [0, 0, 0, 0] ++
        [0, 0, 0, 0] ++ [0, 0, 0, 0] ++ [0, 0, 0, 0] ++ [0, 0, 0, 0] ++ [0, 0, 0, 0])) =
      .error .overrun ∧
    (∀ (self : info_t) (d sel u : Nat) (rest : List Nat), 2 ≤ sel % 256 →
      info_t.load self ⟨d :: sel :: u :: rest, false⟩ = .error .overrun) ∧
    text.load ⟨8, 2, 0⟩ 0 ⟨[]⟩ ⟨[2, 0, 0, 0, 104, 105], false⟩ =
      .ok (⟨[104, 105]⟩, 0, ⟨[], false⟩) := by
  refine ⟨by decide, by decide, ?_, by decide⟩
  intro self d sel u rest hsel
  exact info_load_selector_overrun self d sel u rest hsel

theorem weight_load_last_branch (index_size : index_size_t) (s : ifstream) (tag : Nat)
    (h : 3 ≤ tag) : weight_t.load index_size s tag = weight_t.load index_size s 3 := by
  unfold weight_t.load
  rw [if_neg (show ¬ tag = 0 by omega), if_neg (show ¬ tag = 1 by omega),
    if_neg (show ¬ tag = 2 by omega), if_neg (show ¬ (3 : Nat) = 0 by decide),
    if_neg (show ¬ (3 : Nat) = 1 by decide), if_neg (show ¬ (3 : Nat) = 2 by decide)]

theorem read_append (pre l : List Nat) (n : Nat) (h : n ≤ pre.length) :
    (⟨pre ++ l, false⟩ : ifstream).read n = .ok (pre.take n, ⟨pre.drop n ++ l, false⟩) := by
  rw [read_ok _ n rfl (by simp only [List.length_append]; omega)]
  simp only [List.take_append_of_le_length h, List.drop_append_of_le_length h]

theorem vertex_load_tag_byte (info : info_t) (index_size : index_size_t)
    (store : List (List Nat)) (cnt : Nat) (pre post : List Nat) (k x : Nat)
    (hk : info.additional_uv_count = k) (hpre : pre.length = 32 + 16 * k) (hx : x < 256) :
    vertex_t.load info index_size store cnt ⟨pre ++ x :: post, false⟩ =
      (if 0 < k ∧ ¬ cnt + k ≤ store.length then .error .overrun
       else
        (weight_t.load index_size ⟨post, false⟩ x).bind (fun wt =>
          (wt.2.read 4).bind (fun e =>
            .ok (⟨pre.take 12, (pre.drop 12).take 12, (pre.drop 24).take 8,
                if 0 < k then some cnt else none, x, wt.1, e.1⟩,
              if 0 < k then
                store.take cnt ++ vec4_chunks k (pre.drop 32) ++ store.drop (cnt + k)
              else store,
              if 0 < k then (cnt + k) % 2 ^ 32 else cnt, e.2)))) := by
  have e1 := read_append pre (x :: post) 12 (by omega)
  have e2 := read_append (pre.drop 12) (x :: post) 12 (by rw [List.length_drop]; omega)
  have e3 := read_append ((pre.drop 12).drop 12) (x :: post) 8
    (by rw [List.length_drop, List.length_drop]; omega)
  simp only [List.drop_drop] at e2 e3
  have hlv : le_value [x] = x := by
    simp only [le_value, Nat.mod_eq_of_lt hx]
    omega
  by_cases hk0 : 0 < k
  · have e4 := read_append (pre.drop 32) (x :: post) (16 * k)
      (by rw [List.length_drop]; omega)
    have hd : (pre.drop 32).drop (16 * k) = [] :=
      List.drop_eq_nil_of_le (by rw [List.length_drop]; omega)
    have ht : (pre.drop 32).take (16 * k) = pre.drop 32 :=
      List.take_of_length_le (by rw [List.length_drop]; omega)
    rw [hd, ht, List.nil_append] at e4
    have e5 : (⟨x :: post, false⟩ : ifstream).read 1 = .ok ([x], ⟨post, false⟩) := by
      rw [read_ok _ 1 rfl (by simp)]
      rfl
    have hk1 : k > 0 := hk0
    by_cases hst : cnt + k ≤ store.length
    · simp only [vertex_t.load, hk, bind, Except.bind, e1, e2, e3, hk1, if_true, e4, hst, pure,
        Except.pure, e5, hlv, hk0, not_true_eq_false, and_false, if_false]
    · simp only [vertex_t.load, hk, bind, Except.bind, e1, e2, e3, hk1, if_true, e4, hst,
        if_false, hk0, not_false_eq_true, and_self]
  · have hz : k = 0 := by omega
    subst hz
    have hd : pre.drop 32 = [] := List.drop_eq_nil_of_le (by omega)
    have e5 : (⟨pre.drop 32 ++ x :: post, false⟩ : ifstream).read 1 =
        .ok ([x], ⟨post, false⟩) := by
      rw [hd, List.nil_append, read_ok _ 1 rfl (by simp)]
      rfl
    simp only [vertex_t.load, hk, bind, Except.bind, e1, e2, e3, gt_iff_lt, Nat.lt_irrefl,
      if_false, pure, Except.pure, e5, hlv, false_and]

/-- C15 (as amended): for a vertex record whose weight tag byte `tag` is outside {0,1,2,3},
nothing is reported: `weight_t::load` takes the last branch of its if/else chain, the one
that serves tag 3, so on every stream it does exactly what it does for tag 3; and
`vertex_t::load` decodes the record exactly as it decodes the same record with tag byte 3
(same weight, same other members, same store, cursor and stream), except that the member
`weight_type` holds the tag byte as read. -/
theorem weight_tag_out_of_domain (info : info_t) (index_size : index_size_t)
    (store : List (List Nat)) (cnt : Nat) (pre post : List Nat) (k tag : Nat)
    (hk : info.additional_uv_count = k) (hpre : pre.length = 32 + 16 * k)
    (htag4 : 4 ≤ tag) (htag : tag < 256) :
    (∀ s : ifstream, weight_t.load index_size s tag = weight_t.load index_size s 3) ∧
    vertex_t.load info index_size store cnt ⟨pre ++ tag :: post, false⟩ =
      (vertex_t.load info index_size store cnt ⟨pre ++ 3 :: post, false⟩).map
        (fun r => (⟨r.1.position, r.1.normal, r.1.uv, r.1.additional_uv, tag, r.1.weight,
          r.1.edge_scale⟩, r.2)) := by
  refine ⟨fun s => weight_load_last_branch index_size s tag (by omega), ?_⟩
  rw [vertex_load_tag_byte info index_size store cnt pre post k tag hk hpre htag,
    vertex_load_tag_byte info index_size store cnt pre post k 3 hk hpre (by decide),
    weight_load_last_branch index_size _ tag (by omega)]
  by_cases hc : 0 < k ∧ ¬ cnt + k ≤ store.length
  · rw [if_pos hc, if_pos hc]
    rfl
  · rw [if_neg hc, if_neg hc]
    cases weight_t.load index_size ⟨post, false⟩ 3 with
    | error e => rfl
    | ok wt =>
      simp only [Except.bind]
      cases wt.2.read 4 with
      | error e => rfl
      | ok e => rfl

/-- Witness of C15 (as amended): no extra UV, bone index width 1, weight tag byte 200: the
record decodes as the one with tag byte 3 does, with `weight_type = 200`, and the byte after
it stays in the stream. -/
theorem weight_tag_out_of_domain_witness :
    weight_t.load ⟨1, 1, 1, 1, 1, 1⟩ ⟨[3, 255, 9], false⟩ 200 =
      weight_t.load ⟨1, 1, 1, 1, 1, 1⟩ ⟨[3, 255, 9], false⟩ 3 ∧
    vertex_t.load ⟨0, 1, 0⟩ ⟨1, 1, 1, 1, 1, 1⟩ [] 0
      ⟨[1, 2, 3, 4, 5, 6, 7, 8, 9, 10, 11, 12, 21, 22, 23, 24, 25, 26, 27, 28, 29, 30, 31, 32,
      41, 42, 43, 44, 45, 46, 47, 48] ++ 3 :: [3, 255, 51, 52, 53, 54, 55, 56, 57, 58, 59, 60, 61, 62, 63, 64, 65, 66, 67, 68, 69, 70, 71,
      72, 73, 74, 75, 76, 77, 78, 79, 80, 81, 82, 83, 84, 85, 86, 0, 0, 128, 63, 9], false⟩ =
      .ok (⟨[1, 2, 3, 4, 5, 6, 7, 8, 9, 10, 11, 12],
          [21, 22, 23, 24, 25, 26, 27, 28, 29, 30, 31, 32], [41, 42, 43, 44, 45, 46, 47, 48],
          none, 3,
          .sdef 3 (-1) [51, 52, 53, 54, 55, 56, 57, 58, 59, 60, 61, 62]
            [63, 64, 65, 66, 67, 68, 69, 70, 71, 72, 73, 74]
            [75, 76, 77, 78, 79, 80, 81, 82, 83, 84, 85, 86],
          [0, 0, 128, 63]⟩, [], 0, ⟨[9], false⟩) ∧
    vertex_t.load ⟨0, 1, 0⟩ ⟨1, 1, 1, 1, 1, 1⟩ [] 0
      ⟨[1, 2, 3, 4, 5, 6, 7, 8, 9, 10, 11, 12, 21, 22, 23, 24, 25, 26, 27, 28, 29, 30, 31, 32,
      41, 42, 43, 44, 45, 46, 47, 48] ++ 200 :: [3, 255, 51, 52, 53, 54, 55, 56, 57, 58, 59, 60, 61, 62, 63, 64, 65, 66, 67, 68, 69, 70, 71,
      72, 73, 74, 75, 76, 77, 78, 79, 80, 81, 82, 83, 84, 85, 86, 0, 0, 128, 63, 9], false⟩ =
      .ok (⟨[1, 2, 3, 4, 5, 6, 7, 8, 9, 10, 11, 12],
          [21, 22, 23, 24, 25, 26, 27, 28, 29, 30, 31, 32], [41, 42, 43, 44, 45, 46, 47, 48],
          none, 200,
          .sdef 3 (-1) [51, 52, 53, 54, 55, 56, 57, 58, 59, 60, 61, 62]
            [63, 64, 65, 66, 67, 68, 69, 70, 71, 72, 73, 74]
            [75, 76, 77, 78, 79, 80, 81, 82, 83, 84, 85, 86],
          [0, 0, 128, 63]⟩, [], 0, ⟨[9], false⟩) := by
  obtain ⟨h1, h2⟩ := weight_tag_out_of_domain ⟨0, 1, 0⟩ ⟨1, 1, 1, 1, 1, 1⟩ [] 0
    [1, 2, 3, 4, 5, 6, 7, 8, 9, 10, 11, 12, 21, 22, 23, 24, 25, 26, 27, 28, 29, 30, 31, 32,
      41, 42, 43, 44, 45, 46, 47, 48]
    [3, 255, 51, 52, 53, 54, 55, 56, 57, 58, 59, 60, 61, 62, 63, 64, 65, 66, 67, 68, 69, 70, 71,
      72, 73, 74, 75, 76, 77, 78, 79, 80, 81, 82, 83, 84, 85, 86, 0, 0, 128, 63, 9]
    0 200 rfl (by decide) (by decide) (by decide)
  have h3 : vertex_t.load ⟨0, 1, 0⟩ ⟨1, 1, 1, 1, 1, 1⟩ [] 0
      ⟨[1, 2, 3, 4, 5, 6, 7, 8, 9, 10, 11, 12, 21, 22, 23, 24, 25, 26, 27, 28, 29, 30, 31, 32,
      41, 42, 43, 44, 45, 46, 47, 48] ++ 3 :: [3, 255, 51, 52, 53, 54, 55, 56, 57, 58, 59, 60, 61, 62, 63, 64, 65, 66, 67, 68, 69, 70, 71,
      72, 73, 74, 75, 76, 77, 78, 79, 80, 81, 82, 83, 84, 85, 86, 0, 0, 128, 63, 9], false⟩ =
      .ok (⟨[1, 2, 3, 4, 5, 6, 7, 8, 9, 10, 11, 12],
          [21, 22, 23, 24, 25, 26, 27, 28, 29, 30, 31, 32], [41, 42, 43, 44, 45, 46, 47, 48],
          none, 3,
          .sdef 3 (-1) [51, 52, 53, 54, 55, 56, 57, 58, 59, 60, 61, 62]
            [63, 64, 65, 66, 67, 68, 69, 70, 71, 72, 73, 74]
            [75, 76, 77, 78, 79, 80, 81, 82, 83, 84, 85, 86],
          [0, 0, 128, 63]⟩, [], 0, ⟨[9], false⟩) := by
    decide
  refine ⟨h1 _, h3, ?_⟩
  rw [h2, h3]
  rfl

/-- Counterexample to C15 as stated: a vertex record with weight tag byte 200 and bone index
width 1.  `weight_t::load` returns the SDEF variant with bone indices 3 and -1 and the 36
bytes that follow as `C`, `R0`, `R1`; `vertex_t::load` completes, with the 4 bytes after
them as edge scale, and the stream stays good. -/
theorem weight_tag_200_decodes_sdef :
    weight_t.load ⟨1, 1, 1, 1, 1, 1⟩
      ⟨[3, 255, 51, 52, 53, 54, 55, 56, 57, 58, 59, 60, 61, 62, 63, 64, 65, 66, 67, 68, 69, 70,
        71, 72, 73, 74, 75, 76, 77, 78, 79, 80, 81, 82, 83, 84, 85, 86, 0, 0, 128, 63, 9],
        false⟩ 200 =
      .ok (.sdef 3 (-1) [51, 52, 53, 54, 55, 56, 57, 58, 59, 60, 61, 62]
        [63, 64, 65, 66, 67, 68, 69, 70, 71, 72, 73, 74]
        [75, 76, 77, 78, 79, 80, 81, 82, 83, 84, 85, 86], ⟨[0, 0, 128, 63, 9], false⟩) ∧
    vertex_t.load ⟨0, 1, 0⟩ ⟨1, 1, 1, 1, 1, 1⟩ [] 0
      ⟨[1, 2, 3, 4, 5, 6, 7, 8, 9, 10, 11, 12, 21, 22, 23, 24, 25, 26, 27, 28, 29, 30, 31, 32,
        41, 42, 43, 44, 45, 46, 47, 48, 200, 3, 255,
        51, 52, 53, 54, 55, 56, 57, 58, 59, 60, 61, 62, 63, 64, 65, 66, 67, 68, 69, 70, 71,
        72, 73, 74, 75, 76, 77, 78, 79, 80, 81, 82, 83, 84, 85, 86, 0, 0, 128, 63, 9],
        false⟩ =
      .ok (⟨[1, 2, 3, 4, 5, 6, 7, 8, 9, 10, 11, 12],
          [21, 22, 23, 24, 25, 26, 27, 28, 29, 30, 31, 32], [41, 42, 43, 44, 45, 46, 47, 48],
          none, 200,
          .sdef 3 (-1) [51, 52, 53, 54, 55, 56, 57, 58, 59, 60, 61, 62]
            [63, 64, 65, 66, 67, 68, 69, 70, 71, 72, 73, 74]
            [75, 76, 77, 78, 79, 80, 81, 82, 83, 84, 85, 86],
          [0, 0, 128, 63]⟩, [], 0, ⟨[9], false⟩) := by
  decide

theorem index_load_other_width (index_size : index_size_t) (s : ifstream) (type : index_type)
    (h1 : index_size.bytes.getD type.toNat 0 ≠ 1) (h2 : index_size.bytes.getD type.toNat 0 ≠ 2)
    (hf : s.failbit = false) (hlen : 4 ≤ s.buf.length) :
    index_t.load index_size s type =
      .ok (to_signed 32 (le_value (s.buf.take 4)), ⟨s.buf.drop 4, false⟩) := by
  unfold index_t.load
  simp only [h1, h2, if_false, read_ok s 4 hf hlen, bind, Except.bind, pure, Except.pure]

/-- C16 (as amended): `index_size_t::load` stores the six table bytes as they are and tests
none of them; for a category `c` whose entry is outside {1,2,4}, `index_t::load` takes the
branch it takes for every width other than 1 and 2: from any good stream holding 4 bytes it
decodes the index as a signed 32-bit little-endian value and extracts exactly 4 bytes.
Nothing aborts and nothing is reported. -/
theorem index_width_out_of_domain (self : index_size_t) (t0 t1 t2 t3 t4 t5 : Nat)
    (rest : List Nat) (c : index_type)
    (hc : ¬ ([t0, t1, t2, t3, t4, t5].getD c.toNat 0 % 256 = 1 ∨
      [t0, t1, t2, t3, t4, t5].getD c.toNat 0 % 256 = 2 ∨
      [t0, t1, t2, t3, t4, t5].getD c.toNat 0 % 256 = 4))
    (s1 : ifstream) (hf : s1.failbit = false) (hlen : 4 ≤ s1.buf.length) :
    index_size_t.load self ⟨t0 :: t1 :: t2 :: t3 :: t4 :: t5 :: rest, false⟩ =
      (⟨t0 % 256, t1 % 256, t2 % 256, t3 % 256, t4 % 256, t5 % 256⟩, ⟨rest, false⟩) ∧
    index_t.load
        (index_size_t.load self ⟨t0 :: t1 :: t2 :: t3 :: t4 :: t5 :: rest, false⟩).1 s1 c =
      .ok (to_signed 32 (le_value (s1.buf.take 4)), ⟨s1.buf.drop 4, false⟩) ∧
    consumed s1 ⟨s1.buf.drop 4, false⟩ = 4 := by
  have hload := index_size_load_table self t0 t1 t2 t3 t4 t5 rest
  refine ⟨hload, ?_, ?_⟩
  · rw [hload]
    apply index_load_other_width _ s1 c _ _ hf hlen
    · intro h
      apply hc
      left
      cases c <;> simpa [index_size_t.bytes, index_type.toNat] using h
    · intro h
      apply hc
      right
      left
      cases c <;> simpa [index_size_t.bytes, index_type.toNat] using h
  · simp only [consumed, List.length_drop]
    omega

/-- Witness of C16 (as amended): the table `3,1,1,1,1,1` and a vertex index. -/
theorem index_width_out_of_domain_witness :
    index_size_t.load ⟨0, 0, 0, 0, 0, 0⟩ ⟨3 :: 1 :: 1 :: 1 :: 1 :: 1 :: [7], false⟩ =
      (⟨3 % 256, 1 % 256, 1 % 256, 1 % 256, 1 % 256, 1 % 256⟩, ⟨[7], false⟩) ∧
    index_t.load
        (index_size_t.load ⟨0, 0, 0, 0, 0, 0⟩ ⟨3 :: 1 :: 1 :: 1 :: 1 :: 1 :: [7], false⟩).1
        ⟨[5, 0, 0, 0, 9], false⟩ .VERTEX =
      .ok (to_signed 32 (le_value ([5, 0, 0, 0, 9].take 4)), ⟨[5, 0, 0, 0, 9].drop 4, false⟩) ∧
    consumed ⟨[5, 0, 0, 0, 9], false⟩ ⟨[5, 0, 0, 0, 9].drop 4, false⟩ = 4 :=
  index_width_out_of_domain ⟨0, 0, 0, 0, 0, 0⟩ 3 1 1 1 1 1 [7] .VERTEX (by decide)
    ⟨[5, 0, 0, 0, 9], false⟩ rfl (by decide)

/-- Counterexample to C16 as stated: a file whose index-width table is `3,1,1,1,1,1`, with
four empty model-info strings, no vertex, one face and no texture, material or bone.
`pmx::read` completes with the stream good and fully read; the face holds the vertex index
decoded from the 4 bytes `05 00 00 00`. -/
theorem read_with_width_three :
    read globals.init
      (some ([80, 77, 88, 32, 0, 0, 0, 64] ++ [8, 1, 0] ++ [3, 1, 1, 1, 1, 1] ++
        [0, 0, 0, 0] ++ [0, 0, 0, 0] ++ [0, 0, 0, 0] ++ [0, 0, 0, 0] ++
        [0, 0, 0, 0] ++ ([1, 0, 0, 0] ++ [5, 0, 0, 0]) ++
        [0, 0, 0, 0] ++ [0, 0, 0, 0] ++ [0, 0, 0, 0])) =
      .ok (⟨⟨[80, 77, 88, 32, 0], [0, 0, 0, 64]⟩, ⟨8, 1, 0⟩, ⟨3, 1, 1, 1, 1, 1⟩,
        ⟨⟨unnamed ++ to_string 0⟩, ⟨unnamed ++ to_string 1⟩, ⟨unnamed ++ to_string 2⟩,
          ⟨unnamed ++ to_string 3⟩⟩,
        ⟨0, [], [], 0⟩, ⟨1, [⟨5⟩]⟩, ⟨0, []⟩, ⟨0, []⟩, ⟨0, []⟩, 4⟩, ⟨[], false⟩) := by
  decide

/-- C17 (as amended): an input made of an 8-byte header, an Info record with selector 1 and
extra-UV count 0, six index widths equal to 1 and four model-info string fields of at most
1600 bytes, which then ends inside the five list counts: only `k < 20` of their 20 bytes are
there, all zero.  From the start state `pmx::read` completes: every count that is cut short
or missing keeps the zero bytes it had, the five lists are empty, the globals are the ones
the complete file gives, and the only trace of the truncation is the fail bit of the local
stream, which nothing tests. -/
theorem read_truncated_counts (s0 s1 s2 s3 v0 v1 v2 v3 d : Nat) (b1 b2 b3 b4 : List Nat)
    (h1 : b1.length ≤ 1600) (h2 : b2.length ≤ 1600) (h3 : b3.length ≤ 1600)
    (h4 : b4.length ≤ 1600) (k : Nat) (hk : k < 20) :
    read globals.init
      (some ([s0, s1, s2, s3, v0, v1, v2, v3] ++ [d, 1, 0] ++ [1, 1, 1, 1, 1, 1] ++
        string_field b1 ++ string_field b2 ++ string_field b3 ++ string_field b4 ++
        List.replicate k 0)) =
      .ok (⟨⟨[s0, s1, s2, s3, 0], [v0, v1, v2, v3]⟩, ⟨d % 256, 1, 0⟩, ⟨1, 1, 1, 1, 1, 1⟩,
        ⟨field_text 0 b1, field_text (field_count 0 b1) b2,
          field_text (field_count (field_count 0 b1) b2) b3,
          field_text (field_count (field_count (field_count 0 b1) b2) b3) b4⟩,
        ⟨0, [], [], 0⟩, ⟨0, []⟩, ⟨0, []⟩, ⟨0, []⟩, ⟨0, []⟩,
        field_count (field_count (field_count (field_count 0 b1) b2) b3) b4⟩,
        ⟨[], true⟩) := by
  have henc : (⟨d % 256, 1, 0⟩ : info_t).encoding_type ≠ 0 := Nat.one_ne_zero
  simp only [List.append_assoc, List.cons_append, List.nil_append]
  simp only [read, globals.init, header_t.load, info_t.load, index_size_t.load, index_size_t.bytes, ifstream.read_into, model_info_t.load, bind,
    Except.bind, pure, Except.pure]
  simp
  have c1 := field_count_le 0 b1
  have c2 := field_count_le (field_count 0 b1) b2
  have c3 := field_count_le (field_count (field_count 0 b1) b2) b3
  rw [text_load_field _ 0 _ b1 _ henc h1 (by norm_num)]
  simp only []
  rw [text_load_field _ _ _ b2 _ henc h2 (by norm_num; omega)]
  simp only []
  rw [text_load_field _ _ _ b3 _ henc h3 (by norm_num; omega)]
  simp only []
  rw [text_load_field _ _ _ b4 _ henc h4 (by norm_num; omega)]
  interval_cases k <;>
    simp [vertex_list.load, face_list.load, texture_list.load, material_list.load,
      bone_list.load, ifstream.read_into, le_value, le_bytes, List.replicate]

/-- Witness of C17 (as amended): the input ends after the vertex count and two bytes of the
face count. -/
theorem read_truncated_counts_witness :
    read globals.init
      (some ([80, 77, 88, 32, 0, 0, 0, 64] ++ [8, 1, 0] ++ [1, 1, 1, 1, 1, 1] ++
        string_field [77, 105] ++ string_field [104, 105] ++ string_field [] ++ string_field [] ++
        List.replicate 6 0)) =
      .ok (⟨⟨[80, 77, 88, 32, 0], [0, 0, 0, 64]⟩, ⟨8 % 256, 1, 0⟩, ⟨1, 1, 1, 1, 1, 1⟩,
        ⟨field_text 0 [77, 105], field_text (field_count 0 [77, 105]) [104, 105],
          field_text (field_count (field_count 0 [77, 105]) [104, 105]) [],
          field_text (field_count (field_count (field_count 0 [77, 105]) [104, 105]) []) []⟩,
        ⟨0, [], [], 0⟩, ⟨0, []⟩, ⟨0, []⟩, ⟨0, []⟩, ⟨0, []⟩,
        field_count (field_count (field_count (field_count 0 [77, 105]) [104, 105]) []) []⟩,
        ⟨[], true⟩) :=
  read_truncated_counts 80 77 88 32 0 0 0 64 8 [77, 105] [104, 105] [] [] (by decide) (by decide)
    (by decide) (by decide) 6 (by decide)

/-- Counterexample to C17 as stated: a file that ends right after its four model-info
strings (`Mi`, `hi` and two empty ones); the five list counts are missing.  `pmx::read`
completes and leaves the globals filled from the bytes that were there, with five empty
lists; its local stream ends with the fail bit set, which nothing tests or reports. -/
theorem read_truncated_completes :
    read globals.init
      (some ([80, 77, 88, 32, 0, 0, 0, 64] ++ [8, 1, 0] ++ [1, 1, 1, 1, 1, 1] ++
        [2, 0, 0, 0, 77, 105] ++ [2, 0, 0, 0, 104, 105] ++ [0, 0, 0, 0] ++ [0, 0, 0, 0])) =
      .ok (⟨⟨[80, 77, 88, 32, 0], [0, 0, 0, 64]⟩, ⟨8, 1, 0⟩, ⟨1, 1, 1, 1, 1, 1⟩,
        ⟨⟨[77, 105]⟩, ⟨[104, 105]⟩, ⟨unnamed ++ to_string 0⟩, ⟨unnamed ++ to_string 1⟩⟩,
        ⟨0, [], [], 0⟩, ⟨0, []⟩, ⟨0, []⟩, ⟨0, []⟩, ⟨0, []⟩, 2⟩, ⟨[], true⟩) := by
  decide

/-! ## UTF-16 string fields -/

theorem u16_units_length (b : List Nat) : (u16_units b).length = b.length / 2 := by
  induction b using u16_units.induct with
  | case1 b0 b1 rest ih =>
    simp only [u16_units, List.length_cons, ih]
    omega
  | case2 b h =>
    match b, h with
    | [], _ => rfl
    | [_], _ => simp [u16_units]
    | b0 :: b1 :: rest, h => exact absurd rfl (h b0 b1 rest)

theorem decode_loop_single_units (us : List Nat) (hus : ∀ u ∈ us, u < 0xD800) :
    ∀ (fuel i : Nat) (data : List Nat), i ≤ us.length → us.length - i ≤ fuel →
      text.decode_loop us us.length fuel i data =
        .ok (data ++ (us.drop i).flatMap utf8_encode_spec) := by
  intro fuel
  induction fuel with
  | zero =>
    intro i data hi hfuel
    have hie : i = us.length := by omega
    subst hie
    simp [text.decode_loop]
  | succ fuel ih =>
    intro i data hi hfuel
    by_cases hlt : i < us.length
    · have hdrop : us.drop i = us[i] :: us.drop (i + 1) := List.drop_eq_getElem_cons hlt
      have hu : us[i] < 0xD800 := hus _ (List.getElem_mem hlt)
      simp only [text.decode_loop, hlt, if_true, hdrop, bind, Except.bind,
        utf16_to_code_single us[i] _ (by omega)]
      rw [ih (i + 1) _ (by omega) (by omega), code_to_utf8_eq_spec _ (by omega)]
      simp only [List.flatMap_cons, List.append_assoc]
    · have hie : i = us.length := by omega
      subst hie
      simp [text.decode_loop]

/-- C20: with the UTF-16 encoding selected, a string field whose 4-byte length is an even
`n` with `2 ≤ n ≤ 1600`, followed by `n` bytes whose `n/2` little-endian code units are all
below `0xD800`, makes `text::load` append to the (empty, default-constructed) string the
UTF-8 forms of those units, in order; the counter of placeholder names is untouched and
exactly `4 + n` bytes are extracted from the stream. -/
theorem text_load_utf16_units (info : info_t) (ec : Nat) (self : text) (s : ifstream)
    (lenb b rest : List Nat) (henc : info.encoding_type = 0) (hf : s.failbit = false)
    (hbuf : s.buf = lenb ++ b ++ rest) (hl : lenb.length = 4)
    (hn : le_value lenb = b.length) (heven : b.length % 2 = 0) (h2 : 2 ≤ b.length)
    (h1600 : b.length ≤ 1600) (hunits : ∀ u ∈ u16_units b, u < 0xD800) :
    text.load info ec self s =
      .ok (⟨self.data ++ (u16_units b).flatMap utf8_encode_spec⟩, ec, ⟨rest, false⟩) ∧
    (u16_units b).length = b.length / 2 ∧
    consumed s ⟨rest, false⟩ = 4 + b.length := by
  have htake : s.buf.take 4 = lenb := by
    rw [hbuf, List.append_assoc, List.take_left' hl]
  have hdrop : s.buf.drop 4 = b ++ rest := by
    rw [hbuf, List.append_assoc, List.drop_left' hl]
  have hlen : s.buf.length = 4 + b.length + rest.length := by
    rw [hbuf, List.length_append, List.length_append, hl]
  have hval : le_value (s.buf.take 4) = b.length := by rw [htake, hn]
  have e := read_ok_drop s.buf 4 b.length (by omega)
  rw [hdrop, List.take_left, ← List.drop_drop, hdrop, List.drop_left] at e
  have hul := u16_units_length b
  have hloop := decode_loop_single_units (u16_units b) hunits (u16_units b).length 0 self.data
    (Nat.zero_le _) (by omega)
  rw [List.drop_zero, hul] at hloop
  have hnz : ¬ b.length = 0 := by omega
  have hcap : ¬ b.length > 1600 := by omega
  refine ⟨?_, hul, ?_⟩
  · simp only [text.load, bind, Except.bind, read_ok s 4 hf (by omega), hval, hnz, henc,
      hcap, if_true, if_false, hdrop, e, hloop, pure, Except.pure]
  · simp only [consumed, hlen]
    omega

/-- Witness of C20: the units `0x0041` and `0x20AC` (bytes `41 00 AC 20`), one byte left. -/
theorem text_load_utf16_units_witness :
    text.load ⟨0, 0, 0⟩ 0 ⟨[]⟩ ⟨[4, 0, 0, 0, 0x41, 0, 0xAC, 0x20, 9], false⟩ =
      .ok (⟨[] ++ (u16_units [0x41, 0, 0xAC, 0x20]).flatMap utf8_encode_spec⟩, 0,
        ⟨[9], false⟩) ∧
    (u16_units [0x41, 0, 0xAC, 0x20]).flatMap utf8_encode_spec = [0x41, 0xE2, 0x82, 0xAC] ∧
    consumed ⟨[4, 0, 0, 0, 0x41, 0, 0xAC, 0x20, 9], false⟩ ⟨[9], false⟩ = 4 + 4 := by
  obtain ⟨h1, -, h3⟩ := text_load_utf16_units ⟨0, 0, 0⟩ 0 ⟨[]⟩
    ⟨[4, 0, 0, 0, 0x41, 0, 0xAC, 0x20, 9], false⟩ [4, 0, 0, 0] [0x41, 0, 0xAC, 0x20] [9] rfl rfl
    rfl rfl (by decide) (by decide) (by decide) (by decide) (by decide)
  exact ⟨h1, by decide, h3⟩

/-! ## Extra-UV backing store -/

theorem vec4_chunks_length (n : Nat) : ∀ l : List Nat, (vec4_chunks n l).length = n := by
  induction n with
  | zero => intro l; rfl
  | succ n ih => intro l; simp [vec4_chunks, ih]

theorem vertex_load_inv (info : info_t) (index_size : index_size_t) (store : List (List Nat))
    (cnt : Nat) (s : ifstream) (k : Nat) (hk : info.additional_uv_count = k) (hk0 : 0 < k)
    (v : vertex_t) (st : List (List Nat)) (c : Nat) (s1 : ifstream)
    (h : vertex_t.load info index_size store cnt s = .ok (v, st, c, s1)) :
    cnt + k ≤ store.length ∧
    st = store.take cnt ++ vec4_chunks k ((s.buf.drop 32).take (16 * k)) ++
      store.drop (cnt + k) ∧
    c = (cnt + k) % 2 ^ 32 ∧ v.additional_uv = some cnt ∧ 32 + 16 * k ≤ s.buf.length := by
  unfold vertex_t.load at h
  simp only [bind, Except.bind, hk, show k > 0 from hk0, if_true] at h
  cases h1 : s.read 12 with
  | error e => simp [h1] at h
  | ok r1 =>
    obtain ⟨p1, q1⟩ := r1
    obtain ⟨hf, hn1, rfl, rfl⟩ := (read_ok_iff _ _ _ _).1 h1
    simp only [h1] at h
    cases h2 : ifstream.read ⟨s.buf.drop 12, false⟩ 12 with
    | error e => simp [h2] at h
    | ok r2 =>
      obtain ⟨p2, q2⟩ := r2
      obtain ⟨-, hn2, rfl, rfl⟩ := (read_ok_iff _ _ _ _).1 h2
      simp only [h2] at h
      cases h3 : ifstream.read ⟨(s.buf.drop 12).drop 12, false⟩ 8 with
      | error e => rw [h3] at h; cases h
      | ok r3 =>
        obtain ⟨p3, q3⟩ := r3
        obtain ⟨-, hn3, rfl, rfl⟩ := (read_ok_iff _ _ _ _).1 h3
        simp only [h3] at h
        cases h4 : ifstream.read ⟨((s.buf.drop 12).drop 12).drop 8, false⟩ (16 * k) with
        | error e => rw [h4] at h; cases h
        | ok r4 =>
          obtain ⟨p4, q4⟩ := r4
          obtain ⟨-, hn4, rfl, rfl⟩ := (read_ok_iff _ _ _ _).1 h4
          simp only [h4] at h
          by_cases hc : cnt + k ≤ store.length
          · simp only [if_pos hc, pure, Except.pure] at h
            cases h5 : ifstream.read
                ⟨(((s.buf.drop 12).drop 12).drop 8).drop (16 * k), false⟩ 1 with
            | error e => rw [h5] at h; cases h
            | ok r5 =>
              simp only [h5] at h
              cases h6 : weight_t.load index_size r5.2 (le_value r5.1) with
              | error e => rw [h6] at h; cases h
              | ok r6 =>
                simp only [h6] at h
                cases h7 : r6.2.read 4 with
                | error e => rw [h7] at h; cases h
                | ok r7 =>
                  simp only [h7, Except.ok.injEq, Prod.mk.injEq] at h
                  obtain ⟨hv, hst, hcc, -⟩ := h
                  simp only [List.length_drop] at hn2 hn3 hn4
                  refine ⟨hc, ?_, hcc.symm, ?_, by omega⟩
                  · rw [← hst]
                    simp only [List.drop_drop]
                  · rw [← hv]
          · simp [if_neg hc] at h


theorem vertex_loop_add (info : info_t) (index_size : index_size_t) (a b : Nat) :
    ∀ (data : List vertex_t) (store : List (List Nat)) (cnt : Nat) (s : ifstream),
      vertex_list.load_loop info index_size (a + b) data store cnt s =
        (vertex_list.load_loop info index_size a data store cnt s).bind
          (fun x => vertex_list.load_loop info index_size b x.1 x.2.1 x.2.2.1 x.2.2.2) := by
  induction a with
  | zero => intro data store cnt s; simp [vertex_list.load_loop, Except.bind]
  | succ a ih =>
    intro data store cnt s
    rw [Nat.succ_add]
    simp only [vertex_list.load_loop, bind, Except.bind]
    cases vertex_t.load info index_size store cnt s with
    | error e => rfl
    | ok v => exact ih _ _ _ _

theorem vertex_loop_inv (info : info_t) (index_size : index_size_t) (k : Nat)
    (hk : info.additional_uv_count = k) (hk0 : 0 < k) :
    ∀ (m : Nat) (data : List vertex_t) (store : List (List Nat)) (cnt : Nat) (s : ifstream)
      (data1 : List vertex_t) (store1 : List (List Nat)) (cnt1 : Nat) (s1 : ifstream),
      vertex_list.load_loop info index_size m data store cnt s = .ok (data1, store1, cnt1, s1) →
      cnt + k * m ≤ store.length → store.length < 2 ^ 32 →
      cnt1 = cnt + k * m ∧
      ∃ (W : List (List Nat)) (new : List vertex_t),
        store1 = store.take cnt ++ W ++ store.drop (cnt + k * m) ∧ W.length = k * m ∧
        data1 = data ++ new ∧ new.length = m ∧
        (0 < m → W.take k = vec4_chunks k ((s.buf.drop 32).take (16 * k)) ∧
          32 + 16 * k ≤ s.buf.length ∧
          ∃ v, new.head? = some v ∧ v.additional_uv = some cnt) := by
  intro m
  induction m with
  | zero =>
    intro data store cnt s data1 store1 cnt1 s1 h _ _
    simp only [vertex_list.load_loop, Except.ok.injEq, Prod.mk.injEq] at h
    obtain ⟨rfl, rfl, rfl, rfl⟩ := h
    refine ⟨by simp, [], [], by simp, by simp, by simp, rfl, fun h => absurd h (by decide)⟩
  | succ m ih =>
    intro data store cnt s data1 store1 cnt1 s1 h hle hlt
    simp only [vertex_list.load_loop, bind, Except.bind] at h
    cases hv : vertex_t.load info index_size store cnt s with
    | error e => rw [hv] at h; cases h
    | ok r =>
      obtain ⟨v, st, c, s2⟩ := r
      rw [hv] at h
      simp only at h
      obtain ⟨hck, hst, hc, hvu, hbytes⟩ := vertex_load_inv info index_size store cnt s k hk hk0 _ _ _ _ hv
      have hc2 : c = cnt + k := by rw [hc]; exact Nat.mod_eq_of_lt (by omega)
      have hchl : (vec4_chunks k ((s.buf.drop 32).take (16 * k))).length = k :=
        vec4_chunks_length _ _
      have hstl : st.length = store.length := by
        rw [hst]; simp only [List.length_append, List.length_take, List.length_drop, hchl]; omega
      have hmul : k * (m + 1) = k + k * m := by rw [Nat.mul_succ]; omega
      rw [hc2] at h
      obtain ⟨hc1, W, new, hs1, hWl, hd1, hnl, -⟩ :=
        ih _ _ _ _ _ _ _ _ h (by rw [hstl]; omega) (by rw [hstl]; exact hlt)
      have htk : st.take (cnt + k) = store.take cnt ++
          vec4_chunks k ((s.buf.drop 32).take (16 * k)) := by
        rw [hst]
        apply List.take_left'
        simp only [List.length_append, List.length_take, hchl]; omega
      have hdr : st.drop (cnt + k + k * m) = store.drop (cnt + k * (m + 1)) := by
        have e1 : cnt + k + k * m = (cnt + k) + k * m := rfl
        rw [hst, hmul]
        have hl : (store.take cnt ++ vec4_chunks k ((s.buf.drop 32).take (16 * k))).length
            = cnt + k := by
          simp only [List.length_append, List.length_take, hchl]; omega
        rw [List.drop_append_eq_append_drop, List.drop_eq_nil_of_le (by omega), hl,
          List.drop_drop]
        have e2 : cnt + k + (cnt + k + k * m - (cnt + k)) = cnt + (k + k * m) := by omega
        rw [e2]; rfl
      refine ⟨by rw [hc1, hmul]; omega,
        vec4_chunks k ((s.buf.drop 32).take (16 * k)) ++ W, v :: new, ?_, ?_, ?_, ?_, ?_⟩
      · rw [hs1, htk, hdr]; simp only [List.append_assoc]
      · simp only [List.length_append, hchl, hWl, hmul]
      · rw [hd1]; simp
      · simp [hnl]
      · intro _
        refine ⟨?_, hbytes, v, rfl, hvu⟩
        exact List.take_left' hchl


theorem read_error (s : ifstream) (n : Nat) (e : Fault) (h : s.read n = .error e) :
    e = .indeterminate := by
  unfold ifstream.read at h
  split at h
  · cases h
  · simp only [Except.error.injEq] at h
    exact h.symm

theorem index_load_error (index_size : index_size_t) (s : ifstream) (type : index_type)
    (e : Fault) (h : index_t.load index_size s type = .error e) : e = .indeterminate := by
  unfold index_t.load at h
  simp only [bind, Except.bind, pure, Except.pure] at h
  split at h
  · split at h
    · rename_i hr
      simp only [Except.error.injEq] at h
      subst h
      exact read_error _ _ _ hr
    · cases h
  · split at h
    · split at h
      · rename_i hr
        simp only [Except.error.injEq] at h
        subst h
        exact read_error _ _ _ hr
      · cases h
    · split at h
      · rename_i hr
        simp only [Except.error.injEq] at h
        subst h
        exact read_error _ _ _ hr
      · cases h

theorem bind_error (α β : Type) (x : Except Fault α) (f : α → Except Fault β) (e : Fault)
    (h : x.bind f = .error e) : x = .error e ∨ ∃ a, x = .ok a ∧ f a = .error e := by
  cases x with
  | error e1 =>
    simp only [Except.bind, Except.error.injEq] at h
    subst h
    exact Or.inl rfl
  | ok a => exact Or.inr ⟨a, rfl, h⟩

theorem weight_load_error (index_size : index_size_t) (s : ifstream) (tag : Nat)
    (e : Fault) (h : weight_t.load index_size s tag = .error e) : e = .indeterminate := by
  unfold weight_t.load at h
  simp only [bind, pure, Except.pure] at h
  split at h
  · rcases bind_error _ _ _ _ _ h with h1 | ⟨a, -, h1⟩
    · exact index_load_error _ _ _ _ h1
    · cases h1
  · split at h
    · rcases bind_error _ _ _ _ _ h with h1 | ⟨a, -, h1⟩
      · exact index_load_error _ _ _ _ h1
      · rcases bind_error _ _ _ _ _ h1 with h2 | ⟨b, -, h2⟩
        · exact index_load_error _ _ _ _ h2
        · rcases bind_error _ _ _ _ _ h2 with h3 | ⟨c, -, h3⟩
          · exact read_error _ _ _ h3
          · cases h3
    · split at h
      · rcases bind_error _ _ _ _ _ h with h1 | ⟨a, -, h1⟩
        · exact index_load_error _ _ _ _ h1
        · rcases bind_error _ _ _ _ _ h1 with h2 | ⟨b, -, h2⟩
          · exact index_load_error _ _ _ _ h2
          · rcases bind_error _ _ _ _ _ h2 with h3 | ⟨c, -, h3⟩
            · exact index_load_error _ _ _ _ h3
            · rcases bind_error _ _ _ _ _ h3 with h4 | ⟨d, -, h4⟩
              · exact index_load_error _ _ _ _ h4
              · rcases bind_error _ _ _ _ _ h4 with h5 | ⟨f, -, h5⟩
                · exact read_error _ _ _ h5
                · cases h5
      · rcases bind_error _ _ _ _ _ h with h1 | ⟨a, -, h1⟩
        · exact index_load_error _ _ _ _ h1
        · rcases bind_error _ _ _ _ _ h1 with h2 | ⟨b, -, h2⟩
          · exact index_load_error _ _ _ _ h2
          · rcases bind_error _ _ _ _ _ h2 with h3 | ⟨c, -, h3⟩
            · exact read_error _ _ _ h3
            · rcases bind_error _ _ _ _ _ h3 with h4 | ⟨d, -, h4⟩
              · exact read_error _ _ _ h4
              · rcases bind_error _ _ _ _ _ h4 with h5 | ⟨f, -, h5⟩
                · exact read_error _ _ _ h5
                · cases h5

theorem vertex_load_error (info : info_t) (index_size : index_size_t)
    (store : List (List Nat)) (cnt : Nat) (s : ifstream) (e : Fault)
    (h : vertex_t.load info index_size store cnt s = .error e) :
    e = .indeterminate ∨
      (e = .overrun ∧ 0 < info.additional_uv_count ∧
        ¬ cnt + info.additional_uv_count ≤ store.length) := by
  unfold vertex_t.load at h
  simp only [bind, pure, Except.pure] at h
  rcases bind_error _ _ _ _ _ h with h1 | ⟨a, -, h1⟩
  · exact Or.inl (read_error _ _ _ h1)
  · rcases bind_error _ _ _ _ _ h1 with h2 | ⟨b, -, h2⟩
    · exact Or.inl (read_error _ _ _ h2)
    · rcases bind_error _ _ _ _ _ h2 with h3 | ⟨c, -, h3⟩
      · exact Or.inl (read_error _ _ _ h3)
      · rcases bind_error _ _ _ _ _ h3 with h4 | ⟨d, -, h4⟩
        · split at h4
          · rename_i hk
            rcases bind_error _ _ _ _ _ h4 with h5 | ⟨f, -, h5⟩
            · exact Or.inl (read_error _ _ _ h5)
            · split at h5
              · cases h5
              · rename_i hst
                simp only [Except.error.injEq] at h5
                exact Or.inr ⟨h5.symm, hk, hst⟩
          · cases h4
        · rcases bind_error _ _ _ _ _ h4 with h5 | ⟨f, -, h5⟩
          · exact Or.inl (read_error _ _ _ h5)
          · rcases bind_error _ _ _ _ _ h5 with h6 | ⟨g, -, h6⟩
            · exact Or.inl (weight_load_error _ _ _ _ h6)
            · rcases bind_error _ _ _ _ _ h6 with h7 | ⟨i, -, h7⟩
              · exact Or.inl (read_error _ _ _ h7)
              · cases h7

theorem vertex_loop_prefix (info : info_t) (index_size : index_size_t) (k m L : Nat)
    (hk : info.additional_uv_count = k) (hk0 : 0 < k) (hL : k * m ≤ L) (hcap : L < 2 ^ 32)
    (s0 : ifstream) (D : List vertex_t) (S : List (List Nat)) (C : Nat) (s1 : ifstream)
    (h : vertex_list.load_loop info index_size m [] (List.replicate L []) 0 s0 =
      .ok (D, S, C, s1)) :
    D.length = m ∧ S.length = L ∧ C = k * m ∧
    ∀ j, j ≤ m → ∃ (d : List vertex_t) (st : List (List Nat)) (sj : ifstream),
      vertex_list.load_loop info index_size j [] (List.replicate L []) 0 s0 =
        .ok (d, st, k * j, sj) ∧
      d = D.take j ∧ st.length = L ∧ st.take (k * j) = S.take (k * j) ∧
      (j < m → ∃ v, D[j]? = some v ∧ v.additional_uv = some (k * j) ∧
        32 + 16 * k ≤ sj.buf.length ∧
        (S.drop (k * j)).take k = vec4_chunks k ((sj.buf.drop 32).take (16 * k))) := by
  have hrl : (List.replicate L ([] : List Nat)).length = L := List.length_replicate _ _
  obtain ⟨hC, W, new, hS, hWl, hD, hnl, -⟩ :=
    vertex_loop_inv info index_size k hk hk0 m _ _ _ _ _ _ _ _ h (by rw [hrl]; omega)
      (by rw [hrl]; exact hcap)
  have hSl : S.length = L := by
    rw [hS]; simp only [List.length_append, List.length_take, List.length_drop, hrl, hWl]; omega
  refine ⟨by rw [hD]; simpa using hnl, hSl, by omega, ?_⟩
  intro j hj
  obtain ⟨b, rfl⟩ := Nat.exists_eq_add_of_le hj
  have h2 := h
  rw [vertex_loop_add] at h2
  cases hp : vertex_list.load_loop info index_size j [] (List.replicate L []) 0 s0 with
  | error e => rw [hp] at h2; cases h2
  | ok r =>
    obtain ⟨d, st, c, sj⟩ := r
    rw [hp] at h2
    simp only [Except.bind] at h2
    have hkj : k * j ≤ k * (j + b) := Nat.mul_le_mul_left k (Nat.le_add_right j b)
    have hmul : k * (j + b) = k * j + k * b := Nat.mul_add k j b
    obtain ⟨hc, W1, new1, hst, hW1l, hd, hn1l, -⟩ :=
      vertex_loop_inv info index_size k hk hk0 j _ _ _ _ _ _ _ _ hp (by rw [hrl]; omega)
        (by rw [hrl]; exact hcap)
    have hc0 : c = k * j := by omega
    subst hc0
    have hstl : st.length = L := by
      rw [hst]
      simp only [List.length_append, List.length_take, List.length_drop, hrl, hW1l]; omega
    obtain ⟨-, W2, new2, hS2, hW2l, hD2, hn2l, hfirst⟩ :=
      vertex_loop_inv info index_size k hk hk0 b _ _ _ _ _ _ _ _ h2 (by rw [hstl]; omega)
        (by rw [hstl]; exact hcap)
    have hdl : d.length = j := by rw [hd]; simpa using hn1l
    have htl : (st.take (k * j)).length = k * j := by
      rw [List.length_take, hstl]; omega
    refine ⟨d, st, sj, rfl, ?_, hstl, ?_, ?_⟩
    · rw [hD2]; exact (List.take_left' hdl).symm
    · rw [hS2, List.append_assoc]; exact (List.take_left' htl).symm
    · intro hlt
      have hb : 0 < b := by omega
      obtain ⟨hW2, hbytes, v, hv, hvu⟩ := hfirst hb
      refine ⟨v, ?_, hvu, hbytes, ?_⟩
      · rw [hD2, List.getElem?_append_right (by omega), hdl, Nat.sub_self]
        cases new2 with
        | nil => cases hv
        | cons a t => simpa using hv
      · rw [hS2, List.append_assoc, List.drop_left' htl, ← hW2]
        apply List.take_append_of_le_length
        rw [hW2l]
        exact Nat.le_mul_of_pos_right k hb

theorem vertex_loop_no_overrun (info : info_t) (index_size : index_size_t) (k : Nat)
    (hk : info.additional_uv_count = k) (hk0 : 0 < k) :
    ∀ (m : Nat) (data : List vertex_t) (store : List (List Nat)) (cnt : Nat) (s : ifstream),
      cnt + k * m ≤ store.length → store.length < 2 ^ 32 →
      vertex_list.load_loop info index_size m data store cnt s ≠ .error .overrun := by
  intro m
  induction m with
  | zero =>
    intro data store cnt s _ _ h
    simp only [vertex_list.load_loop] at h
    cases h
  | succ m ih =>
    intro data store cnt s hle hlt h
    have hmul : k * (m + 1) = k + k * m := by rw [Nat.mul_succ]; omega
    simp only [vertex_list.load_loop, bind, Except.bind] at h
    cases hv : vertex_t.load info index_size store cnt s with
    | error e =>
      rw [hv] at h
      simp only [Except.error.injEq] at h
      subst h
      rcases vertex_load_error _ _ _ _ _ _ hv with h1 | ⟨-, -, h2⟩
      · cases h1
      · rw [hk] at h2
        omega
    | ok r =>
      obtain ⟨v, st, c, s2⟩ := r
      rw [hv] at h
      simp only at h
      obtain ⟨hck, hst, hc, -, -⟩ :=
        vertex_load_inv info index_size store cnt s k hk hk0 _ _ _ _ hv
      have hc2 : c = cnt + k := by rw [hc]; exact Nat.mod_eq_of_lt (by omega)
      have hstl : st.length = store.length := by
        rw [hst]
        simp only [List.length_append, List.length_take, List.length_drop,
          vec4_chunks_length]
        omega
      exact ih _ _ _ _ (by rw [hstl, hc2]; omega) (by rw [hstl]; exact hlt) h

theorem vertex_load_total (info : info_t) (index_size : index_size_t)
    (store : List (List Nat)) (cnt : Nat) (buf : List Nat) (o k w : Nat)
    (hk : info.additional_uv_count = k) (hw : w = 1 ∨ w = 2 ∨ w = 4)
    (hsize : index_size.bytes.getD index_type.BONE.toNat 0 = w)
    (hlen : o + (73 + 16 * k + 4 * w) ≤ buf.length)
    (hstore : 0 < k → cnt + k ≤ store.length) :
    ∃ (v : vertex_t) (st : List (List Nat)) (c o1 : Nat),
      vertex_t.load info index_size store cnt ⟨buf.drop o, false⟩ =
        .ok (v, st, c, ⟨buf.drop o1, false⟩) ∧ o1 ≤ o + (73 + 16 * k + 4 * w) := by
  have hwb : ∀ tag : Nat, (if tag = 0 then w else if tag = 1 then 2 * w + 4
      else if tag = 2 then 4 * w + 16 else 2 * w + 36) ≤ 4 * w + 36 := by
    intro tag
    split
    · omega
    · split
      · omega
      · split <;> omega
  have hb := hwb (le_value ((buf.drop (o + 32 + 16 * k)).take 1))
  obtain ⟨wt, -, hv⟩ := vertex_load_core info index_size store cnt buf o k w _ _ hk hw hsize
    rfl rfl (by omega) hstore
  exact ⟨_, _, _, _, hv, by omega⟩

theorem vertex_loop_total (info : info_t) (index_size : index_size_t) (k w : Nat)
    (hk : info.additional_uv_count = k) (hk0 : 0 < k) (hw : w = 1 ∨ w = 2 ∨ w = 4)
    (hsize : index_size.bytes.getD index_type.BONE.toNat 0 = w) (buf : List Nat) :
    ∀ (m : Nat) (data : List vertex_t) (store : List (List Nat)) (cnt o : Nat),
      cnt + k * m ≤ store.length → store.length < 2 ^ 32 →
      o + m * (73 + 16 * k + 4 * w) ≤ buf.length →
      ∃ r, vertex_list.load_loop info index_size m data store cnt ⟨buf.drop o, false⟩ =
        .ok r := by
  intro m
  induction m with
  | zero =>
    intro data store cnt o _ _ _
    exact ⟨_, rfl⟩
  | succ m ih =>
    intro data store cnt o hle hlt hlen
    have hmul : k * (m + 1) = k + k * m := by rw [Nat.mul_succ]; omega
    have hmul2 : (m + 1) * (73 + 16 * k + 4 * w) =
        m * (73 + 16 * k + 4 * w) + (73 + 16 * k + 4 * w) := Nat.succ_mul _ _
    obtain ⟨v, st, c, o1, hv, ho1⟩ := vertex_load_total info index_size store cnt buf o k w hk
      hw hsize (by omega) (fun _ => by omega)
    obtain ⟨hck, hst, hc, -, -⟩ :=
      vertex_load_inv info index_size store cnt _ k hk hk0 _ _ _ _ hv
    have hc2 : c = cnt + k := by rw [hc]; exact Nat.mod_eq_of_lt (by omega)
    have hstl : st.length = store.length := by
      rw [hst]
      simp only [List.length_append, List.length_take, List.length_drop, vec4_chunks_length]
      omega
    simp only [vertex_list.load_loop, bind, Except.bind, hv]
    exact ih _ _ _ _ (by rw [hstl, hc2]; omega) (by rw [hstl]; exact hlt) (by omega)

/-- C18: for a vertex list with extra-UV count `k > 0` and vertex count `n`
(`k * n < 2 ^ 32`; for `n = 0` the list is the one the program starts with),
`vertex_list::load` is the loop over `n` vertices on a fresh store of `k * n` quadruples with
the cursor `additional_uvs_count` at 0, and on no input does it (or any part of the loop)
access the store past its bound.  Throughout the loop the cursor is `k` times the number of vertices decoded: after any
`m ≤ n` vertices the cursor is `k * m ≤ k * n` and the store still has `k * n` entries; vertex
`j` holds the slice starting at `k * j`, of `k` entries, inside the store, cut from the
`16 * k` bytes after its position, normal and uv; the entries written by earlier vertices
are as they were (the store is append-only); slices of different vertices do not overlap.
When the stream holds the count and `n` times the largest vertex record
(`73 + 16 k + 4 w` bytes for bone index width `w`), the list is complete, with `n` vertices
and the cursor at `k * n`. -/
theorem extra_uv_cursor_invariant (info : info_t) (index_size : index_size_t)
    (self : vertex_list) (s : ifstream) (k n : Nat)
    (hk : info.additional_uv_count = k) (hk0 : 0 < k)
    (hn : le_value (s.read_into 4 (le_bytes 4 self.count)).1 = n)
    (hcap : k * n < 2 ^ 32)
    (hs0 : n = 0 → self.data = [] ∧ self.additional_uvs = [] ∧ self.additional_uvs_count = 0) :
    vertex_list.load info index_size self s ≠ .error .overrun ∧
    vertex_list.load info index_size self s =
      (vertex_list.load_loop info index_size n [] (List.replicate (k * n) []) 0
        (s.read_into 4 (le_bytes 4 self.count)).2).map
        (fun l => (⟨n, l.1, l.2.1, l.2.2.1⟩, l.2.2.2)) ∧
    (∀ m, m ≤ n → ∀ (D : List vertex_t) (S : List (List Nat)) (C : Nat) (sm : ifstream),
      vertex_list.load_loop info index_size m [] (List.replicate (k * n) []) 0
        (s.read_into 4 (le_bytes 4 self.count)).2 = .ok (D, S, C, sm) →
      D.length = m ∧ S.length = k * n ∧ C = k * m ∧ C ≤ k * n ∧
      ∀ j, j ≤ m → ∃ (d : List vertex_t) (st : List (List Nat)) (sj : ifstream),
        vertex_list.load_loop info index_size j [] (List.replicate (k * n) []) 0
            (s.read_into 4 (le_bytes 4 self.count)).2 = .ok (d, st, k * j, sj) ∧
          d = D.take j ∧ st.length = k * n ∧ st.take (k * j) = S.take (k * j) ∧
          (j < m → ∃ v, D[j]? = some v ∧ v.additional_uv = some (k * j) ∧
            k * j + k ≤ k * n ∧ 32 + 16 * k ≤ sj.buf.length ∧
            (S.drop (k * j)).take k = vec4_chunks k ((sj.buf.drop 32).take (16 * k)))) ∧
    (∀ w, (w = 1 ∨ w = 2 ∨ w = 4) → index_size.bytes.getD index_type.BONE.toNat 0 = w →
      s.failbit = false → 4 + n * (73 + 16 * k + 4 * w) ≤ s.buf.length →
      ∃ (r : vertex_list) (s1 : ifstream),
        vertex_list.load info index_size self s = .ok (r, s1) ∧ r.count = n ∧
        r.data.length = n ∧ r.additional_uvs.length = k * n ∧
        r.additional_uvs_count = k * n) ∧
    (∀ i j, i < j → j < n → k * i + k ≤ k * j ∧ k * j + k ≤ k * n) ∧
    (∀ m, m ≤ n →
      vertex_list.load_loop info index_size m [] (List.replicate (k * n) []) 0
        (s.read_into 4 (le_bytes 4 self.count)).2 ≠ .error .overrun) := by
  have hstep : ∀ i j, i < j → k * i + k ≤ k * j := by
    intro i j hij
    have h1 : k * (i + 1) ≤ k * j := Nat.mul_le_mul_left k hij
    rw [Nat.mul_succ] at h1
    exact h1
  have hrl : (List.replicate (k * n) ([] : List Nat)).length = k * n :=
    List.length_replicate _ _
  have hload : vertex_list.load info index_size self s =
      (vertex_list.load_loop info index_size n [] (List.replicate (k * n) []) 0
        (s.read_into 4 (le_bytes 4 self.count)).2).map
        (fun l => (⟨n, l.1, l.2.1, l.2.2.1⟩, l.2.2.2)) := by
    unfold vertex_list.load
    simp only [hn, hk, show k > 0 from hk0, if_true, Nat.mod_eq_of_lt hcap]
    by_cases h0 : n = 0
    · obtain ⟨e1, e2, e3⟩ := hs0 h0
      subst h0
      simp only [if_true, e1, e2, e3, vertex_list.load_loop, Nat.mul_zero, List.replicate_zero,
        Except.map]
    · simp only [if_neg h0, bind, Except.bind, pure, Except.pure]
      cases vertex_list.load_loop info index_size n [] (List.replicate (k * n) []) 0
          (s.read_into 4 (le_bytes 4 self.count)).2 with
      | error e => rfl
      | ok l => rfl
  have hno := vertex_loop_no_overrun info index_size k hk hk0 n []
    (List.replicate (k * n) []) 0 (s.read_into 4 (le_bytes 4 self.count)).2
    (by rw [hrl]; omega) (by rw [hrl]; exact hcap)
  refine ⟨?_, hload, ?_, ?_, ?_, ?_⟩
  · rw [hload]
    cases hl : vertex_list.load_loop info index_size n [] (List.replicate (k * n) []) 0
        (s.read_into 4 (le_bytes 4 self.count)).2 with
    | error e =>
      intro h
      simp only [Except.map, Except.error.injEq] at h
      subst h
      exact hno hl
    | ok l =>
      intro h
      cases h
  · intro m hm D S C sm hrun
    have hkm : k * m ≤ k * n := Nat.mul_le_mul_left k hm
    obtain ⟨hD, hS, hC, hpre⟩ :=
      vertex_loop_prefix info index_size k m (k * n) hk hk0 hkm hcap _ _ _ _ _ hrun
    refine ⟨hD, hS, hC, by rw [hC]; exact hkm, ?_⟩
    intro j hj
    obtain ⟨d, st, sj, h1, h2, h3, h4, h5⟩ := hpre j hj
    refine ⟨d, st, sj, h1, h2, h3, h4, ?_⟩
    intro hlt
    obtain ⟨v, hv, hvu, hbytes, hslice⟩ := h5 hlt
    exact ⟨v, hv, hvu, hstep j n (by omega), hbytes, hslice⟩
  · intro w hw hsize hf hlen
    have hcount := read_into_count s (s.buf.take 4) (s.buf.drop 4) self.count hf
      (List.take_append_drop 4 s.buf).symm (by rw [List.length_take]; omega)
    obtain ⟨⟨D, S, C, s1⟩, hrun⟩ := vertex_loop_total info index_size k w hk hk0 hw hsize s.buf
      n [] (List.replicate (k * n) []) 0 4 (by rw [hrl]; omega) (by rw [hrl]; exact hcap)
      (by omega)
    rw [← show (s.read_into 4 (le_bytes 4 self.count)).2 = ⟨s.buf.drop 4, false⟩ from
      by rw [hcount]] at hrun
    obtain ⟨hD, hS, hC, -⟩ :=
      vertex_loop_prefix info index_size k n (k * n) hk hk0 (le_refl _) hcap _ _ _ _ _ hrun
    refine ⟨⟨n, D, S, C⟩, s1, ?_, rfl, hD, hS, hC⟩
    rw [hload, hrun]
    rfl
  · intro i j hij hjn
    exact ⟨hstep i j hij, hstep j n hjn⟩
  · intro m hm
    have hkm : k * m ≤ k * n := Nat.mul_le_mul_left k hm
    exact vertex_loop_no_overrun info index_size k hk hk0 m [] (List.replicate (k * n) []) 0
      (s.read_into 4 (le_bytes 4 self.count)).2 (by rw [hrl]; omega) (by rw [hrl]; exact hcap)

set_option maxRecDepth 20000 in
/-- Witness of C18: two vertices with two extra-UV quadruples each (`k = 2`, `n = 2`, bone
index width 1, weight tag 0): the store of 4 quadruples is filled in order, vertex 0 holds
offset 0 and vertex 1 offset 2, and the cursor ends at 4. -/
theorem extra_uv_cursor_invariant_witness :
    ∃ (r : vertex_list) (s1 : ifstream),
      vertex_list.load ⟨0, 1, 2⟩ ⟨1, 1, 1, 1, 1, 1⟩ ⟨0, [], [], 0⟩
        ⟨[2, 0, 0, 0, 1, 2, 3, 4, 5, 6, 7, 8, 9, 10, 11, 12, 21, 22, 23, 24, 25, 26, 27, 28, 29,
      30, 31, 32, 41, 42, 43, 44, 45, 46, 47, 48, 101, 102, 103, 104, 105, 106, 107, 108, 109,
      110, 111, 112, 113, 114, 115, 116, 117, 118, 119, 120, 121, 122, 123, 124, 125, 126,
      127, 128, 129, 130, 131, 132, 0, 5, 0, 0, 128, 63, 1, 2, 3, 4, 5, 6, 7, 8, 9, 10, 11,
      12, 21, 22, 23, 24, 25, 26, 27, 28, 29, 30, 31, 32, 41, 42, 43, 44, 45, 46, 47, 48, 201,
      202, 203, 204, 205, 206, 207, 208, 209, 210, 211, 212, 213, 214, 215, 216, 217, 218,
      219, 220, 221, 222, 223, 224, 225, 226, 227, 228, 229, 230, 231, 232, 0, 6, 0, 0, 128,
      63], false⟩ = .ok (r, s1) ∧
      vertex_list.load ⟨0, 1, 2⟩ ⟨1, 1, 1, 1, 1, 1⟩ ⟨0, [], [], 0⟩
        ⟨[2, 0, 0, 0, 1, 2, 3, 4, 5, 6, 7, 8, 9, 10, 11, 12, 21, 22, 23, 24, 25, 26, 27, 28, 29,
      30, 31, 32, 41, 42, 43, 44, 45, 46, 47, 48, 101, 102, 103, 104, 105, 106, 107, 108, 109,
      110, 111, 112, 113, 114, 115, 116, 117, 118, 119, 120, 121, 122, 123, 124, 125, 126,
      127, 128, 129, 130, 131, 132, 0, 5, 0, 0, 128, 63, 1, 2, 3, 4, 5, 6, 7, 8, 9, 10, 11,
      12, 21, 22, 23, 24, 25, 26, 27, 28, 29, 30, 31, 32, 41, 42, 43, 44, 45, 46, 47, 48, 201,
      202, 203, 204, 205, 206, 207, 208, 209, 210, 211, 212, 213, 214, 215, 216, 217, 218,
      219, 220, 221, 222, 223, 224, 225, 226, 227, 228, 229, 230, 231, 232, 0, 6, 0, 0, 128,
      63], false⟩ ≠ .error .overrun ∧
      r.data.length = 2 ∧ r.additional_uvs.length = 2 * 2 ∧ r.additional_uvs_count = 2 * 2 ∧
      r.data.map (fun v => v.additional_uv) = [some 0, some 2] ∧
      r.additional_uvs = [[101, 102, 103, 104, 105, 106, 107, 108, 109, 110, 111, 112, 113, 114, 115, 116],
      [117, 118, 119, 120, 121, 122, 123, 124, 125, 126, 127, 128, 129, 130, 131, 132],
      [201, 202, 203, 204, 205, 206, 207, 208, 209, 210, 211, 212, 213, 214, 215, 216],
      [217, 218, 219, 220, 221, 222, 223, 224, 225, 226, 227, 228, 229, 230, 231, 232]] := by
  have h := extra_uv_cursor_invariant ⟨0, 1, 2⟩ ⟨1, 1, 1, 1, 1, 1⟩ ⟨0, [], [], 0⟩
    ⟨[2, 0, 0, 0, 1, 2, 3, 4, 5, 6, 7, 8, 9, 10, 11, 12, 21, 22, 23, 24, 25, 26, 27, 28, 29,
      30, 31, 32, 41, 42, 43, 44, 45, 46, 47, 48, 101, 102, 103, 104, 105, 106, 107, 108, 109,
      110, 111, 112, 113, 114, 115, 116, 117, 118, 119, 120, 121, 122, 123, 124, 125, 126,
      127, 128, 129, 130, 131, 132, 0, 5, 0, 0, 128, 63, 1, 2, 3, 4, 5, 6, 7, 8, 9, 10, 11,
      12, 21, 22, 23, 24, 25, 26, 27, 28, 29, 30, 31, 32, 41, 42, 43, 44, 45, 46, 47, 48, 201,
      202, 203, 204, 205, 206, 207, 208, 209, 210, 211, 212, 213, 214, 215, 216, 217, 218,
      219, 220, 221, 222, 223, 224, 225, 226, 227, 228, 229, 230, 231, 232, 0, 6, 0, 0, 128,
      63], false⟩ 2 2 rfl (by decide) (by decide) (by decide)
    (fun h0 => absurd h0 (by decide))
  have hrun : vertex_list.load_loop ⟨0, 1, 2⟩ ⟨1, 1, 1, 1, 1, 1⟩ 2 [] (List.replicate (2 * 2) []) 0
      (ifstream.read_into ⟨[2, 0, 0, 0, 1, 2, 3, 4, 5, 6, 7, 8, 9, 10, 11, 12, 21, 22, 23, 24, 25, 26, 27, 28, 29,
      30, 31, 32, 41, 42, 43, 44, 45, 46, 47, 48, 101, 102, 103, 104, 105, 106, 107, 108, 109,
      110, 111, 112, 113, 114, 115, 116, 117, 118, 119, 120, 121, 122, 123, 124, 125, 126,
      127, 128, 129, 130, 131, 132, 0, 5, 0, 0, 128, 63, 1, 2, 3, 4, 5, 6, 7, 8, 9, 10, 11,
      12, 21, 22, 23, 24, 25, 26, 27, 28, 29, 30, 31, 32, 41, 42, 43, 44, 45, 46, 47, 48, 201,
      202, 203, 204, 205, 206, 207, 208, 209, 210, 211, 212, 213, 214, 215, 216, 217, 218,
      219, 220, 221, 222, 223, 224, 225, 226, 227, 228, 229, 230, 231, 232, 0, 6, 0, 0, 128,
      63], false⟩ 4
        (le_bytes 4 (vertex_list.count ⟨0, [], [], 0⟩))).2 =
      .ok ([⟨[1, 2, 3, 4, 5, 6, 7, 8, 9, 10, 11, 12],
      [21, 22, 23, 24, 25, 26, 27, 28, 29, 30, 31, 32], [41, 42, 43, 44, 45, 46, 47, 48],
      some 0, 0, .bdef1 5, [0, 0, 128, 63]⟩,
    ⟨[1, 2, 3, 4, 5, 6, 7, 8, 9, 10, 11, 12],
      [21, 22, 23, 24, 25, 26, 27, 28, 29, 30, 31, 32], [41, 42, 43, 44, 45, 46, 47, 48],
      some 2, 0, .bdef1 6, [0, 0, 128, 63]⟩],
        [[101, 102, 103, 104, 105, 106, 107, 108, 109, 110, 111, 112, 113, 114, 115, 116],
      [117, 118, 119, 120, 121, 122, 123, 124, 125, 126, 127, 128, 129, 130, 131, 132],
      [201, 202, 203, 204, 205, 206, 207, 208, 209, 210, 211, 212, 213, 214, 215, 216],
      [217, 218, 219, 220, 221, 222, 223, 224, 225, 226, 227, 228, 229, 230, 231, 232]], 4, ⟨[], false⟩) := by
    decide
  obtain ⟨hD, hS, hC, -, -⟩ := h.2.2.1 2 (le_refl _) _ _ _ _ hrun
  refine ⟨⟨2, [⟨[1, 2, 3, 4, 5, 6, 7, 8, 9, 10, 11, 12],
      [21, 22, 23, 24, 25, 26, 27, 28, 29, 30, 31, 32], [41, 42, 43, 44, 45, 46, 47, 48],
      some 0, 0, .bdef1 5, [0, 0, 128, 63]⟩,
    ⟨[1, 2, 3, 4, 5, 6, 7, 8, 9, 10, 11, 12],
      [21, 22, 23, 24, 25, 26, 27, 28, 29, 30, 31, 32], [41, 42, 43, 44, 45, 46, 47, 48],
      some 2, 0, .bdef1 6, [0, 0, 128, 63]⟩],
    [[101, 102, 103, 104, 105, 106, 107, 108, 109, 110, 111, 112, 113, 114, 115, 116],
      [117, 118, 119, 120, 121, 122, 123, 124, 125, 126, 127, 128, 129, 130, 131, 132],
      [201, 202, 203, 204, 205, 206, 207, 208, 209, 210, 211, 212, 213, 214, 215, 216],
      [217, 218, 219, 220, 221, 222, 223, 224, 225, 226, 227, 228, 229, 230, 231, 232]], 4⟩, ⟨[], false⟩, ?_, h.1, hD, hS, hC, rfl, rfl⟩
  rw [h.2.1, hrun]
  rfl

/-! ## Face index conversion -/

theorem to_signed_bounds (w u : Nat) (hw : w = 1 ∨ w = 2 ∨ w = 4) :
    -(2 : Int) ^ 31 ≤ to_signed (8 * w) u ∧ to_signed (8 * w) u < 2 ^ 31 := by
  rcases hw with rfl | rfl | rfl
  · have h := Nat.mod_lt u (show 2 ^ (8 * 1) > 0 by norm_num)
    simp only [to_signed]
    norm_num at h ⊢
    split <;> omega
  · have h := Nat.mod_lt u (show 2 ^ (8 * 2) > 0 by norm_num)
    simp only [to_signed]
    norm_num at h ⊢
    split <;> omega
  · have h := Nat.mod_lt u (show 2 ^ (8 * 4) > 0 by norm_num)
    simp only [to_signed]
    norm_num at h ⊢
    split <;> omega

/-- C24: on a good stream holding the `w` bytes of a vertex index (`w` in {1,2,4}),
`face_t::load` reads what `index_t::load` reads for the vertex category, leaves the stream
where that read leaves it, and stores in the `uint32_t` member the sign-extended index taken
modulo `2 ^ 32`: the index itself when it is not negative, the index plus `2 ^ 32` when it
is negative. -/
theorem face_load_vertex_index (index_size : index_size_t) (s : ifstream) (w : Nat)
    (hw : w = 1 ∨ w = 2 ∨ w = 4)
    (hsize : index_size.bytes.getD index_type.VERTEX.toNat 0 = w)
    (hf : s.failbit = false) (hlen : w ≤ s.buf.length) :
    ∃ (idx : Int) (f : face_t) (s1 : ifstream),
      index_t.load index_size s .VERTEX = .ok (idx, s1) ∧
      face_t.load index_size s = .ok (f, s1) ∧
      s1 = ⟨s.buf.drop w, false⟩ ∧
      (f.vertex_index : Int) = idx % 2 ^ 32 ∧ f.vertex_index < 2 ^ 32 ∧
      (0 ≤ idx → (f.vertex_index : Int) = idx) ∧
      (idx < 0 → (f.vertex_index : Int) = idx + 2 ^ 32) := by
  have hidx := index_load_of_size index_size s .VERTEX w hw hsize hf hlen
  obtain ⟨hlo, hhi⟩ := to_signed_bounds w (le_value (s.buf.take w)) hw
  generalize to_signed (8 * w) (le_value (s.buf.take w)) = idx at hidx hlo hhi
  refine ⟨idx, ⟨(idx % 2 ^ 32).toNat⟩, _, hidx, ?_, rfl, ?_, ?_, ?_, ?_⟩
  · simp only [face_t.load, bind, Except.bind, hidx, pure, Except.pure]
  · simp only
    omega
  · simp only
    omega
  · intro h
    simp only
    omega
  · intro h
    simp only
    omega

/-- Witness of C24: with width 1 the byte `0xFF` is the index `-1` and is stored as
`4294967295`. -/
theorem face_load_vertex_index_witness :
    ∃ (f : face_t) (s1 : ifstream),
      index_t.load ⟨1, 1, 1, 1, 1, 1⟩ ⟨[255, 7], false⟩ .VERTEX = .ok (-1, s1) ∧
      face_t.load ⟨1, 1, 1, 1, 1, 1⟩ ⟨[255, 7], false⟩ = .ok (f, s1) ∧
      s1 = ⟨[7], false⟩ ∧ f.vertex_index = 4294967295 := by
  obtain ⟨idx, f, s1, h1, h2, h3, -, -, -, h7⟩ :=
    face_load_vertex_index ⟨1, 1, 1, 1, 1, 1⟩ ⟨[255, 7], false⟩ 1 (Or.inl rfl) rfl rfl (by decide)
  have hd : index_t.load ⟨1, 1, 1, 1, 1, 1⟩ ⟨[255, 7], false⟩ .VERTEX =
      .ok (-1, ⟨[7], false⟩) := by decide
  rw [hd] at h1
  simp only [Except.ok.injEq, Prod.mk.injEq] at h1
  obtain ⟨hi, hs⟩ := h1
  subst hi
  have h8 := h7 (by decide)
  refine ⟨f, s1, ?_, h2, h3, ?_⟩
  · rw [hd, hs]
  · omega


/-! ## Link records -/

/-- C21: on a good stream, with bone index width `w` in {1,2,4} and flag byte `f` (the byte
after the index, as a value `0..255`), `link_t::load` reads the bone index from the first
`w` bytes and the flag from the next one; when `f = 1` it also reads the lower and the upper
limit vector from the 24 bytes that follow, and for every other `f` it reads no vector and
extracts `w + 1` bytes only. -/
theorem link_load_limit_flag (index_size : index_size_t) (s : ifstream) (w f : Nat)
    (hw : w = 1 ∨ w = 2 ∨ w = 4)
    (hsize : index_size.bytes.getD index_type.BONE.toNat 0 = w)
    (hfb : s.failbit = false)
    (hflag : le_value ((s.buf.drop w).take 1) = f)
    (hlen : w + 1 + (if f = 1 then 24 else 0) ≤ s.buf.length) :
    ∃ (l : link_t) (s1 : ifstream),
      link_t.load index_size s = .ok (l, s1) ∧
      l.ik_bone_index = to_signed (8 * w) (le_value (s.buf.take w)) ∧
      l.has_limit = to_signed 8 f ∧
      s1 = ⟨s.buf.drop (w + 1 + (if f = 1 then 24 else 0)), false⟩ ∧
      consumed s s1 = w + 1 + (if f = 1 then 24 else 0) ∧
      (f = 1 → l.lower_limit = some ((s.buf.drop (w + 1)).take 12) ∧
        l.upper_limit = some ((s.buf.drop (w + 13)).take 12) ∧ consumed s s1 = w + 25) ∧
      (f ≠ 1 → l.lower_limit = none ∧ l.upper_limit = none ∧ consumed s s1 = w + 1) := by
  obtain ⟨buf, fb⟩ := s
  simp only at hfb hflag hlen
  subst hfb
  have hf256 : f < 256 := by
    have h := le_value_lt ((buf.drop w).take 1)
    have hl : ((buf.drop w).take 1).length = 1 := by
      rw [List.length_take, List.length_drop]; omega
    rw [hl, hflag] at h
    omega
  have e1 := index_load_drop index_size .BONE buf 0 w hw hsize (by omega)
  have e2 := read_ok_drop buf (0 + w) 1 (by omega)
  simp only [List.drop_zero, Nat.zero_add] at e1 e2
  by_cases h1 : f = 1
  · have hs : to_signed 8 f = 1 := (to_signed_byte_one f hf256).2 h1
    rw [if_pos h1] at hlen
    have e3 := read_ok_drop buf (w + 1) 12 (by omega)
    have e4 := read_ok_drop buf (w + 1 + 12) 12 (by omega)
    have o1 : w + 1 + 12 = w + 13 := by omega
    have o2 : w + 1 + 12 + 12 = w + 1 + 24 := by omega
    rw [o1] at e4
    rw [o1] at e3
    have o3 : w + 13 + 12 = w + 1 + 24 := by omega
    rw [o3] at e4
    refine ⟨⟨to_signed (8 * w) (le_value (buf.take w)), to_signed 8 f,
      some ((buf.drop (w + 1)).take 12), some ((buf.drop (w + 13)).take 12)⟩,
      ⟨buf.drop (w + 1 + 24), false⟩, ?_, rfl, rfl, by rw [if_pos h1], ?_, ?_, ?_⟩
    · simp only [link_t.load, bind, Except.bind, e1, e2, hflag, hs, if_true, e3, e4, pure,
        Except.pure]
    · simp only [consumed, List.length_drop, if_pos h1]
      omega
    · intro _
      refine ⟨rfl, rfl, ?_⟩
      simp only [consumed, List.length_drop]
      omega
    · intro h
      exact absurd h1 h
  · have hs : ¬ to_signed 8 f = 1 := fun h => h1 ((to_signed_byte_one f hf256).1 h)
    rw [if_neg h1] at hlen
    refine ⟨⟨to_signed (8 * w) (le_value (buf.take w)), to_signed 8 f, none, none⟩,
      ⟨buf.drop (w + 1), false⟩, ?_, rfl, rfl, by rw [if_neg h1], ?_, ?_, ?_⟩
    · simp only [link_t.load, bind, Except.bind, e1, e2, hflag, hs, if_false, pure,
        Except.pure]
    · simp only [consumed, List.length_drop, if_neg h1]
      omega
    · intro h
      exact absurd h h1
    · intro _
      refine ⟨rfl, rfl, ?_⟩
      simp only [consumed, List.length_drop]
      omega

/-- Witness of C21: width 2 and flag byte 2: the index `-2`, no limit vector, three bytes
extracted and the byte after them left in the stream. -/
theorem link_load_limit_flag_witness :
    ∃ (l : link_t) (s1 : ifstream),
      link_t.load ⟨1, 1, 1, 2, 1, 1⟩ ⟨[254, 255, 2, 9], false⟩ = .ok (l, s1) ∧
      l.ik_bone_index = -2 ∧ l.has_limit = 2 ∧ l.lower_limit = none ∧ l.upper_limit = none ∧
      s1 = ⟨[9], false⟩ ∧ consumed ⟨[254, 255, 2, 9], false⟩ s1 = 2 + 1 := by
  obtain ⟨l, s1, h1, h2, h3, h4, -, -, h7⟩ := link_load_limit_flag ⟨1, 1, 1, 2, 1, 1⟩
    ⟨[254, 255, 2, 9], false⟩ 2 2 (Or.inr (Or.inl rfl)) rfl rfl (by decide) (by decide)
  obtain ⟨h8, h9, h10⟩ := h7 (by decide)
  refine ⟨l, s1, h1, ?_, ?_, h8, h9, ?_, h10⟩
  · rw [h2]; decide
  · rw [h3]; decide
  · rw [h4]; decide


/-! ## IK block without links -/

/-- C22: a bone record with `INV_KINEMATICS` set whose signed 32-bit `link_count` is zero or
negative, decoded with bone index width `w` in {1,2,4} after its two names, makes
`bone_t::load` read no link record: `links` stays empty, the IK block is the `w + 12` bytes
of target index, iterations, limit angle and `link_count`, and the stream is left right after
these bytes.  For every four bytes `cb` holding a count that is not positive, the IK block
`head ++ cb` leaves the same stream `rest`. -/
theorem bone_load_no_links (info : info_t) (index_size : index_size_t) (ec : Nat)
    (s s1 s2 : ifstream) (n1 n2 : text) (ec1 ec2 : Nat) (w flag : Nat) (lc : Int)
    (hw : w = 1 ∨ w = 2 ∨ w = 4)
    (hsize : index_size.bytes.getD index_type.BONE.toNat 0 = w)
    (h1 : text.load info ec ⟨[]⟩ s = .ok (n1, ec1, s1))
    (h2 : text.load info ec1 ⟨[]⟩ s1 = .ok (n2, ec2, s2))
    (hflag : le_value ((s2.buf.drop (12 + w + 4)).take 2) = flag)
    (hik : flag &&& INV_KINEMATICS ≠ 0)
    (hlen : bone_block_offset w flag 9 + (w + 12) ≤ s2.buf.length)
    (hlc : to_signed 32
      (le_value ((s2.buf.drop (bone_block_offset w flag 9 + w + 8)).take 4)) = lc)
    (hle : lc ≤ 0) :
    (∃ b : bone_t,
      bone_t.load info index_size ec s =
        .ok (b, ec2, ⟨s2.buf.drop (bone_block_offset w flag 9 + (w + 12)), false⟩) ∧
      b.link_count = some lc ∧ b.links = [] ∧
      b.ik_bone_index = some (to_signed (8 * w)
        (le_value ((s2.buf.drop (bone_block_offset w flag 9)).take w))) ∧
      b.iterations = some (to_signed 32
        (le_value ((s2.buf.drop (bone_block_offset w flag 9 + w)).take 4))) ∧
      b.limit_angle = some ((s2.buf.drop (bone_block_offset w flag 9 + w + 4)).take 4)) ∧
    consumed s ⟨s2.buf.drop (bone_block_offset w flag 9 + (w + 12)), false⟩ =
      consumed s s1 + consumed s1 s2 + bone_block_offset w flag 9 + (w + 12) ∧
    (∀ head cb rest : List Nat, head.length = w + 8 → cb.length = 4 →
      to_signed 32 (le_value cb) ≤ 0 →
      ∃ ik : ik_block,
        bone_t.load_ik index_size flag ⟨head ++ cb ++ rest, false⟩ = .ok (ik, ⟨rest, false⟩) ∧
        ik.link_count = some (to_signed 32 (le_value cb)) ∧ ik.links = [] ∧
        consumed ⟨head ++ cb ++ rest, false⟩ ⟨rest, false⟩ = w + 12) := by
  obtain ⟨-, hf1, k1, -, hk1, hb1⟩ := text_load_advances _ _ _ _ _ _ _ h1
  obtain ⟨-, hf2, k2, -, hk2, hb2⟩ := text_load_advances _ _ _ _ _ _ _ h2
  obtain ⟨buf, fb⟩ := s2
  simp only at hf2 hflag hlen hlc hb2
  subst hf2
  have hfix := bone_fixed_size_eq w flag
  have hoff := bone_block_offset_nine w flag
  have hz : lc.toNat = 0 := by omega
  refine ⟨⟨bone_of_layout w n1 n2 buf [], ?_, ?_, ?_, ?_, ?_, ?_⟩, ?_, ?_⟩
  · have hcore := bone_load_core info index_size ec s s1 n1 n2 ec1 ec2 buf w flag hw hsize h1 h2
      hflag _ _ _ _ _ _ rfl rfl rfl rfl rfl rfl
      (by rw [hoff] at hlen; rw [if_pos hik]; omega) []
      ⟨buf.drop (bone_block_offset w flag 9 + (w + 12)), false⟩
      (by
        intro _
        rw [hoff] at hlc ⊢
        rw [hlc, hz, load_links_zero]
        simp only [← Nat.add_assoc])
    rw [hcore, if_pos hik]
  · simp only [bone_of_layout, hflag, if_pos hik, hlc]
  · simp only [bone_of_layout, hflag, if_pos hik]
  · simp only [bone_of_layout, hflag, if_pos hik]
  · simp only [bone_of_layout, hflag, if_pos hik]
  · simp only [bone_of_layout, hflag, if_pos hik]
  · have hl1 : s1.buf.length = s.buf.length - k1 := by rw [hb1, List.length_drop]
    have hl2 : buf.length = s1.buf.length - k2 := by rw [hb2, List.length_drop]
    simp only [consumed, List.length_drop]
    omega
  · intro head cb rest hhl hcl hcb
    have hd1 : (head ++ cb ++ rest).drop (0 + w + 8) = cb ++ rest := by
      rw [List.append_assoc]
      exact List.drop_left' (by omega)
    have hd2 : (head ++ cb ++ rest).drop (0 + w + 12) = rest := by
      apply List.drop_left'
      rw [List.length_append]; omega
    have hcz : (to_signed 32 (le_value cb)).toNat = 0 := by omega
    have hik2 := load_ik_ok index_size flag w (head ++ cb ++ rest) 0 hw hsize
      (by rw [if_pos hik]; simp only [List.length_append]; omega) [] ⟨rest, false⟩
      (by
        intro _
        rw [hd1, hd2, List.take_left' hcl, hcz, load_links_zero])
    rw [List.drop_zero, if_pos hik, if_pos hik, hd1, List.take_left' hcl] at hik2
    refine ⟨_, hik2, rfl, rfl, ?_⟩
    simp only [consumed, List.length_append]
    omega


/-- Witness of C22: two empty names, flag word `CONNECTION | INV_KINEMATICS`, width 1 and
`link_count = -1`: 8 bytes of names, 20 bytes up to the IK block and 13 bytes of IK block;
the two bytes after it stay in the stream. -/
theorem bone_load_no_links_witness :
    ∃ b : bone_t,
      bone_t.load ⟨0, 1, 0⟩ ⟨1, 1, 1, 1, 1, 1⟩ 0
        ⟨[0, 0, 0, 0, 0, 0, 0, 0, 1, 2, 3, 4, 5, 6, 7, 8, 9, 10, 11, 12, 255, 0, 0, 0, 0, 33, 0,
          5, 3, 40, 0, 0, 0, 0, 0, 128, 63, 255, 255, 255, 255, 2, 0], false⟩ =
        .ok (b, 2, ⟨[2, 0], false⟩) ∧
      b.link_count = some (-1) ∧ b.links = [] ∧
      consumed ⟨[0, 0, 0, 0, 0, 0, 0, 0, 1, 2, 3, 4, 5, 6, 7, 8, 9, 10, 11, 12, 255, 0, 0, 0, 0,
          33, 0, 5, 3, 40, 0, 0, 0, 0, 0, 128, 63, 255, 255, 255, 255, 2, 0], false⟩
        ⟨[2, 0], false⟩ = 4 + 4 + 20 + (1 + 12) := by
  obtain ⟨⟨b, h, hc, hl, -⟩, hcons, -⟩ := bone_load_no_links ⟨0, 1, 0⟩ ⟨1, 1, 1, 1, 1, 1⟩ 0
    ⟨[0, 0, 0, 0, 0, 0, 0, 0, 1, 2, 3, 4, 5, 6, 7, 8, 9, 10, 11, 12, 255, 0, 0, 0, 0, 33, 0,
      5, 3, 40, 0, 0, 0, 0, 0, 128, 63, 255, 255, 255, 255, 2, 0], false⟩
    ⟨[0, 0, 0, 0, 1, 2, 3, 4, 5, 6, 7, 8, 9, 10, 11, 12, 255, 0, 0, 0, 0, 33, 0,
      5, 3, 40, 0, 0, 0, 0, 0, 128, 63, 255, 255, 255, 255, 2, 0], false⟩
    ⟨[1, 2, 3, 4, 5, 6, 7, 8, 9, 10, 11, 12, 255, 0, 0, 0, 0, 33, 0,
      5, 3, 40, 0, 0, 0, 0, 0, 128, 63, 255, 255, 255, 255, 2, 0], false⟩
    ⟨unnamed ++ to_string 0⟩ ⟨unnamed ++ to_string 1⟩ 1 2 1 33 (-1) (Or.inl rfl) rfl
    (by decide) (by decide) (by decide) (by decide) (by decide) (by decide) (by decide)
  exact ⟨b, h, hc, hl, hcons⟩


/-! ## Termination of the UTF-16 decode loop -/

theorem utf16_to_code_result (l : List Nat) :
    text.utf16_to_code l = .error .indeterminate ∨
      ∃ r c, text.utf16_to_code l = .ok (r, c) ∧ (r = 1 ∨ r = 2) := by
  unfold text.utf16_to_code
  match l with
  | [] => exact Or.inl rfl
  | high :: rest =>
    by_cases h : high > 0xD800
    · match rest with
      | [] => simp only [if_pos h]; exact Or.inl trivial
      | low :: t => simp only [if_pos h]; exact Or.inr ⟨2, _, rfl, Or.inr rfl⟩
    · simp only [if_neg h]; exact Or.inr ⟨1, _, rfl, Or.inl rfl⟩

theorem code_to_utf8_appends (c : Nat) (out : List Nat) :
    ∃ t, text.code_to_utf8 c out = out ++ t ∧ 1 ≤ t.length ∧ t.length ≤ 4 := by
  unfold text.code_to_utf8
  split
  · exact ⟨_, rfl, by simp, by simp⟩
  · split
    · exact ⟨_, rfl, by simp, by simp⟩
    · split
      · exact ⟨_, rfl, by simp, by simp⟩
      · exact ⟨_, rfl, by simp, by simp⟩

theorem decode_loop_budget (us : List Nat) (size : Nat) :
    ∀ (fuel i : Nat) (data : List Nat), size ≤ i + fuel →
      text.decode_loop us size fuel i data ≠ .error .fuel ∧
      ∀ out, text.decode_loop us size fuel i data = .ok out →
        data <+: out ∧ out.length ≤ data.length + 4 * (size - i) := by
  intro fuel
  induction fuel with
  | zero =>
    intro i data h
    have hn : ¬ i < size := by omega
    simp only [text.decode_loop, if_neg hn]
    refine ⟨(fun h => by cases h), ?_⟩
    intro out ho
    simp only [Except.ok.injEq] at ho
    subst ho
    exact ⟨List.prefix_refl _, by omega⟩
  | succ fuel ih =>
    intro i data h
    by_cases hlt : i < size
    · simp only [text.decode_loop, if_pos hlt, bind, Except.bind]
      rcases utf16_to_code_result (us.drop i) with he | ⟨r, c, hr, hr12⟩
      · rw [he]
        exact ⟨(fun h => by cases h), (fun out ho => by cases ho)⟩
      · rw [hr]
        simp only
        obtain ⟨t, ht, ht1, ht4⟩ := code_to_utf8_appends c data
        obtain ⟨hnf, hb⟩ := ih (i + r) (text.code_to_utf8 c data) (by omega)
        refine ⟨hnf, ?_⟩
        intro out ho
        obtain ⟨hp, hlen⟩ := hb out ho
        refine ⟨List.IsPrefix.trans ⟨t, ht.symm⟩ hp, ?_⟩
        rw [ht, List.length_append] at hlen
        omega
    · simp only [text.decode_loop, if_neg hlt]
      refine ⟨(fun h => by cases h), ?_⟩
      intro out ho
      simp only [Except.ok.injEq] at ho
      subst ho
      exact ⟨List.prefix_refl _, by omega⟩

theorem decode_loop_budget_free (us : List Nat) (size : Nat) :
    ∀ (fuel1 fuel2 i : Nat) (data : List Nat), size ≤ i + fuel1 → size ≤ i + fuel2 →
      text.decode_loop us size fuel1 i data = text.decode_loop us size fuel2 i data := by
  intro fuel1
  induction fuel1 with
  | zero =>
    intro fuel2 i data h1 _
    have hn : ¬ i < size := by omega
    cases fuel2 <;> simp only [text.decode_loop, if_neg hn]
  | succ fuel1 ih =>
    intro fuel2 i data h1 h2
    by_cases hlt : i < size
    · cases fuel2 with
      | zero => omega
      | succ fuel2 =>
        simp only [text.decode_loop, if_pos hlt, bind, Except.bind]
        rcases utf16_to_code_result (us.drop i) with he | ⟨r, c, hr, hr12⟩
        · rw [he]
        · rw [hr]
          exact ih fuel2 (i + r) _ (by omega) (by omega)
    · cases fuel2 <;> simp only [text.decode_loop, if_neg hlt]

theorem decode_loop_completes (us : List Nat) (size : Nat) (hsz : size ≤ us.length)
    (hlast : us.getD (size - 1) 0 ≤ 0xD800) :
    ∀ (fuel i : Nat) (data : List Nat), i ≤ size → size ≤ i + fuel →
      ∃ out, text.decode_loop us size fuel i data = .ok out := by
  intro fuel
  induction fuel with
  | zero =>
    intro i data _ h
    have hn : ¬ i < size := by omega
    exact ⟨data, by simp only [text.decode_loop, if_neg hn]⟩
  | succ fuel ih =>
    intro i data hi h
    by_cases hlt : i < size
    · have hiu : i < us.length := by omega
      have hdrop : us.drop i = us[i] :: us.drop (i + 1) := List.drop_eq_getElem_cons hiu
      simp only [text.decode_loop, if_pos hlt, bind, Except.bind, hdrop]
      by_cases hu : us[i] ≤ 0xD800
      · rw [utf16_to_code_single _ _ hu]
        exact ih (i + 1) _ (by omega) (by omega)
      · have hne : i ≠ size - 1 := by
          intro he
          apply hu
          rw [← he, List.getD_eq_getElem _ _ hiu] at hlast
          exact hlast
        have hi1 : i + 1 < us.length := by omega
        have hdrop1 : us.drop (i + 1) = us[i + 1] :: us.drop (i + 1 + 1) :=
          List.drop_eq_getElem_cons hi1
        rw [hdrop1, utf16_to_code_pair _ _ _ (by omega)]
        exact ih (i + 2) _ (by omega) (by omega)
    · exact ⟨data, by simp only [text.decode_loop, if_neg hlt]⟩


/-- C23: for a UTF-16 string field of byte length `n` (`1 ≤ n ≤ 1600`, all its bytes in the
stream), the decode loop of `text::load` needs no more than `n / 2` iterations: run with the
iteration budget `n / 2` it never exhausts the budget, and a larger budget changes nothing.
The reason is that `text::utf16_to_code` returns 1 or 2 whenever it returns, so the loop index
grows each time; `text::code_to_utf8` appends at most 4 bytes, so a decoded string is at most
`4 * (n / 2)` bytes longer than before; and the loop completes whenever the last unit of the
field does not open a pair.  The budget bound holds for any units and any unit count. -/
theorem utf16_loop_terminates (info : info_t) (ec : Nat) (self : text) (s : ifstream)
    (lenb b rest : List Nat) (henc : info.encoding_type = 0) (hf : s.failbit = false)
    (hbuf : s.buf = lenb ++ b ++ rest) (hl : lenb.length = 4)
    (hn : le_value lenb = b.length) (h1 : 1 ≤ b.length) (h1600 : b.length ≤ 1600) :
    text.load info ec self s ≠ .error .fuel ∧
    (∀ fuel, b.length / 2 ≤ fuel →
      text.decode_loop (u16_units b) (b.length / 2) fuel 0 self.data =
        text.decode_loop (u16_units b) (b.length / 2) (b.length / 2) 0 self.data) ∧
    (∀ i r c, text.utf16_to_code ((u16_units b).drop i) = .ok (r, c) → r = 1 ∨ r = 2) ∧
    (∀ c out, out <+: text.code_to_utf8 c out ∧
      (text.code_to_utf8 c out).length ≤ out.length + 4) ∧
    (∀ t ec1 s1, text.load info ec self s = .ok (t, ec1, s1) →
      text.decode_loop (u16_units b) (b.length / 2) (b.length / 2) 0 self.data = .ok t.data ∧
      self.data <+: t.data ∧ t.data.length ≤ self.data.length + 4 * (b.length / 2) ∧
      ec1 = ec ∧ s1 = ⟨rest, false⟩) ∧
    ((u16_units b).getD (b.length / 2 - 1) 0 ≤ 0xD800 →
      ∃ t, text.load info ec self s = .ok (t, ec, ⟨rest, false⟩)) ∧
    (∀ (us : List Nat) (size : Nat) (data : List Nat),
      text.decode_loop us size size 0 data ≠ .error .fuel) := by
  have htake : s.buf.take 4 = lenb := by
    rw [hbuf, List.append_assoc, List.take_left' hl]
  have hdrop : s.buf.drop 4 = b ++ rest := by
    rw [hbuf, List.append_assoc, List.drop_left' hl]
  have hlen : s.buf.length = 4 + b.length + rest.length := by
    rw [hbuf, List.length_append, List.length_append, hl]
  have hval : le_value (s.buf.take 4) = b.length := by rw [htake, hn]
  have e := read_ok_drop s.buf 4 b.length (by omega)
  rw [hdrop, List.take_left, ← List.drop_drop, hdrop, List.drop_left] at e
  have hnz : ¬ b.length = 0 := by omega
  have hcap : ¬ b.length > 1600 := by omega
  have hload : text.load info ec self s =
      (text.decode_loop (u16_units b) (b.length / 2) (b.length / 2) 0 self.data).bind
        (fun d => .ok (⟨d⟩, ec, ⟨rest, false⟩)) := by
    simp only [text.load, bind, Except.bind, read_ok s 4 hf (by omega), hval, hnz, henc,
      hcap, if_true, if_false, hdrop, e, pure, Except.pure]
  obtain ⟨hnf, hbound⟩ := decode_loop_budget (u16_units b) (b.length / 2) (b.length / 2) 0
    self.data (by omega)
  refine ⟨?_, ?_, ?_, ?_, ?_, ?_,
    fun us size data => (decode_loop_budget us size size 0 data (by omega)).1⟩
  · rw [hload]
    cases hd : text.decode_loop (u16_units b) (b.length / 2) (b.length / 2) 0 self.data with
    | error err =>
      intro h
      simp only [Except.bind, Except.error.injEq] at h
      exact hnf (by rw [hd, h])
    | ok d =>
      intro h
      cases h
  · intro fuel hfuel
    exact decode_loop_budget_free _ _ _ _ _ _ (by omega) (by omega)
  · intro i r c h
    rcases utf16_to_code_result ((u16_units b).drop i) with he | ⟨r1, c1, hr, hr12⟩
    · rw [he] at h; cases h
    · rw [hr] at h
      simp only [Except.ok.injEq, Prod.mk.injEq] at h
      rw [← h.1]
      exact hr12
  · intro c out
    obtain ⟨t, ht, -, ht4⟩ := code_to_utf8_appends c out
    refine ⟨⟨t, ht.symm⟩, ?_⟩
    rw [ht, List.length_append]
    omega
  · intro t ec1 s1 h
    rw [hload] at h
    cases hd : text.decode_loop (u16_units b) (b.length / 2) (b.length / 2) 0 self.data with
    | error err => rw [hd] at h; cases h
    | ok d =>
      rw [hd] at h
      simp only [Except.bind, Except.ok.injEq, Prod.mk.injEq] at h
      obtain ⟨ht, hec, hs⟩ := h
      subst ht
      obtain ⟨hp, hle⟩ := hbound d hd
      rw [Nat.sub_zero] at hle
      exact ⟨rfl, hp, hle, hec.symm, hs.symm⟩
  · intro hlast
    obtain ⟨d, hd⟩ := decode_loop_completes (u16_units b) (b.length / 2)
      (by rw [u16_units_length]) hlast (b.length / 2) 0 self.data (Nat.zero_le _) (by omega)
    exact ⟨⟨d⟩, by rw [hload, hd]; rfl⟩

/-- Witness of C23: the field of 6 bytes holding the units `0041 D83D DE00`: the loop stops
after two iterations (budget 3), with the 5 bytes `41 F0 9F 98 80`. -/
theorem utf16_loop_terminates_witness :
    text.load ⟨0, 0, 0⟩ 0 ⟨[]⟩
        ⟨[6, 0, 0, 0, 0x41, 0, 0x3D, 0xD8, 0x00, 0xDE, 9], false⟩ =
      .ok (⟨[0x41, 0xF0, 0x9F, 0x98, 0x80]⟩, 0, ⟨[9], false⟩) ∧
    text.load ⟨0, 0, 0⟩ 0 ⟨[]⟩
        ⟨[6, 0, 0, 0, 0x41, 0, 0x3D, 0xD8, 0x00, 0xDE, 9], false⟩ ≠ .error .fuel ∧
    text.decode_loop (u16_units [0x41, 0, 0x3D, 0xD8, 0x00, 0xDE]) (6 / 2) (6 / 2) 0 [] =
      .ok [0x41, 0xF0, 0x9F, 0x98, 0x80] ∧
    [0x41, 0xF0, 0x9F, 0x98, 0x80].length ≤ 0 + 4 * (6 / 2) := by
  have hd : text.load ⟨0, 0, 0⟩ 0 ⟨[]⟩
      ⟨[6, 0, 0, 0, 0x41, 0, 0x3D, 0xD8, 0x00, 0xDE, 9], false⟩ =
      .ok (⟨[0x41, 0xF0, 0x9F, 0x98, 0x80]⟩, 0, ⟨[9], false⟩) := by decide
  obtain ⟨h1, -, -, -, h5, -, -⟩ := utf16_loop_terminates ⟨0, 0, 0⟩ 0 ⟨[]⟩
    ⟨[6, 0, 0, 0, 0x41, 0, 0x3D, 0xD8, 0x00, 0xDE, 9], false⟩ [6, 0, 0, 0]
    [0x41, 0, 0x3D, 0xD8, 0x00, 0xDE] [9] rfl rfl rfl rfl (by decide) (by decide) (by decide)
  obtain ⟨h6, -, h8, -, -⟩ := h5 _ _ _ hd
  exact ⟨hd, h1, h6, h8⟩

end pmx
